import Mathlib

/-!
Supervoxel clustering (pcl/segmentation/impl/supervoxel_clustering.hpp).

A shallow embedding of `pcl::SupervoxelClustering<PointT>` and of its inner class
`SupervoxelHelper`.

* Floating point values live in a type `F` with the operations of `FloatOps F`; nothing is
  assumed about them unless a theorem says so.
* The leaves of the adjacency octree live in an arena (`Engine.leaves`).  A leaf pointer
  `LeafContainerT*` is the position of the leaf in the arena, which is also the value
  `idx_` that `computeVoxelData` stores in the leaf.
* A helper pointer `SupervoxelHelper*` (the field `owner_` of a leaf) is the label of the
  helper; a null pointer is `none`.
* Library routines that the file calls but does not define (octree construction, kd-tree
  searches, PCA normal estimation, `CentroidPoint`) are the fields of `Ext F`.
-/

namespace pcl

/-- Arithmetic on the C++ type `float` as used by the clustering code. -/
structure FloatOps (F : Type) where
  add : F → F → F
  sub : F → F → F
  mul : F → F → F
  div : F → F → F
  abs : F → F
  sqrt : F → F
  lt : F → F → Bool
  ofRat : ℚ → F
  ofInt : Int → F
  toInt : F → Int
  isFinite : F → Bool
  maxVal : F

/-- Point with position, colour, normal and curvature: the type `PointXYZRGBNormal`, used for
input points (`PointT`), voxel centroids (`VoxelT`) and helper centroids (`CentroidT`). -/
structure Voxel (F : Type) where
  x : F
  y : F
  z : F
  r : Nat
  g : Nat
  b : Nat
  normal_x : F
  normal_y : F
  normal_z : F
  normal_w : F
  curvature : F
deriving DecidableEq, Repr

/-- Labelled point `PointXYZL`. -/
structure PointXYZL (F : Type) where
  x : F
  y : F
  z : F
  label : Nat
deriving DecidableEq, Repr

/-- Leaf of the adjacency octree: the `VoxelData` it carries (`voxel_centroid_`, `owner_`,
`distance_`) and its neighbour pointers. -/
structure Leaf (F : Type) where
  voxel_centroid_ : Voxel F
  owner_ : Option Nat
  distance_ : F
  neighbors : List Nat
deriving DecidableEq, Repr

/-- Inner class `SupervoxelHelper`: `leaves_` is a `std::set` of leaf pointers ordered by
`idx_`, kept here as a strictly increasing list. -/
structure SupervoxelHelper (F : Type) where
  label_ : Nat
  leaves_ : List Nat
  centroid_ : Voxel F
deriving DecidableEq, Repr

/-- Output record `Supervoxel`. -/
structure Supervoxel (F : Type) where
  centroid_ : Voxel F
  voxels_ : List (Voxel F)
deriving DecidableEq, Repr

/-- Record `SeedNHood` used while pruning seeds. -/
structure SeedNHood where
  neighbor_indices_ : List Nat
  voxel_idx_ : Nat
  seed_idx_ : Nat
  num_active_ : Int
deriving DecidableEq, Repr

/-- Library routines called by the clustering code. -/
structure Ext (F : Type) where
  /-- `pcl::traits::has_normal<PointT>::value`. -/
  has_normal : Bool
  /-- `OctreeAdjacencyT::addPointsFromInputCloud`: from the transform flag, the octree
  resolution and the input cloud, the leaf vector as (voxel centroid, neighbour list). -/
  addPointsFromInputCloud : Bool → F → List (Voxel F) → List (Voxel F × List Nat)
  /-- `OctreeAdjacencyT::getLeafContainerAtPoint` on the octree built from the given cloud. -/
  getLeafContainerAtPoint : Bool → F → List (Voxel F) → Voxel F → Option Nat
  /-- `pcl::computePointNormal`: plane parameters and curvature. -/
  computePointNormal : List (Voxel F) → List Nat → (F × F × F × F) × F
  /-- `pcl::flipNormalTowardsViewpoint` with the viewpoint at the origin: the new values of
  `normal_x`, `normal_y`, `normal_z` of the point. -/
  flipNormalTowardsViewpoint : Voxel F → F × F × F
  /-- `OctreePointCloudSearch::getOccupiedVoxelCenters` of an octree of the given resolution. -/
  getOccupiedVoxelCenters : F → List (Voxel F) → List (Voxel F)
  /-- `KdTree::nearestKSearch` with `k = 1`: the index found. -/
  nearestKSearch : List (Voxel F) → Voxel F → Nat
  /-- `KdTree::radiusSearch`: the indices found. -/
  radiusSearch : List (Voxel F) → Voxel F → F → List Nat
  /-- `CentroidPoint<CentroidT>`: `add` on every element, then `get`. -/
  centroidPoint : List (Voxel F) → Voxel F
  /-- Value of a default constructed `CentroidT`. -/
  defaultCentroid : Voxel F
  /-- Colour drawn by `rand ()` for the table entry of the given position. -/
  randColor : Nat → Nat

/-- Data members of `SupervoxelClustering`. -/
structure Engine (F : Type) where
  resolution_ : F
  seed_resolution_ : F
  octree_resolution_ : F
  use_single_camera_transform_ : Bool
  color_importance_ : F
  spatial_importance_ : F
  normal_importance_ : F
  ignore_input_normals_ : Bool
  prune_close_seeds_ : Bool
  input_ : Option (List (Voxel F))
  leaves : List (Leaf F)
  voxel_centroid_cloud_ : List (Voxel F)
  supervoxel_helpers_ : List (SupervoxelHelper F)
  label_colors_ : List Nat

/-- Map `std::map<uint32_t, Supervoxel::Ptr>`: association list with increasing keys. -/
abbrev SupervoxelMap (F : Type) := List (Nat × Supervoxel F)

section Containers

/-- Insertion into a `std::set` ordered by `<`. -/
def setInsert (a : Nat) : List Nat → List Nat
  | [] => [a]
  | b :: t => if a < b then a :: b :: t else if a = b then b :: t else b :: setInsert a t

/-- Removal from a `std::set`. -/
def setErase (a : Nat) (l : List Nat) : List Nat :=
  l.filter (fun b => b != a)

/-- Assignment `m[k] = v` on a `std::map`. -/
def mapAssign {α : Type} (k : Nat) (v : α) : List (Nat × α) → List (Nat × α)
  | [] => [(k, v)]
  | p :: t =>
    if k < p.1 then (k, v) :: p :: t else if k = p.1 then (k, v) :: t else p :: mapAssign k v t

/-- Insertion `m.insert (k, v)` into a `std::map`: nothing happens when the key is present. -/
def mapInsertNew {α : Type} (k : Nat) (v : α) : List (Nat × α) → List (Nat × α)
  | [] => [(k, v)]
  | p :: t =>
    if k < p.1 then (k, v) :: p :: t else if k = p.1 then p :: t else p :: mapInsertNew k v t

/-- Lookup `m.find (k)` in a `std::map`. -/
def mapFind {α : Type} (k : Nat) : List (Nat × α) → Option α
  | [] => none
  | p :: t => if p.1 = k then some p.2 else mapFind k t

/-- Insertion into a `std::multimap`: after the last entry whose key is not larger. -/
def multimapInsert (p : Nat × Nat) : List (Nat × Nat) → List (Nat × Nat)
  | [] => [p]
  | q :: t => if p.1 < q.1 then p :: q :: t else q :: multimapInsert p t

end Containers

section Helper

variable {F : Type}

/-- `SupervoxelClustering::voxelDistance`.  The colour difference is an integer vector, whose
Eigen `norm ()` is the integer square root of the squared norm. -/
def voxelDistance (ops : FloatOps F) (e : Engine F) (v1 v2 : Voxel F) : F :=
  let dx := ops.sub v1.x v2.x
  let dy := ops.sub v1.y v2.y
  let dz := ops.sub v1.z v2.z
  let spatial_dist :=
    ops.div (ops.sqrt (ops.add (ops.add (ops.mul dx dx) (ops.mul dy dy)) (ops.mul dz dz)))
      e.seed_resolution_
  let dr : Int := (v1.r : Int) - (v2.r : Int)
  let dg : Int := (v1.g : Int) - (v2.g : Int)
  let db : Int := (v1.b : Int) - (v2.b : Int)
  let color_dist :=
    ops.div (ops.ofInt (Nat.sqrt (dr * dr + dg * dg + db * db).toNat)) (ops.ofRat 255)
  let dot :=
    ops.add (ops.add (ops.add (ops.mul v1.normal_x v2.normal_x) (ops.mul v1.normal_y v2.normal_y))
      (ops.mul v1.normal_z v2.normal_z)) (ops.mul v1.normal_w v2.normal_w)
  let cos_angle_normal := ops.sub (ops.ofRat 1) (ops.abs dot)
  ops.add (ops.add (ops.mul cos_angle_normal e.normal_importance_)
    (ops.mul color_dist e.color_importance_)) (ops.mul spatial_dist e.spatial_importance_)

/-- `SupervoxelHelper::removeLeaf`, called through the owner pointer `owner`. -/
def removeLeaf (helpers : List (SupervoxelHelper F)) (owner : Nat) (leaf : Nat) :
    List (SupervoxelHelper F) :=
  helpers.map fun h => if h.label_ = owner then { h with leaves_ := setErase leaf h.leaves_ } else h

/-- `SupervoxelHelper::addLeaf` on the helper at position `k` of the list. -/
def addLeaf (e : Engine F) (k : Nat) (leaf : Nat) : Engine F :=
  match e.supervoxel_helpers_[k]? with
  | none => e
  | some h =>
    { e with
      supervoxel_helpers_ :=
        e.supervoxel_helpers_.set k { h with leaves_ := setInsert leaf h.leaves_ }
      leaves := e.leaves.modify (fun l => { l with owner_ := some h.label_ }) leaf }

/-- Body of the loop of `removeAllLeaves`: the leaf loses its owner and its distance is reset. -/
def resetLeaf (ops : FloatOps F) (leaves : List (Leaf F)) (i : Nat) : List (Leaf F) :=
  leaves.modify (fun l => { l with owner_ := none, distance_ := ops.maxVal }) i

/-- `SupervoxelHelper::removeAllLeaves` on the helper at position `k` of the list. -/
def removeAllLeaves (ops : FloatOps F) (e : Engine F) (k : Nat) : Engine F :=
  match e.supervoxel_helpers_[k]? with
  | none => e
  | some h =>
    { e with
      leaves := h.leaves_.foldl (resetLeaf ops) e.leaves
      supervoxel_helpers_ := e.supervoxel_helpers_.set k { h with leaves_ := [] } }

/-- State threaded through the loops of `SupervoxelHelper::expand`: the leaf arena, the helper
list and the buffer `new_owned`. -/
structure ExpandState (F : Type) where
  leaves : List (Leaf F)
  helpers : List (SupervoxelHelper F)
  new_owned : List Nat

/-- Body of the inner loop of `SupervoxelHelper::expand` for the neighbour `n`, run by the
helper with label `lab` and centroid `c`. -/
def expandVisit (ops : FloatOps F) (e : Engine F) (lab : Nat) (c : Voxel F)
    (s : ExpandState F) (n : Nat) : ExpandState F :=
  match s.leaves[n]? with
  | none => s
  | some neighbor_voxel =>
    if neighbor_voxel.owner_ = some lab then s
    else
      let dist := voxelDistance ops e c neighbor_voxel.voxel_centroid_
      if ops.lt dist neighbor_voxel.distance_ then
        if neighbor_voxel.owner_ ≠ some lab then
          { leaves := s.leaves.set n { neighbor_voxel with distance_ := dist, owner_ := some lab }
            helpers :=
              match neighbor_voxel.owner_ with
              | some o => removeLeaf s.helpers o n
              | none => s.helpers
            new_owned := s.new_owned ++ [n] }
        else { s with leaves := s.leaves.set n { neighbor_voxel with distance_ := dist } }
      else s

/-- Neighbour list of the leaf `i` (empty for a pointer outside the arena). -/
def neighborsOf (leaves : List (Leaf F)) (i : Nat) : List Nat :=
  match leaves[i]? with
  | none => []
  | some l => l.neighbors

/-- The last loop of `SupervoxelHelper::expand`: every leaf of the buffer `new_owned` is
inserted into the leaf set of the helper. -/
def insertOwned (new_owned : List Nat) (h : SupervoxelHelper F) : SupervoxelHelper F :=
  { h with leaves_ := new_owned.foldl (fun acc i => setInsert i acc) h.leaves_ }

/-- The two nested loops of `SupervoxelHelper::expand` over the owned leaves `ls` of the
helper `h`. -/
def expandLoops (ops : FloatOps F) (e : Engine F) (h : SupervoxelHelper F) (ls : List Nat)
    (s : ExpandState F) : ExpandState F :=
  ls.foldl
    (fun s leaf => (neighborsOf e.leaves leaf).foldl (expandVisit ops e h.label_ h.centroid_) s) s

/-- `SupervoxelHelper::expand` on the helper at position `k` of the list. -/
def expand (ops : FloatOps F) (e : Engine F) (k : Nat) : Engine F :=
  match e.supervoxel_helpers_[k]? with
  | none => e
  | some h =>
    let s := expandLoops ops e h h.leaves_
      { leaves := e.leaves, helpers := e.supervoxel_helpers_, new_owned := [] }
    { e with
      leaves := s.leaves
      supervoxel_helpers_ := s.helpers.modify (insertOwned s.new_owned) k }

/-- `SupervoxelHelper::updateCentroid`. -/
def updateCentroid (X : Ext F) (leaves : List (Leaf F)) (h : SupervoxelHelper F) :
    SupervoxelHelper F :=
  { h with centroid_ := X.centroidPoint (h.leaves_.filterMap fun i => (leaves[i]?).map (·.voxel_centroid_)) }

/-- `SupervoxelHelper::getVoxels`. -/
def getVoxels (leaves : List (Leaf F)) (h : SupervoxelHelper F) : List (Voxel F) :=
  h.leaves_.filterMap fun i => (leaves[i]?).map (·.voxel_centroid_)

/-- Body of the inner loop of `getNeighborLabels` for the neighbour `n`, run by the helper
with label `lab`. -/
def collectLabel (leaves : List (Leaf F)) (lab : Nat) (acc : List Nat) (n : Nat) : List Nat :=
  match leaves[n]? with
  | none => acc
  | some neighbor_voxel =>
    match neighbor_voxel.owner_ with
    | some o => if o ≠ lab then setInsert o acc else acc
    | none => acc

/-- `SupervoxelHelper::getNeighborLabels`: the resulting `std::set<uint32_t>`. -/
def getNeighborLabels (leaves : List (Leaf F)) (h : SupervoxelHelper F) : List Nat :=
  h.leaves_.foldl
    (fun acc leaf => (neighborsOf leaves leaf).foldl (collectLabel leaves h.label_) acc) []

end Helper

section Clustering

variable {F : Type}

/-- Labels of the helpers in list order. -/
def labels (e : Engine F) : List Nat :=
  e.supervoxel_helpers_.map (·.label_)

/-- Constructor `SupervoxelClustering::SupervoxelClustering`.  The adjacency octree that the
constructor allocates with `resolution_` is the field `octree_resolution_`, and the transform
function it installs is the flag `use_single_camera_transform_`.  The octree class is not part
of these sources: what its constructor does with a resolution that is not positive is not
described here, and what is proved about resolutions is proved for positive ones. -/
def SupervoxelClustering (ops : FloatOps F) (voxel_resolution seed_resolution : F)
    (use_single_camera_transform prune_close_seeds : Bool) : Engine F :=
  { resolution_ := voxel_resolution
    seed_resolution_ := seed_resolution
    octree_resolution_ := voxel_resolution
    use_single_camera_transform_ := use_single_camera_transform
    color_importance_ := ops.ofRat (1 / 10)
    spatial_importance_ := ops.ofRat (4 / 10)
    normal_importance_ := ops.ofRat 1
    ignore_input_normals_ := false
    prune_close_seeds_ := prune_close_seeds
    input_ := none
    leaves := []
    voxel_centroid_cloud_ := []
    supervoxel_helpers_ := []
    label_colors_ := [] }

/-- `SupervoxelClustering::setInputCloud`. -/
def setInputCloud (e : Engine F) (cloud : List (Voxel F)) : Engine F :=
  if cloud.length = 0 then e else { e with input_ := some cloud }

/-- `SupervoxelClustering::getMaxLabel`. -/
def getMaxLabel (e : Engine F) : Nat :=
  e.supervoxel_helpers_.foldl (fun max_label h => if h.label_ > max_label then h.label_ else max_label) 0

/-- `SupervoxelClustering::initializeLabelColors`. -/
def initializeLabelColors (X : Ext F) (e : Engine F) : Engine F :=
  let max_label := getMaxLabel e
  if e.label_colors_.length > max_label then e
  else
    { e with
      label_colors_ :=
        e.label_colors_ ++
          (List.range' e.label_colors_.length (max_label + 1 - e.label_colors_.length)).map X.randColor }

/-- Indices gathered for the normal of leaf `idx` by `computeVoxelData`: the leaf, its
neighbours and their neighbours. -/
def gatherIndices (leaves : List (Leaf F)) (idx : Nat) : List Nat :=
  idx :: (neighborsOf leaves idx).foldl (fun acc n => (acc ++ [n]) ++ neighborsOf leaves n) []

/-- Writes a computed normal and curvature into a voxel centroid, then flips the normal. -/
def assignNormal (X : Ext F) (v : Voxel F) (res : (F × F × F × F) × F) : Voxel F :=
  let v1 : Voxel F :=
    { v with
      curvature := res.2
      normal_x := res.1.1
      normal_y := res.1.2.1
      normal_z := res.1.2.2.1
      normal_w := res.1.2.2.2 }
  let n := X.flipNormalTowardsViewpoint v1
  { v1 with normal_x := n.1, normal_y := n.2.1, normal_z := n.2.2 }

/-- Stores a recomputed voxel centroid in the leaf `idx` and in the centroid cloud. -/
def storeCentroid (e : Engine F) (idx : Nat) (c : Voxel F) : Engine F :=
  match e.leaves[idx]? with
  | none => e
  | some l =>
    { e with
      leaves := e.leaves.set idx { l with voxel_centroid_ := c }
      voxel_centroid_cloud_ := e.voxel_centroid_cloud_.set idx c }

/-- Body of the second loop of `computeVoxelData` for the leaf `idx`. -/
def computeLeafNormal (X : Ext F) (e : Engine F) (idx : Nat) : Engine F :=
  match e.leaves[idx]? with
  | none => e
  | some l =>
    storeCentroid e idx (assignNormal X l.voxel_centroid_
      (X.computePointNormal e.voxel_centroid_cloud_ (gatherIndices e.leaves idx)))

/-- `SupervoxelClustering::computeVoxelData`. -/
def computeVoxelData (X : Ext F) (e : Engine F) : Engine F :=
  let e1 := { e with voxel_centroid_cloud_ := e.leaves.map (·.voxel_centroid_) }
  if !X.has_normal || e1.ignore_input_normals_ then
    (List.range e1.leaves.length).foldl (computeLeafNormal X) e1
  else e1

/-- Modelled from the spec: `PCLBase::initCompute` (declared in pcl/common, not part of these
sources); it fails when no input cloud has been set. -/
def initCompute (e : Engine F) : Bool :=
  e.input_.isSome

/-- `SupervoxelClustering::prepareForSegmentation`; `none` stands for the result `false`.  The
leaves delivered by the octree carry a default constructed `VoxelData`: no owner and
`distance_` equal to the largest float. -/
def prepareForSegmentation (ops : FloatOps F) (X : Ext F) (e : Engine F) : Option (Engine F) :=
  match e.input_ with
  | none => none
  | some cloud =>
    if cloud.length = 0 then none
    else
      some (computeVoxelData X
        { e with
          leaves :=
            (X.addPointsFromInputCloud e.use_single_camera_transform_ e.octree_resolution_ cloud).map
              fun p => { voxel_centroid_ := p.1, owner_ := none, distance_ := ops.maxVal,
                         neighbors := p.2 } })

/-- `SupervoxelClustering::findNeighborMinCurvature`. -/
def findNeighborMinCurvature (ops : FloatOps F) (e : Engine F) (idx : Nat) : Nat :=
  match e.voxel_centroid_cloud_[idx]? with
  | none => idx
  | some p =>
    ((neighborsOf e.leaves idx).foldl
      (fun (acc : Nat × F) n =>
        match e.leaves[n]? with
        | none => acc
        | some nb =>
          if ops.lt nb.voxel_centroid_.curvature acc.2 then (n, nb.voxel_centroid_.curvature)
          else acc)
      (idx, p.curvature)).1

/-- Modelled from the spec: the ordering `SeedNHood ()` handed to `std::sort` (declared in
supervoxel_clustering.h, not part of these sources): the seed with the largest `num_active_`
comes first, and of seeds with equal `num_active_` the one inserted first, which is the one with
the lower `seed_idx_`. -/
def sortSeedNHoods (l : List SeedNHood) : List SeedNHood :=
  l.insertionSort fun a b =>
    b.num_active_ < a.num_active_ ∨ (b.num_active_ = a.num_active_ ∧ a.seed_idx_ ≤ b.seed_idx_)

/-- The `while` loop of `selectInitialSupervoxelSeeds` on the seeds not yet removed; at most
`fuel` seeds are removed. -/
def pruneSeeds : Nat → List SeedNHood → List SeedNHood
  | 0, l => l
  | _ + 1, [] => []
  | fuel + 1, s :: rest =>
    if s.num_active_ > 1 then
      pruneSeeds fuel (sortSeedNHoods (rest.map fun t =>
        if s.seed_idx_ ∈ t.neighbor_indices_ then { t with num_active_ := t.num_active_ - 1 } else t))
    else s :: rest

/-- The seeds of `selectInitialSupervoxelSeeds` before pruning (`voxel_cloud_indices`). -/
def shiftedSeeds (ops : FloatOps F) (X : Ext F) (e : Engine F) : List Nat :=
  let voxel_centers := X.getOccupiedVoxelCenters e.seed_resolution_ e.voxel_centroid_cloud_
  let seed_indices_orig := voxel_centers.map (X.nearestKSearch e.voxel_centroid_cloud_)
  let search_depth := ops.toInt (ops.div (ops.mul (ops.ofRat 1) e.seed_resolution_) e.resolution_)
  seed_indices_orig.map fun idx => (findNeighborMinCurvature ops e)^[search_depth.toNat] idx

/-- `SupervoxelClustering::selectInitialSupervoxelSeeds`: the resulting `seed_indices`. -/
def selectInitialSupervoxelSeeds (ops : FloatOps F) (X : Ext F) (e : Engine F) : List Nat :=
  let voxel_cloud_indices := shiftedSeeds ops X e
  if !e.prune_close_seeds_ then voxel_cloud_indices
  else
    let seed_cloud_ := voxel_cloud_indices.filterMap fun idx => e.voxel_centroid_cloud_[idx]?
    let search_radius := ops.div e.seed_resolution_ (ops.ofRat 2)
    let seed_nhoods := voxel_cloud_indices.enum.map fun p =>
      let neighbors :=
        match e.voxel_centroid_cloud_[p.2]? with
        | none => []
        | some q => (X.radiusSearch seed_cloud_ q search_radius).insertionSort (· ≤ ·)
      ({ neighbor_indices_ := neighbors, voxel_idx_ := p.2, seed_idx_ := p.1,
         num_active_ := neighbors.length } : SeedNHood)
    (pruneSeeds seed_nhoods.length (sortSeedNHoods seed_nhoods)).map (·.voxel_idx_)

/-- Body of the loop of `createSupervoxelHelpers` for one seed index: a helper with the next
label is appended and, when the octree has a leaf at the seed index, that leaf is added to
it. -/
def createStep (X : Ext F) (e : Engine F) (seed : Nat) : Engine F :=
  let i := e.supervoxel_helpers_.length
  let e2 :=
    { e with
      supervoxel_helpers_ :=
        e.supervoxel_helpers_ ++ [{ label_ := i + 1, leaves_ := [], centroid_ := X.defaultCentroid }] }
  if seed < e2.leaves.length then addLeaf e2 i seed else e2

/-- `SupervoxelClustering::createSupervoxelHelpers`. -/
def createSupervoxelHelpers (X : Ext F) (e : Engine F) (seed_indices : List Nat) : Engine F :=
  seed_indices.foldl (createStep X) { e with supervoxel_helpers_ := [] }

/-- One pass of the outer loop of `expandSupervoxels`: every helper expands, then empty helpers
are erased and the others update their centroid. -/
def expandRound (ops : FloatOps F) (X : Ext F) (e : Engine F) : Engine F :=
  let e1 := (List.range e.supervoxel_helpers_.length).foldl (expand ops) e
  { e1 with
    supervoxel_helpers_ :=
      (e1.supervoxel_helpers_.filter fun h => h.leaves_.length != 0).map (updateCentroid X e1.leaves) }

/-- `SupervoxelClustering::expandSupervoxels`: the loop `for (int i = 1; i < depth; ++i)`. -/
def expandSupervoxels (ops : FloatOps F) (X : Ext F) (e : Engine F) (depth : Int) : Engine F :=
  (expandRound ops X)^[(depth - 1).toNat] e

/-- `SupervoxelClustering::makeSupervoxels`: the engine and the contents of the map argument
afterwards. -/
def makeSupervoxels (X : Ext F) (e : Engine F) : Engine F × SupervoxelMap F :=
  (initializeLabelColors X e,
    e.supervoxel_helpers_.foldl
      (fun m h => mapAssign h.label_ { centroid_ := h.centroid_, voxels_ := getVoxels e.leaves h } m)
      [])

/-- The value `max_depth` computed by `extract` and `refineSupervoxels`. -/
def maxDepth (ops : FloatOps F) (e : Engine F) : Int :=
  ops.toInt (ops.div (ops.mul (ops.ofRat (9 / 5)) e.seed_resolution_) e.resolution_)

/-- `SupervoxelClustering::extract`: the engine and the contents of the argument
`supervoxel_clusters` afterwards. -/
def extract (ops : FloatOps F) (X : Ext F) (e : Engine F) (supervoxel_clusters : SupervoxelMap F) :
    Engine F × SupervoxelMap F :=
  if !initCompute e then (e, supervoxel_clusters)
  else
    match prepareForSegmentation ops X e with
    | none => (e, supervoxel_clusters)
    | some e1 =>
      let seed_indices := selectInitialSupervoxelSeeds ops X e1
      let e2 := createSupervoxelHelpers X e1 seed_indices
      let e3 := expandSupervoxels ops X e2 (maxDepth ops e2)
      makeSupervoxels X e3

/-- Whether the leaf `n` is owned by the helper with label `lab`. -/
def ownedBy (leaves : List (Leaf F)) (lab : Nat) (n : Nat) : Bool :=
  match leaves[n]? with
  | none => false
  | some nb => decide (nb.owner_ = some lab)

/-- Indices gathered by `refineNormals` for the leaf `leaf` of the helper with label `lab`. -/
def refineIndices (leaves : List (Leaf F)) (lab : Nat) (leaf : Nat) : List Nat :=
  leaf :: (neighborsOf leaves leaf).foldl
    (fun acc n =>
      if ownedBy leaves lab n then (acc ++ [n]) ++ (neighborsOf leaves n).filter (ownedBy leaves lab)
      else acc)
    []

/-- Body of the loop of `refineNormals` for one leaf of the helper with label `lab`. -/
def refineLeaf (X : Ext F) (lab : Nat) (e : Engine F) (leaf : Nat) : Engine F :=
  match e.leaves[leaf]? with
  | none => e
  | some l =>
    if (refineIndices e.leaves lab leaf).length ≥ 4 then
      storeCentroid e leaf (assignNormal X l.voxel_centroid_
        (X.computePointNormal e.voxel_centroid_cloud_ (refineIndices e.leaves lab leaf)))
    else e

/-- The engine state of `extract` between `expandSupervoxels` and `makeSupervoxels`, from the
engine returned by `prepareForSegmentation`. -/
def grown (ops : FloatOps F) (X : Ext F) (e1 : Engine F) : Engine F :=
  expandSupervoxels ops X (createSupervoxelHelpers X e1 (selectInitialSupervoxelSeeds ops X e1))
    (maxDepth ops (createSupervoxelHelpers X e1 (selectInitialSupervoxelSeeds ops X e1)))

/-- `SupervoxelHelper::refineNormals` on the helper at position `k` of the list. -/
def refineNormals (X : Ext F) (e : Engine F) (k : Nat) : Engine F :=
  match e.supervoxel_helpers_[k]? with
  | none => e
  | some h => h.leaves_.foldl (refineLeaf X h.label_) e

/-- Body of the second loop of `reseedSupervoxels` for the helper at position `k`. -/
def reseedStep (X : Ext F) (e : Engine F) (k : Nat) : Engine F :=
  match e.supervoxel_helpers_[k]? with
  | none => e
  | some h =>
    let closest := X.nearestKSearch e.voxel_centroid_cloud_ h.centroid_
    if closest < e.leaves.length then addLeaf e k closest else e

/-- `SupervoxelClustering::reseedSupervoxels`. -/
def reseedSupervoxels (ops : FloatOps F) (X : Ext F) (e : Engine F) : Engine F :=
  let e1 := (List.range e.supervoxel_helpers_.length).foldl (removeAllLeaves ops) e
  (List.range e1.supervoxel_helpers_.length).foldl (reseedStep X) e1

/-- One pass of the loop of `refineSupervoxels`. -/
def refineRound (ops : FloatOps F) (X : Ext F) (e : Engine F) : Engine F :=
  let e1 := (List.range e.supervoxel_helpers_.length).foldl (refineNormals X) e
  let e2 := reseedSupervoxels ops X e1
  expandSupervoxels ops X e2 (maxDepth ops e2)

/-- `SupervoxelClustering::refineSupervoxels`: the engine and the contents of the argument
`supervoxel_clusters` afterwards. -/
def refineSupervoxels (ops : FloatOps F) (X : Ext F) (e : Engine F) (num_itr : Int)
    (supervoxel_clusters : SupervoxelMap F) : Engine F × SupervoxelMap F :=
  if e.supervoxel_helpers_.length = 0 then (e, supervoxel_clusters)
  else makeSupervoxels X ((refineRound ops X)^[num_itr.toNat] e)

/-- `SupervoxelClustering::getSupervoxelAdjacency`: the contents of the multimap afterwards. -/
def getSupervoxelAdjacency (e : Engine F) : List (Nat × Nat) :=
  e.supervoxel_helpers_.foldl
    (fun label_adjacency h =>
      (getNeighborLabels e.leaves h).foldl
        (fun acc nl => multimapInsert (h.label_, nl) acc) label_adjacency)
    []

/-- Graph `boost::adjacency_list<setS, setS, undirectedS, uint32_t, float>`: the label stored in
each vertex (a vertex descriptor is a position in `vertices`) and the edges with their
weight. -/
structure VoxelAdjacencyList (F : Type) where
  vertices : List Nat
  edges : List (Nat × Nat × F)

/-- Whether the graph has an edge joining `u` and `v`. -/
def hasEdge (gr : VoxelAdjacencyList F) (u v : Nat) : Bool :=
  gr.edges.any fun ed => (ed.1 == u && ed.2.1 == v) || (ed.1 == v && ed.2.1 == u)

/-- Edge weight computed by `getSupervoxelAdjacencyList` for a new edge from the helper `h` to
the label `nl`. -/
def edgeLength (ops : FloatOps F) (e : Engine F) (h : SupervoxelHelper F) (nl : Nat) : F :=
  match e.supervoxel_helpers_.find? (fun h2 => h2.label_ == nl) with
  | some h2 => voxelDistance ops e h.centroid_ h2.centroid_
  | none => ops.maxVal

/-- The map `label_ID_map` built by the first loop of `getSupervoxelAdjacencyList`. -/
def labelIDMap (e : Engine F) : List (Nat × Nat) :=
  e.supervoxel_helpers_.enum.foldl (fun m p => mapInsertNew p.2.label_ p.1 m) []

/-- Body of the inner loop of `getSupervoxelAdjacencyList` for the helper `h` and the neighbour
label `nl`; `none` when a label is not found in `label_ID_map`. -/
def addEdgeStep (ops : FloatOps F) (e : Engine F) (h : SupervoxelHelper F)
    (acc : Option (VoxelAdjacencyList F)) (nl : Nat) : Option (VoxelAdjacencyList F) :=
  match acc, mapFind h.label_ (labelIDMap e), mapFind nl (labelIDMap e) with
  | some gr, some u, some v =>
    if hasEdge gr u v then some gr
    else some { gr with edges := gr.edges ++ [(u, v, edgeLength ops e h nl)] }
  | _, _, _ => none

/-- `SupervoxelClustering::getSupervoxelAdjacencyList`; `none` when a label is looked up in
`label_ID_map` and not found (the code then dereferences `end ()`). -/
def getSupervoxelAdjacencyList (ops : FloatOps F) (e : Engine F) : Option (VoxelAdjacencyList F) :=
  e.supervoxel_helpers_.foldl
    (fun acc h => (getNeighborLabels e.leaves h).foldl (addEdgeStep ops e h) acc)
    (some { vertices := e.supervoxel_helpers_.map (·.label_), edges := [] })

/-- All values of a list of optional values, or `none` when one of them is missing. -/
def collectSome {α : Type} : List (Option α) → Option (List α)
  | [] => some []
  | none :: _ => none
  | some a :: t => (collectSome t).map (a :: ·)

/-- Whether `pcl::isFinite` holds for a point. -/
def pointFinite (ops : FloatOps F) (p : Voxel F) : Bool :=
  ops.isFinite p.x && ops.isFinite p.y && ops.isFinite p.z

/-- Body of the loop of `getLabeledCloud` for the input point `p`; `none` when the leaf
pointer returned by the octree is null (the code dereferences it). -/
def labelPoint (ops : FloatOps F) (X : Ext F) (e : Engine F) (cloud : List (Voxel F))
    (p : Voxel F) : Option (PointXYZL F) :=
  if !pointFinite ops p then some { x := p.x, y := p.y, z := p.z, label := 0 }
  else
    match X.getLeafContainerAtPoint e.use_single_camera_transform_ e.octree_resolution_ cloud p with
    | none => none
    | some i =>
      match e.leaves[i]? with
      | none => none
      | some leaf =>
        match leaf.owner_ with
        | some o => some { x := p.x, y := p.y, z := p.z, label := o }
        | none => some { x := p.x, y := p.y, z := p.z, label := 0 }

/-- `SupervoxelClustering::getLabeledCloud`; `none` when the input pointer or a leaf pointer
is null where the code dereferences it. -/
def getLabeledCloud (ops : FloatOps F) (X : Ext F) (e : Engine F) : Option (List (PointXYZL F)) :=
  match e.input_ with
  | none => none
  | some cloud => collectSome (cloud.map (labelPoint ops X e cloud))

/-- Label stored in the owner pointer of the leaf `i`, if the leaf has an owner. -/
def ownerOf (leaves : List (Leaf F)) (i : Nat) : Option Nat :=
  (leaves[i]?).bind (·.owner_)

/-- What the loop body of `getLabeledCloud` yields for a point: the position of the point with
label 0 when the point is not finite or its leaf has no owner, and with the label of the owning
helper otherwise. -/
def LabelledAs (ops : FloatOps F) (X : Ext F) (e : Engine F) (cloud : List (Voxel F))
    (p : Voxel F) (q : PointXYZL F) : Prop :=
  q.x = p.x ∧ q.y = p.y ∧ q.z = p.z ∧
    ((pointFinite ops p = false ∧ q.label = 0) ∨
      (pointFinite ops p = true ∧
        ∃ i, X.getLeafContainerAtPoint e.use_single_camera_transform_ e.octree_resolution_
            cloud p = some i ∧
          ((ownerOf e.leaves i = none ∧ q.label = 0) ∨
            ∃ h ∈ e.supervoxel_helpers_, ownerOf e.leaves i = some h.label_ ∧ i ∈ h.leaves_ ∧
              q.label = h.label_)))

/-- Whether two edges join the same pair of vertices. -/
def sameEnds (e1 e2 : Nat × Nat × F) : Prop :=
  (e1.1 = e2.1 ∧ e1.2.1 = e2.2.1) ∨ (e1.1 = e2.2.1 ∧ e1.2.1 = e2.1)

/-- The pairs (helper, neighbour label) in the order in which the nested loops of
`getSupervoxelAdjacency` and `getSupervoxelAdjacencyList` visit them. -/
def adjacencyPairs (e : Engine F) : List (SupervoxelHelper F × Nat) :=
  e.supervoxel_helpers_.flatMap fun h => (getNeighborLabels e.leaves h).map fun nl => (h, nl)

/-- Invariant of the second loop of `getSupervoxelAdjacencyList` after the pairs `ps` were
visited: one vertex per helper, every edge was inserted for a visited pair and carries the
length computed for it, every visited pair has its edge, and no two edges join the same
vertices. -/
def GraphInv (ops : FloatOps F) (e : Engine F) (ps : List (SupervoxelHelper F × Nat))
    (gr : VoxelAdjacencyList F) : Prop :=
  gr.vertices = labels e ∧
    (∀ ed ∈ gr.edges, ∃ p ∈ ps, mapFind p.1.label_ (labelIDMap e) = some ed.1 ∧
      mapFind p.2 (labelIDMap e) = some ed.2.1 ∧ ed.2.2 = edgeLength ops e p.1 p.2) ∧
    (∀ p ∈ ps, ∃ u v, mapFind p.1.label_ (labelIDMap e) = some u ∧
      mapFind p.2 (labelIDMap e) = some v ∧ hasEdge gr u v = true) ∧
    gr.edges.Pairwise fun e1 e2 => ¬ sameEnds e1 e2

/-- Laws of `float` arithmetic that make `voxelDistance` symmetric: multiplication commutes
and the square of a difference does not depend on the order of the operands. -/
def SymmetricArith (ops : FloatOps F) : Prop :=
  (∀ a b, ops.mul a b = ops.mul b a) ∧
    ∀ a b, ops.mul (ops.sub a b) (ops.sub a b) = ops.mul (ops.sub b a) (ops.sub b a)

/-- Whether every neighbour link of the arena has its reverse link. -/
def symmetricLinks (leaves : List (Leaf F)) : Bool :=
  (List.range leaves.length).all fun i =>
    (neighborsOf leaves i).all fun j => decide (i ∈ neighborsOf leaves j)

/-- Runs a sequence of growth rounds (`true`: one pass of the loop of `expandSupervoxels`) and
refinement passes (`false`: one pass of the loop of `refineSupervoxels`). -/
def evolve (ops : FloatOps F) (X : Ext F) : List Bool → Engine F → Engine F
  | [], e => e
  | true :: t, e => evolve ops X t (expandRound ops X e)
  | false :: t, e => evolve ops X t (refineRound ops X e)

/-- `SupervoxelClustering::getVoxelResolution`. -/
def getVoxelResolution (e : Engine F) : F :=
  e.resolution_

/-- `SupervoxelClustering::setVoxelResolution`. -/
def setVoxelResolution (e : Engine F) (resolution : F) : Engine F :=
  { e with resolution_ := resolution }

/-- `SupervoxelClustering::getSeedResolution`: the body returns `resolution_`. -/
def getSeedResolution (e : Engine F) : F :=
  e.resolution_

/-- `SupervoxelClustering::setSeedResolution`. -/
def setSeedResolution (e : Engine F) (seed_resolution : F) : Engine F :=
  { e with seed_resolution_ := seed_resolution }

/-- `SupervoxelClustering::setColorImportance`. -/
def setColorImportance (e : Engine F) (val : F) : Engine F :=
  { e with color_importance_ := val }

/-- `SupervoxelClustering::setSpatialImportance`. -/
def setSpatialImportance (e : Engine F) (val : F) : Engine F :=
  { e with spatial_importance_ := val }

/-- `SupervoxelClustering::setNormalImportance`. -/
def setNormalImportance (e : Engine F) (val : F) : Engine F :=
  { e with normal_importance_ := val }

/-- `SupervoxelClustering::setIgnoreInputNormals`. -/
def setIgnoreInputNormals (e : Engine F) (val : Bool) : Engine F :=
  { e with ignore_input_normals_ := val }

/-- `SupervoxelClustering::transformFunction`, the function bound to the octree when the
single camera transform is used; `log` is `std::log`. -/
def transformFunction (ops : FloatOps F) (log : F → F) (p : Voxel F) : Voxel F :=
  { p with x := ops.div p.x p.z, y := ops.div p.y p.z, z := log p.z }

/-- Two leaves are linked when one of them lists the other as a neighbour. -/
def Linked (leaves : List (Leaf F)) (a b : Nat) : Prop :=
  b ∈ neighborsOf leaves a ∨ a ∈ neighborsOf leaves b

/-- Two leaves are joined by a path of neighbour links. -/
def Joined (leaves : List (Leaf F)) : Nat → Nat → Prop :=
  Relation.ReflTransGen (Linked leaves)

/-- Two leaves are joined by a path of neighbour links that runs only through leaves of the
set `S`. -/
def JoinedWithin (leaves : List (Leaf F)) (S : List Nat) : Nat → Nat → Prop :=
  Relation.ReflTransGen fun a b => Linked leaves a b ∧ a ∈ S ∧ b ∈ S

/-- The first inner loop of one pass of `expandSupervoxels`: every helper of the list runs
`expand`.  After the last pass this is the state before the final `updateCentroid`. -/
def expandAll (ops : FloatOps F) (e : Engine F) : Engine F :=
  (List.range e.supervoxel_helpers_.length).foldl (expand ops) e

/-- The records `seed_nhoods` that `selectInitialSupervoxelSeeds` builds from the shifted seeds
`voxel_cloud_indices`, by a radius search in the cloud `seed_cloud_` of the seeds. -/
def seedNHoods (X : Ext F) (cloud seed_cloud_ : List (Voxel F)) (search_radius : F)
    (voxel_cloud_indices : List Nat) : List SeedNHood :=
  voxel_cloud_indices.enum.map fun p =>
    let neighbors :=
      match cloud[p.2]? with
      | none => []
      | some q => (X.radiusSearch seed_cloud_ q search_radius).insertionSort (· ≤ ·)
    ({ neighbor_indices_ := neighbors, voxel_idx_ := p.2, seed_idx_ := p.1,
       num_active_ := neighbors.length } : SeedNHood)

/-- Body of the `while` loop of `selectInitialSupervoxelSeeds` on the seeds not yet removed: the
first seed is removed, `num_active_` of every other seed that lists it goes down by one, and the
other seeds are sorted again. -/
def pruneStep : List SeedNHood → List SeedNHood
  | [] => []
  | s :: rest =>
    sortSeedNHoods (rest.map fun t =>
      if s.seed_idx_ ∈ t.neighbor_indices_ then { t with num_active_ := t.num_active_ - 1 } else t)

/-- Curvature stored in the leaf `i` of the octree. -/
def curvatureAt (leaves : List (Leaf F)) (i : Nat) : Option F :=
  (leaves[i]?).map (·.voxel_centroid_.curvature)

/-- `SupervoxelClustering::getColoredVoxelCloud`: every voxel of every helper with the colour
`label_colors_[label]` of its helper; `none` when that lookup is out of bounds. -/
def getColoredVoxelCloud (e : Engine F) : Option (List (Voxel F × Nat)) :=
  (collectSome (e.supervoxel_helpers_.map fun h =>
    collectSome ((getVoxels e.leaves h).map fun v =>
      (e.label_colors_[h.label_]?).map fun c => (v, c)))).map List.flatten

/-- Body of the loop of `getColoredCloud` for the input point `p`; `none` when the leaf pointer
returned by the octree is null or the lookup in `label_colors_` is out of bounds. -/
def colorPoint (ops : FloatOps F) (X : Ext F) (e : Engine F) (cloud : List (Voxel F))
    (p : Voxel F) : Option (Voxel F × Nat) :=
  if !pointFinite ops p then some (p, 0)
  else
    match X.getLeafContainerAtPoint e.use_single_camera_transform_ e.octree_resolution_ cloud p with
    | none => none
    | some i =>
      match e.leaves[i]? with
      | none => none
      | some leaf =>
        match leaf.owner_ with
        | some o => (e.label_colors_[o]?).map fun c => (p, c)
        | none => some (p, 0)

/-- `SupervoxelClustering::getColoredCloud`; `none` when the input pointer is null. -/
def getColoredCloud (ops : FloatOps F) (X : Ext F) (e : Engine F) :
    Option (List (Voxel F × Nat)) :=
  match e.input_ with
  | none => none
  | some cloud => collectSome (cloud.map (colorPoint ops X e cloud))

/-- Leaf `b` can be reached from leaf `a` by at most `k` neighbour links, each from a leaf to
one of the leaves in its neighbour list. -/
def reachWithin (leaves : List (Leaf F)) : Nat → Nat → Nat → Prop
  | 0, a, b => a = b
  | k + 1, a, b =>
    reachWithin leaves k a b ∨ ∃ c, reachWithin leaves k a c ∧ b ∈ neighborsOf leaves c

end Clustering

section Invariants

variable {F : Type}

/-- Every owner pointer of a leaf points to a helper of the list whose leaf set holds the
leaf. -/
def OwnerLive (leaves : List (Leaf F)) (helpers : List (SupervoxelHelper F)) : Prop :=
  ∀ i l, leaves[i]? = some l → ∀ a, l.owner_ = some a →
    ∃ h ∈ helpers, h.label_ = a ∧ i ∈ h.leaves_

/-- No leaf of the arena has an owner. -/
def AllUnowned (leaves : List (Leaf F)) : Prop :=
  ∀ l ∈ leaves, l.owner_ = none

/-- Engine on which no extraction has run: the octree has no leaf and there is no helper. -/
def Fresh (e : Engine F) : Prop :=
  e.supervoxel_helpers_ = [] ∧ e.leaves = []

/-- What holds for an engine after `extract` or `refineSupervoxels`: the helper labels are
strictly increasing and every owner pointer points to a helper of the list holding the leaf. -/
def Settled (e : Engine F) : Prop :=
  (labels e).Pairwise (· < ·) ∧ OwnerLive e.leaves e.supervoxel_helpers_

/-- Invariant of `expand` while the helper with label `lab` runs its loops. -/
def VisitInv (lab : Nat) (s : ExpandState F) : Prop :=
  ∀ i l, s.leaves[i]? = some l → ∀ a, l.owner_ = some a →
    (∃ h ∈ s.helpers, h.label_ = a ∧ i ∈ h.leaves_) ∨ (a = lab ∧ i ∈ s.new_owned)

/-- What the library routines do on a cloud with a single point: the seed octree has one
occupied cell, the nearest neighbour search returns the index of the point, and a radius search
finds at most that point. -/
def SingletonLibrary (X : Ext F) : Prop :=
  (∀ R cl, cl.length = 1 → (X.getOccupiedVoxelCenters R cl).length = 1) ∧
    (∀ cl q, cl.length = 1 → X.nearestKSearch cl q = 0) ∧
    ∀ cl q radius, cl.length = 1 → (X.radiusSearch cl q radius).length ≤ 1

/-- Leaf without neighbours whose distance is the largest float. -/
def isolatedLeaf (ops : FloatOps F) (v : Voxel F) (owner : Option Nat) : Leaf F :=
  { voxel_centroid_ := v, owner_ := owner, distance_ := ops.maxVal, neighbors := [] }

/-- Engine whose octree has the single leaf `v`, without neighbours, owned by the only helper,
which has label 1. -/
def SingleVoxel (ops : FloatOps F) (v : Voxel F) (e : Engine F) : Prop :=
  e.leaves = [isolatedLeaf ops v (some 1)] ∧
    ∃ cen, e.supervoxel_helpers_ = [{ label_ := 1, leaves_ := [0], centroid_ := cen }]

/-- Any two leaves of a helper are joined by a path of neighbour links of the octree. -/
def Clustered (leaves : List (Leaf F)) (helpers : List (SupervoxelHelper F)) : Prop :=
  ∀ h ∈ helpers, ∀ x ∈ h.leaves_, ∀ y ∈ h.leaves_, Joined leaves x y

/-- Invariant of `expand` towards `Clustered`, with the arena `leaves0` and the helper list
`helpers0` from the start of `expand`: the neighbour links are those of `leaves0`, the leaf set
of each helper is contained in the one of the helper at the same position of `helpers0`, and
every leaf of the buffer `new_owned` is a neighbour of a leaf of `ls`. -/
def GrowInv (leaves0 : List (Leaf F)) (helpers0 : List (SupervoxelHelper F)) (ls : List Nat)
    (s : ExpandState F) : Prop :=
  s.leaves.map (·.neighbors) = leaves0.map (·.neighbors) ∧
    (∀ (k : Nat) (h1 : SupervoxelHelper F), s.helpers[k]? = some h1 →
      ∃ h0 : SupervoxelHelper F, helpers0[k]? = some h0 ∧ ∀ x ∈ h1.leaves_, x ∈ h0.leaves_) ∧
    ∀ n ∈ s.new_owned, ∃ l ∈ ls, n ∈ neighborsOf leaves0 l

/-- Invariant of the pruning loop of `selectInitialSupervoxelSeeds` on the seeds not yet
removed: their `seed_idx_` are distinct, and `num_active_` of each is at least the number of
seeds not yet removed that its neighbour list holds. -/
def PruneInv (l : List SeedNHood) : Prop :=
  (l.map (·.seed_idx_)).Nodup ∧
    ∀ t ∈ l,
      (((l.map (·.seed_idx_)).filter fun i => decide (i ∈ t.neighbor_indices_)).length : Int) ≤
        t.num_active_

/-- Every leaf in the leaf set of a helper has that helper as its owner. -/
def MemberOwned (leaves : List (Leaf F)) (helpers : List (SupervoxelHelper F)) : Prop :=
  ∀ h ∈ helpers, ∀ i ∈ h.leaves_, ownerOf leaves i = some h.label_

/-- A leaf without owner has the distance of a leaf that was never reached, the largest
float. -/
def Unreached (ops : FloatOps F) (leaves : List (Leaf F)) : Prop :=
  ∀ l ∈ leaves, l.owner_ = none → l.distance_ = ops.maxVal

/-- The invariant `PruneInv` with equality: `num_active_` of each seed not yet removed is the
number of seeds not yet removed that its neighbour list holds. -/
def PruneExact (l : List SeedNHood) : Prop :=
  (l.map (·.seed_idx_)).Nodup ∧
    ∀ t ∈ l,
      t.num_active_ =
        (((l.map (·.seed_idx_)).filter fun i => decide (i ∈ t.neighbor_indices_)).length : Int)

/-- From the arena `L` to the arena `L1` every leaf keeps its distance or gets a strictly
smaller one, and a leaf that has an owner still has one. -/
def Grows (ops : FloatOps F) (L L1 : List (Leaf F)) : Prop :=
  ∀ (i : Nat) (l : Leaf F), L[i]? = some l → ∃ l1 : Leaf F, L1[i]? = some l1 ∧
    (l1.distance_ = l.distance_ ∨ ops.lt l1.distance_ l.distance_ = true) ∧
    (l.owner_ ≠ none → l1.owner_ ≠ none)

/-- The leaf `l1` differs from the leaf `l` at most in the normal and the curvature of its
voxel centroid: owner, distance, neighbour list, position and colour are those of `l`. -/
def SameButNormal (l l1 : Leaf F) : Prop :=
  l1.owner_ = l.owner_ ∧ l1.distance_ = l.distance_ ∧ l1.neighbors = l.neighbors ∧
    l1.voxel_centroid_.x = l.voxel_centroid_.x ∧ l1.voxel_centroid_.y = l.voxel_centroid_.y ∧
    l1.voxel_centroid_.z = l.voxel_centroid_.z ∧ l1.voxel_centroid_.r = l.voxel_centroid_.r ∧
    l1.voxel_centroid_.g = l.voxel_centroid_.g ∧ l1.voxel_centroid_.b = l.voxel_centroid_.b

/-- Every leaf of the arena `L1` that has no owner is the leaf the arena `L` has at the same
position. -/
def Untouched (L L1 : List (Leaf F)) : Prop :=
  ∀ (i : Nat) (l1 : Leaf F), L1[i]? = some l1 → l1.owner_ = none → L[i]? = some l1

end Invariants

section Reference

/-- Exact rational arithmetic standing in for `float`: every operation is the exact one, the
square root is rounded down to a multiple of `1 / den`, and conversion to `int` truncates. -/
def ratOps : FloatOps ℚ where
  add := fun a b => a + b
  sub := fun a b => a - b
  mul := fun a b => a * b
  div := fun a b => a / b
  abs := fun a => |a|
  sqrt := fun a => (Nat.sqrt (a.num.toNat * a.den) : ℚ) / a.den
  lt := fun a b => decide (a < b)
  ofRat := fun q => q
  ofInt := fun n => n
  toInt := fun a => if a < 0 then -⌊-a⌋ else ⌊a⌋
  isFinite := fun _ => true
  maxVal := 340282346638528859811704183484516925440

/-- Voxel key of a point for the grid of cell size `r`. -/
def voxelKey (r : ℚ) (p : Voxel ℚ) : Int × Int × Int :=
  (⌊p.x / r⌋, ⌊p.y / r⌋, ⌊p.z / r⌋)

/-- The keys of a cloud, each once, in order of first appearance. -/
def occupiedKeys (r : ℚ) (cloud : List (Voxel ℚ)) : List (Int × Int × Int) :=
  (cloud.map (voxelKey r)).dedup

/-- Componentwise mean of a list of points; the colour is averaged with integer division. -/
def meanPoint (vs : List (Voxel ℚ)) : Voxel ℚ :=
  let n : ℚ := vs.length
  { x := (vs.map (·.x)).sum / n
    y := (vs.map (·.y)).sum / n
    z := (vs.map (·.z)).sum / n
    r := (vs.map (·.r)).sum / vs.length
    g := (vs.map (·.g)).sum / vs.length
    b := (vs.map (·.b)).sum / vs.length
    normal_x := (vs.map (·.normal_x)).sum / n
    normal_y := (vs.map (·.normal_y)).sum / n
    normal_z := (vs.map (·.normal_z)).sum / n
    normal_w := (vs.map (·.normal_w)).sum / n
    curvature := (vs.map (·.curvature)).sum / n }

/-- Whether two voxel keys are different and differ by at most one in every coordinate. -/
def adjacentKeys (a b : Int × Int × Int) : Bool :=
  a != b && decide (|a.1 - b.1| ≤ 1) && decide (|a.2.1 - b.2.1| ≤ 1) &&
    decide (|a.2.2 - b.2.2| ≤ 1)

/-- Squared Euclidean distance between the positions of two points. -/
def sqrDist (p q : Voxel ℚ) : ℚ :=
  (p.x - q.x) * (p.x - q.x) + (p.y - q.y) * (p.y - q.y) + (p.z - q.z) * (p.z - q.z)

/-- Index of the first point of the cloud at the least squared distance from `q`. -/
def nearestIndex (cloud : List (Voxel ℚ)) (q : Voxel ℚ) : Nat :=
  (cloud.enum.foldl
    (fun (best : Option (Nat × ℚ)) p =>
      match best with
      | none => some (p.1, sqrDist p.2 q)
      | some b => if sqrDist p.2 q < b.2 then some (p.1, sqrDist p.2 q) else some b)
    none).elim 0 (·.1)

/-- A reference implementation, in exact arithmetic, of the library routines: a voxel grid
without camera transform whose leaves are linked to the occupied cells around them, exhaustive
nearest neighbour and radius searches, arithmetic means, and a plane fit that always reports
the degenerate result. -/
def refExt : Ext ℚ where
  has_normal := true
  addPointsFromInputCloud := fun _ r cloud =>
    (occupiedKeys r cloud).map fun k =>
      (meanPoint (cloud.filter fun p => voxelKey r p == k),
        (List.range (occupiedKeys r cloud).length).filter fun j =>
          match (occupiedKeys r cloud)[j]? with
          | none => false
          | some kj => adjacentKeys k kj)
  getLeafContainerAtPoint := fun _ r cloud p =>
    let i := (occupiedKeys r cloud).indexOf (voxelKey r p)
    if i < (occupiedKeys r cloud).length then some i else none
  computePointNormal := fun _ _ => ((0, 0, 0, 0), 0)
  flipNormalTowardsViewpoint := fun v =>
    if v.normal_x * (0 - v.x) + v.normal_y * (0 - v.y) + v.normal_z * (0 - v.z) < 0 then
      (-v.normal_x, -v.normal_y, -v.normal_z)
    else (v.normal_x, v.normal_y, v.normal_z)
  getOccupiedVoxelCenters := fun R cloud =>
    (occupiedKeys R cloud).map fun k =>
      { x := (k.1 + 1 / 2) * R, y := (k.2.1 + 1 / 2) * R, z := (k.2.2 + 1 / 2) * R,
        r := 0, g := 0, b := 0, normal_x := 0, normal_y := 0, normal_z := 0, normal_w := 0,
        curvature := 0 }
  nearestKSearch := nearestIndex
  radiusSearch := fun cloud q radius =>
    (List.range cloud.length).filter fun j =>
      match cloud[j]? with
      | none => false
      | some p => decide (sqrDist p q ≤ radius * radius)
  centroidPoint := meanPoint
  defaultCentroid :=
    { x := 0, y := 0, z := 0, r := 0, g := 0, b := 0, normal_x := 0, normal_y := 0,
      normal_z := 0, normal_w := 0, curvature := 0 }
  randColor := fun n => n

/-- Point on the x axis with the given curvature, black, with normal along z. -/
def axisPoint (x curvature : ℚ) : Voxel ℚ :=
  { x := x, y := 0, z := 0, r := 0, g := 0, b := 0, normal_x := 0, normal_y := 0,
    normal_z := 1, normal_w := 0, curvature := curvature }

/-- Three points in three consecutive voxels of size 1; the first has the largest curvature. -/
def chainCloud : List (Voxel ℚ) :=
  [axisPoint (1 / 2) 1, axisPoint (3 / 2) 0, axisPoint (5 / 2) 0]

/-- Engine with voxel resolution 1 and seed resolution 11/10, no camera transform, seed pruning
switched off, holding `chainCloud` as input. -/
def chainEngine : Engine ℚ :=
  setInputCloud (SupervoxelClustering ratOps 1 (11 / 10) false false) chainCloud

/-- Integer square root by bisection between `lo` and `hi`, in at most `fuel` steps. -/
def bisect : Nat → Nat → Nat → Nat → Nat
  | 0, _, lo, _ => lo
  | fuel + 1, n, lo, hi =>
    if hi ≤ lo + 1 then lo
    else if ((lo + hi) / 2) * ((lo + hi) / 2) ≤ n then bisect fuel n ((lo + hi) / 2) hi
    else bisect fuel n lo ((lo + hi) / 2)

/-- The largest natural number whose square is at most `n`. -/
def floorSqrt (n : Nat) : Nat :=
  bisect (n + 1) n 0 (n + 1)

/-- The arithmetic of `ratOps` with the square root computed by bisection, so that it can be
evaluated by unfolding. -/
def stepOps : FloatOps ℚ :=
  { ratOps with sqrt := fun a => (floorSqrt (a.num.toNat * a.den) : ℚ) / a.den }

/-- Point of the plane `z = 0` with the given red value, normal along z and curvature 0. -/
def planePoint (x y : ℚ) (red : Nat) : Voxel ℚ :=
  { x := x, y := y, z := 0, r := red, g := 0, b := 0, normal_x := 0, normal_y := 0,
    normal_z := 1, normal_w := 0, curvature := 0 }

/-- Engine with voxel resolution 0.01 and seed resolution 0.08, no camera transform, holding
a single point at the origin as input. -/
def originEngine : Engine ℚ :=
  setInputCloud (SupervoxelClustering ratOps (1 / 100) (8 / 100) false true) [planePoint 0 0 0]

/-- Black point at height one half with the given position in the plane and the given
normal. -/
def normalPoint (x y nx ny nz : ℚ) : Voxel ℚ :=
  { x := x, y := y, z := 1 / 2, r := 0, g := 0, b := 0, normal_x := nx, normal_y := ny,
    normal_z := nz, normal_w := 0, curvature := 0 }

/-- Five points in five voxels of edge 1: a column of three voxels whose lowest one touches one
voxel on its left and one on its right. -/
def teeCloud : List (Voxel ℚ) :=
  [normalPoint (3 / 2) (5 / 2) 0 0 1, normalPoint (3 / 2) (19 / 10) 0 1 0,
    normalPoint (3 / 2) (9 / 10) 0 0 1, normalPoint (1 / 2) (1 / 2) 1 0 0,
    normalPoint (21 / 10) (1 / 2) 1 0 0]

/-- Engine with voxel resolution 1, seed resolution 2.2 and spatial importance 0 on
`teeCloud`. -/
def teeEngine : Engine ℚ :=
  setInputCloud (setSpatialImportance (SupervoxelClustering stepOps 1 (11 / 5) false true) 0)
    teeCloud

/-- Rational arithmetic extended by one value `none` for the results that are not finite
(NaN and the infinities): division by zero and the square root of a negative number are not
finite, an operation on a value that is not finite is not finite, and a comparison with such a
value is false. -/
def nanOps : FloatOps (Option ℚ) where
  add := fun a b => a.bind fun x => b.map fun y => x + y
  sub := fun a b => a.bind fun x => b.map fun y => x - y
  mul := fun a b => a.bind fun x => b.map fun y => x * y
  div := fun a b => a.bind fun x => b.bind fun y => if y = 0 then none else some (x / y)
  abs := fun a => a.map fun x => |x|
  sqrt := fun a => a.bind fun x => if x < 0 then none else some (stepOps.sqrt x)
  lt := fun a b =>
    match a, b with
    | some x, some y => decide (x < y)
    | _, _ => false
  ofRat := fun q => some q
  ofInt := fun n => some n
  toInt := fun a =>
    match a with
    | some x => ratOps.toInt x
    | none => 0
  isFinite := fun a => a.isSome
  maxVal := some ratOps.maxVal

/-- Stand-in for `std::log` on `nanOps`: not finite at zero, at negative numbers and at
arguments that are not finite; elsewhere the first three terms of the series of the logarithm
in `(z - 1) / (z + 1)`, which is exact at 1. -/
def logApprox (a : Option ℚ) : Option ℚ :=
  a.bind fun z =>
    if z ≤ 0 then none
    else
      let t := (z - 1) / (z + 1)
      some (2 * (t + t * t * t / 3 + t * t * t * t * t / 5))

/-- The point with rational fields, when every field of the point is finite. -/
def finiteVoxel (v : Voxel (Option ℚ)) : Option (Voxel ℚ) :=
  v.x.bind fun x => v.y.bind fun y => v.z.bind fun z =>
    v.normal_x.bind fun nx => v.normal_y.bind fun ny => v.normal_z.bind fun nz =>
      v.normal_w.bind fun nw => v.curvature.map fun c =>
        { x := x, y := y, z := z, r := v.r, g := v.g, b := v.b, normal_x := nx, normal_y := ny,
          normal_z := nz, normal_w := nw, curvature := c }

/-- A point with rational fields as a point over `nanOps`. -/
def liftVoxel (v : Voxel ℚ) : Voxel (Option ℚ) :=
  { x := some v.x, y := some v.y, z := some v.z, r := v.r, g := v.g, b := v.b,
    normal_x := some v.normal_x, normal_y := some v.normal_y, normal_z := some v.normal_z,
    normal_w := some v.normal_w, curvature := some v.curvature }

/-- The cloud the octree quantises: every point goes through `transformFunction` when the
transform is enabled, and points that are not finite afterwards are skipped. -/
def quantisedCloud (flag : Bool) (cloud : List (Voxel (Option ℚ))) : List (Voxel ℚ) :=
  (cloud.map fun p => if flag then transformFunction nanOps logApprox p else p).filterMap
    finiteVoxel

/-- Reference implementation of the library routines over `nanOps`: the routines of `refExt`
on the finite points, with the octree built from `quantisedCloud`. -/
def cameraExt : Ext (Option ℚ) where
  has_normal := true
  addPointsFromInputCloud := fun flag r cloud =>
    match r with
    | none => []
    | some r =>
      (refExt.addPointsFromInputCloud false r (quantisedCloud flag cloud)).map fun p =>
        (liftVoxel p.1, p.2)
  getLeafContainerAtPoint := fun flag r cloud p =>
    match r, quantisedCloud flag [p] with
    | some r, [q] => refExt.getLeafContainerAtPoint false r (quantisedCloud flag cloud) q
    | _, _ => none
  computePointNormal := fun _ _ => ((some 0, some 0, some 0, some 0), some 0)
  flipNormalTowardsViewpoint := fun v =>
    match finiteVoxel v with
    | none => (v.normal_x, v.normal_y, v.normal_z)
    | some q =>
      (some (refExt.flipNormalTowardsViewpoint q).1, some (refExt.flipNormalTowardsViewpoint q).2.1,
        some (refExt.flipNormalTowardsViewpoint q).2.2)
  getOccupiedVoxelCenters := fun R cloud =>
    match R with
    | none => []
    | some R => (refExt.getOccupiedVoxelCenters R (cloud.filterMap finiteVoxel)).map liftVoxel
  nearestKSearch := fun cloud q =>
    match finiteVoxel q with
    | none => 0
    | some q => refExt.nearestKSearch (cloud.filterMap finiteVoxel) q
  radiusSearch := fun cloud q radius =>
    match finiteVoxel q, radius with
    | some q, some radius => refExt.radiusSearch (cloud.filterMap finiteVoxel) q radius
    | _, _ => []
  centroidPoint := fun vs => liftVoxel (refExt.centroidPoint (vs.filterMap finiteVoxel))
  defaultCentroid := liftVoxel refExt.defaultCentroid
  randColor := refExt.randColor

/-- A point at depth 1 in front of the camera and a point at depth -0.1 behind it. -/
def cameraCloud : List (Voxel (Option ℚ)) :=
  [liftVoxel { planePoint (1 / 2) 0 0 with z := 1 },
    liftVoxel { planePoint 0 0 0 with z := -1 / 10 }]

/-- Engine with the single camera transform enabled, voxel resolution 0.01 and seed resolution
0.08, on `cameraCloud`. -/
def cameraEngine : Engine (Option ℚ) :=
  setInputCloud (SupervoxelClustering nanOps (some (1 / 100)) (some (8 / 100)) true true)
    cameraCloud

/-- Engine with voxel resolution 1, seed resolution 1.1 and seed pruning on `chainCloud`, over
`stepOps`: `max_depth` is 1. -/
def pairEngine : Engine ℚ :=
  setInputCloud (SupervoxelClustering stepOps 1 (11 / 10) false true) chainCloud

/-- The engine `pairEngine` inside `extract`, after `createSupervoxelHelpers`. -/
def pairStart : Engine ℚ :=
  createSupervoxelHelpers refExt ((prepareForSegmentation stepOps refExt pairEngine).getD pairEngine)
    (selectInitialSupervoxelSeeds stepOps refExt
      ((prepareForSegmentation stepOps refExt pairEngine).getD pairEngine))

/-- The engine `teeEngine` inside `extract`, after `createSupervoxelHelpers`. -/
def teeStart : Engine ℚ :=
  createSupervoxelHelpers refExt ((prepareForSegmentation stepOps refExt teeEngine).getD teeEngine)
    (selectInitialSupervoxelSeeds stepOps refExt
      ((prepareForSegmentation stepOps refExt teeEngine).getD teeEngine))

/-- The state in which the first helper of `pairStart` starts `expand`. -/
def pairState : ExpandState ℚ :=
  { leaves := pairStart.leaves, helpers := pairStart.supervoxel_helpers_, new_owned := [] }

/-- The first leaf of `pairStart`: the voxel of the first point of `chainCloud`, without owner,
with the second leaf as its neighbour. -/
def pairLeaf : Leaf ℚ :=
  { voxel_centroid_ := axisPoint (1 / 2) 1, owner_ := none, distance_ := stepOps.maxVal,
    neighbors := [1] }

/-- Seven seeds on a line, at 0, 2, 3, 1.2, 3.5, 4 and -1. -/
def lineCloud : List (Voxel ℚ) :=
  [axisPoint 0 0, axisPoint 2 0, axisPoint 3 0, axisPoint (6 / 5) 0, axisPoint (7 / 2) 0,
    axisPoint 4 0, axisPoint (-1) 0]

/-- The records `seed_nhoods` of the seeds of `lineCloud` for the search radius 1, sorted as
before the `while` loop. -/
def lineNHoods : List SeedNHood :=
  sortSeedNHoods (seedNHoods refExt lineCloud lineCloud 1 (List.range 7))

/-- Engine with voxel resolution 1, seed resolution 2 and seed pruning on `chainCloud`, over
`stepOps`: the only seed is the last voxel and `max_depth` is 3. -/
def wideEngine : Engine ℚ :=
  setInputCloud (SupervoxelClustering stepOps 1 2 false true) chainCloud

/-- The engine `wideEngine` inside `extract`, after `createSupervoxelHelpers`. -/
def wideStart : Engine ℚ :=
  createSupervoxelHelpers refExt ((prepareForSegmentation stepOps refExt wideEngine).getD wideEngine)
    (selectInitialSupervoxelSeeds stepOps refExt
      ((prepareForSegmentation stepOps refExt wideEngine).getD wideEngine))

/-- The library `cameraExt` with a plane fit that reports values that are not finite when it
is given fewer than three indices, as `pcl::computePointNormal` does, and the zero plane
otherwise. -/
def nanFitExt : Ext (Option ℚ) :=
  { cameraExt with
    computePointNormal := fun _ indices =>
      if indices.length < 3 then ((none, none, none, none), none)
      else ((some 0, some 0, some 0, some 0), some 0) }

/-- Engine with voxel resolution 0.01, seed resolution 0.08, no camera transform and
`setIgnoreInputNormals (true)`, on a cloud of one point at the origin. -/
def loneEngine : Engine (Option ℚ) :=
  setInputCloud
    (setIgnoreInputNormals (SupervoxelClustering nanOps (some (1 / 100)) (some (8 / 100)) false true)
      true)
    [liftVoxel (planePoint 0 0 0)]

/-- The helper of `wideEngine` at the end of `extract`: label 1, all three leaves, and the mean
of their voxel centroids. -/
def wideHelper : SupervoxelHelper ℚ :=
  { label_ := 1
    leaves_ := [0, 1, 2]
    centroid_ :=
      { x := 3 / 2, y := 0, z := 0, r := 0, g := 0, b := 0
        normal_x := 0, normal_y := 0, normal_z := 1, normal_w := 0, curvature := 1 / 3 } }

/-- The point with normal and curvature set to zero: the position and colour of a point, which
is all that the octree and the searches look at. -/
def positionOnly (v : Voxel (Option ℚ)) : Voxel (Option ℚ) :=
  { v with
    normal_x := some 0, normal_y := some 0, normal_z := some 0, normal_w := some 0,
    curvature := some 0 }

/-- Mean over `nanOps` of the values `f p` of the points `p`: not finite as soon as one of the
values is not. -/
def nanMean (f : Voxel (Option ℚ) → Option ℚ) (vs : List (Voxel (Option ℚ))) : Option ℚ :=
  nanOps.div (vs.foldl (fun acc p => nanOps.add acc (f p)) (some 0)) (some vs.length)

/-- The point `v` with the normal and the curvature that are the means over `nanOps` of those of
the points `vs`. -/
def withMeanNormal (v : Voxel (Option ℚ)) (vs : List (Voxel (Option ℚ))) : Voxel (Option ℚ) :=
  { v with
    normal_x := nanMean (·.normal_x) vs, normal_y := nanMean (·.normal_y) vs,
    normal_z := nanMean (·.normal_z) vs, normal_w := nanMean (·.normal_w) vs,
    curvature := nanMean (·.curvature) vs }

/-- The library `cameraExt` for input points that carry normals of their own: the octree and the
searches look at the position of a point only, as `pcl::isFinite` and the k-d tree do, and the
normal and the curvature of a voxel or of a centroid are the means of those of its points, so
that a voxel holding a point whose curvature is not a number has a curvature that is not a
number. -/
def normalsExt : Ext (Option ℚ) :=
  { cameraExt with
    addPointsFromInputCloud := fun flag r cloud =>
      (cameraExt.addPointsFromInputCloud flag r (cloud.map positionOnly)).enum.map fun p =>
        (withMeanNormal p.2.1 (cloud.filter fun q =>
          cameraExt.getLeafContainerAtPoint flag r (cloud.map positionOnly) (positionOnly q) ==
            some p.1), p.2.2)
    getLeafContainerAtPoint := fun flag r cloud q =>
      cameraExt.getLeafContainerAtPoint flag r (cloud.map positionOnly) (positionOnly q)
    getOccupiedVoxelCenters := fun R cloud =>
      cameraExt.getOccupiedVoxelCenters R (cloud.map positionOnly)
    nearestKSearch := fun cloud q => cameraExt.nearestKSearch (cloud.map positionOnly) (positionOnly q)
    radiusSearch := fun cloud q radius =>
      cameraExt.radiusSearch (cloud.map positionOnly) (positionOnly q) radius
    centroidPoint := fun vs => withMeanNormal (cameraExt.centroidPoint (vs.map positionOnly)) vs }

/-- Two points in neighbouring voxels: the first at x = 0.5 with a curvature that is not a
number, the second at x = 1.5 with curvature 0.1. -/
def nanCurvatureCloud : List (Voxel (Option ℚ)) :=
  [{ liftVoxel (axisPoint (1 / 2) 0) with curvature := none }, liftVoxel (axisPoint (3 / 2) (1 / 10))]

/-- Engine with voxel resolution 1 and seed resolution 1.1, no camera transform, on
`nanCurvatureCloud`, whose points carry their own normals. -/
def nanCurvatureEngine : Engine (Option ℚ) :=
  setInputCloud (SupervoxelClustering nanOps (some 1) (some (11 / 10)) false true) nanCurvatureCloud

end Reference

section ContainerLemmas

theorem mem_setInsert (a x : Nat) (l : List Nat) : x ∈ setInsert a l ↔ x = a ∨ x ∈ l := by
  induction l with
  | nil => simp [setInsert]
  | cons b t ih =>
    unfold setInsert
    split_ifs with h1 h2
    · simp
    · subst h2; simp
    · simp only [List.mem_cons, ih]; tauto

theorem mem_setErase (a x : Nat) (l : List Nat) : x ∈ setErase a l ↔ x ∈ l ∧ x ≠ a := by
  simp [setErase]

theorem mem_foldl_setInsert (x : Nat) (l acc : List Nat) :
    x ∈ l.foldl (fun acc i => setInsert i acc) acc ↔ x ∈ l ∨ x ∈ acc := by
  induction l generalizing acc with
  | nil => simp
  | cons b t ih => simp only [List.foldl_cons, ih, mem_setInsert, List.mem_cons]; tauto

theorem mem_multimapInsert (p q : Nat × Nat) (l : List (Nat × Nat)) :
    q ∈ multimapInsert p l ↔ q = p ∨ q ∈ l := by
  induction l with
  | nil => simp [multimapInsert]
  | cons b t ih =>
    unfold multimapInsert
    split_ifs with h1
    · simp
    · simp only [List.mem_cons, ih]; tauto

theorem mem_modify_of_mem {α : Type} (f : α → α) (k : Nat) (l : List α) (x : α) (hx : x ∈ l) :
    x ∈ l.modify f k ∨ (l[k]? = some x ∧ f x ∈ l.modify f k) := by
  obtain ⟨n, hn⟩ := List.mem_iff_getElem?.1 hx
  by_cases hnk : n = k
  · subst hnk
    right
    refine ⟨hn, List.mem_iff_getElem?.2 ⟨n, ?_⟩⟩
    simp [List.getElem?_modify, hn]
  · left
    refine List.mem_iff_getElem?.2 ⟨n, ?_⟩
    rw [List.getElem?_modify_ne _ _ (Ne.symm hnk)]
    exact hn

end ContainerLemmas

section OwnerLemmas

variable {F : Type}

theorem labels_removeLeaf (helpers : List (SupervoxelHelper F)) (o n : Nat) :
    (removeLeaf helpers o n).map (·.label_) = helpers.map (·.label_) := by
  unfold removeLeaf
  rw [List.map_map]
  apply List.map_congr_left
  intro h _
  simp only [Function.comp]
  split_ifs <;> rfl

theorem exists_mem_removeLeaf (helpers : List (SupervoxelHelper F)) (o n : Nat)
    (h : SupervoxelHelper F) (hh : h ∈ helpers) (i : Nat) (hi : i ∈ h.leaves_) (hin : i ≠ n) :
    ∃ h1 ∈ removeLeaf helpers o n, h1.label_ = h.label_ ∧ i ∈ h1.leaves_ := by
  unfold removeLeaf
  by_cases hl : h.label_ = o
  · refine ⟨{ h with leaves_ := setErase n h.leaves_ }, ?_, rfl, ?_⟩
    · exact List.mem_map.2 ⟨h, hh, by simp [hl]⟩
    · exact (mem_setErase n i h.leaves_).2 ⟨hi, hin⟩
  · exact ⟨h, List.mem_map.2 ⟨h, hh, by simp [hl]⟩, rfl, hi⟩

theorem expandVisit_cases (ops : FloatOps F) (e : Engine F) (lab : Nat) (c : Voxel F)
    (s : ExpandState F) (n : Nat) :
    expandVisit ops e lab c s n = s ∨
    ∃ nv, s.leaves[n]? = some nv ∧ nv.owner_ ≠ some lab ∧
      ops.lt (voxelDistance ops e c nv.voxel_centroid_) nv.distance_ = true ∧
      expandVisit ops e lab c s n =
        { leaves := s.leaves.set n
            { nv with distance_ := voxelDistance ops e c nv.voxel_centroid_, owner_ := some lab }
          helpers :=
            match nv.owner_ with
            | some o => removeLeaf s.helpers o n
            | none => s.helpers
          new_owned := s.new_owned ++ [n] } := by
  unfold expandVisit
  cases hn : s.leaves[n]? with
  | none => left; rfl
  | some nv =>
    by_cases h1 : nv.owner_ = some lab
    · left; simp [h1]
    · by_cases h2 : ops.lt (voxelDistance ops e c nv.voxel_centroid_) nv.distance_ = true
      · right
        refine ⟨nv, rfl, h1, h2, ?_⟩
        simp only [h1, h2, if_true, if_false, ne_eq, not_false_eq_true]
      · left; simp [h1, h2]

theorem expandVisit_labels (ops : FloatOps F) (e : Engine F) (lab : Nat) (c : Voxel F)
    (s : ExpandState F) (n : Nat) :
    (expandVisit ops e lab c s n).helpers.map (·.label_) = s.helpers.map (·.label_) := by
  rcases expandVisit_cases ops e lab c s n with h | ⟨nv, _, _, _, h⟩
  · rw [h]
  · rw [h]
    cases ho : nv.owner_ with
    | none => rfl
    | some o => exact labels_removeLeaf _ _ _

theorem expandVisit_inv (ops : FloatOps F) (e : Engine F) (lab : Nat) (c : Voxel F)
    (s : ExpandState F) (n : Nat) (hs : VisitInv lab s) :
    VisitInv lab (expandVisit ops e lab c s n) := by
  rcases expandVisit_cases ops e lab c s n with h | ⟨nv, hnv, _, _, h⟩
  · rw [h]; exact hs
  · rw [h]
    intro i l hil a ha
    simp only at hil ⊢
    by_cases hin : i = n
    · subst hin
      have hlt : i < s.leaves.length := by
        rcases List.getElem?_eq_some.1 hnv with ⟨h, _⟩; exact h
      rw [List.getElem?_set_self hlt] at hil
      cases hil
      simp only [Option.some.injEq] at ha
      right
      exact ⟨ha.symm, by simp⟩
    · rw [List.getElem?_set_ne (Ne.symm hin)] at hil
      rcases hs i l hil a ha with ⟨h, hh, hla, hmem⟩ | ⟨hla, hmem⟩
      · left
        cases ho : nv.owner_ with
        | none => exact ⟨h, hh, hla, hmem⟩
        | some o =>
          obtain ⟨h1, hh1, hl1, hm1⟩ := exists_mem_removeLeaf s.helpers o n h hh i hmem hin
          exact ⟨h1, hh1, hl1.trans hla, hm1⟩
      · right
        exact ⟨hla, by simp [hmem]⟩

theorem foldl_visit_inv (ops : FloatOps F) (e : Engine F) (lab : Nat) (c : Voxel F)
    (ns : List Nat) (s : ExpandState F) (hs : VisitInv lab s) :
    VisitInv lab (ns.foldl (expandVisit ops e lab c) s) := by
  induction ns generalizing s with
  | nil => exact hs
  | cons n t ih => exact ih _ (expandVisit_inv ops e lab c s n hs)

theorem foldl_visit_labels (ops : FloatOps F) (e : Engine F) (lab : Nat) (c : Voxel F)
    (ns : List Nat) (s : ExpandState F) :
    (ns.foldl (expandVisit ops e lab c) s).helpers.map (·.label_) = s.helpers.map (·.label_) := by
  induction ns generalizing s with
  | nil => rfl
  | cons n t ih => rw [List.foldl_cons, ih, expandVisit_labels]

theorem expandLoops_inv (ops : FloatOps F) (e : Engine F) (h : SupervoxelHelper F)
    (ls : List Nat) (s : ExpandState F) (hs : VisitInv h.label_ s) :
    VisitInv h.label_ (expandLoops ops e h ls s) := by
  induction ls generalizing s with
  | nil => exact hs
  | cons n t ih => exact ih _ (foldl_visit_inv ops e _ _ _ s hs)

theorem expandLoops_labels (ops : FloatOps F) (e : Engine F) (h : SupervoxelHelper F)
    (ls : List Nat) (s : ExpandState F) :
    (expandLoops ops e h ls s).helpers.map (·.label_) = s.helpers.map (·.label_) := by
  induction ls generalizing s with
  | nil => rfl
  | cons n t ih =>
    unfold expandLoops at ih ⊢
    rw [List.foldl_cons, ih, foldl_visit_labels]

theorem expand_eq (ops : FloatOps F) (e : Engine F) (k : Nat) (h : SupervoxelHelper F)
    (hk : e.supervoxel_helpers_[k]? = some h) :
    expand ops e k =
      { e with
        leaves := (expandLoops ops e h h.leaves_
          { leaves := e.leaves, helpers := e.supervoxel_helpers_, new_owned := [] }).leaves
        supervoxel_helpers_ :=
          (expandLoops ops e h h.leaves_
            { leaves := e.leaves, helpers := e.supervoxel_helpers_, new_owned := [] }).helpers.modify
            (insertOwned (expandLoops ops e h h.leaves_
                { leaves := e.leaves, helpers := e.supervoxel_helpers_,
                  new_owned := [] }).new_owned)
            k } := by
  unfold expand
  rw [hk]

theorem labels_modify_leaves (hs : List (SupervoxelHelper F))
    (g : SupervoxelHelper F → SupervoxelHelper F) (hg : ∀ h, (g h).label_ = h.label_) (k : Nat) :
    (hs.modify g k).map (·.label_) = hs.map (·.label_) := by
  apply List.ext_getElem?
  intro n
  simp only [List.getElem?_map, List.getElem?_modify]
  cases hn : hs[n]? with
  | none => simp
  | some a => by_cases hnk : k = n <;> simp [hnk, hg]

theorem expand_labels (ops : FloatOps F) (e : Engine F) (k : Nat) :
    labels (expand ops e k) = labels e := by
  cases hk : e.supervoxel_helpers_[k]? with
  | none => unfold expand; rw [hk]
  | some h =>
    rw [expand_eq ops e k h hk]
    unfold labels
    simp only
    rw [labels_modify_leaves _ (insertOwned _) (fun _ => rfl), expandLoops_labels]

theorem expand_ownerLive (ops : FloatOps F) (e : Engine F) (k : Nat)
    (he : OwnerLive e.leaves e.supervoxel_helpers_) :
    OwnerLive (expand ops e k).leaves (expand ops e k).supervoxel_helpers_ := by
  cases hk : e.supervoxel_helpers_[k]? with
  | none => unfold expand; rw [hk]; exact he
  | some h =>
    rw [expand_eq ops e k h hk]
    simp only
    set s := expandLoops ops e h h.leaves_
      { leaves := e.leaves, helpers := e.supervoxel_helpers_, new_owned := [] } with hsdef
    have hinv : VisitInv h.label_ s := by
      apply expandLoops_inv
      intro i l hil a ha
      exact Or.inl (he i l hil a ha)
    have hlab : s.helpers.map (·.label_) = e.supervoxel_helpers_.map (·.label_) :=
      expandLoops_labels ops e h h.leaves_ _
    intro i l hil a ha
    rcases hinv i l hil a ha with ⟨h1, hh1, hl1, hm1⟩ | ⟨hla, hmem⟩
    · rcases mem_modify_of_mem (insertOwned s.new_owned) k s.helpers h1 hh1 with hm | ⟨_, hm⟩
      · exact ⟨h1, hm, hl1, hm1⟩
      · exact ⟨_, hm, hl1, (mem_foldl_setInsert _ _ _).2 (Or.inr hm1)⟩
    · have hk2 : (s.helpers.map (·.label_))[k]? = some h.label_ := by
        rw [hlab, List.getElem?_map, hk]; rfl
      rw [List.getElem?_map] at hk2
      cases hsk : s.helpers[k]? with
      | none => rw [hsk] at hk2; simp at hk2
      | some hk1 =>
        rw [hsk] at hk2
        simp only [Option.map_some', Option.some.injEq] at hk2
        refine ⟨insertOwned s.new_owned hk1, ?_, ?_, ?_⟩
        · refine List.mem_iff_getElem?.2 ⟨k, ?_⟩
          simp [List.getElem?_modify, hsk]
        · show hk1.label_ = a
          rw [hk2, hla]
        · exact (mem_foldl_setInsert _ _ _).2 (Or.inl hmem)

end OwnerLemmas

section EngineLemmas

variable {F : Type}

theorem foldl_expand_labels (ops : FloatOps F) (ks : List Nat) (e : Engine F) :
    labels (ks.foldl (expand ops) e) = labels e := by
  induction ks generalizing e with
  | nil => rfl
  | cons k t ih => rw [List.foldl_cons, ih, expand_labels]

theorem foldl_expand_ownerLive (ops : FloatOps F) (ks : List Nat) (e : Engine F)
    (he : OwnerLive e.leaves e.supervoxel_helpers_) :
    OwnerLive (ks.foldl (expand ops) e).leaves (ks.foldl (expand ops) e).supervoxel_helpers_ := by
  induction ks generalizing e with
  | nil => exact he
  | cons k t ih => exact ih _ (expand_ownerLive ops e k he)

theorem labels_map_updateCentroid (X : Ext F) (ls : List (Leaf F)) (hs : List (SupervoxelHelper F)) :
    (hs.map (updateCentroid X ls)).map (·.label_) = hs.map (·.label_) := by
  rw [List.map_map]
  rfl

theorem expandRound_labels (ops : FloatOps F) (X : Ext F) (e : Engine F) :
    (labels (expandRound ops X e)).Sublist (labels e) := by
  unfold expandRound
  show ((List.map (updateCentroid X _) (List.filter _ _)).map (·.label_)).Sublist _
  rw [labels_map_updateCentroid, ← foldl_expand_labels ops (List.range e.supervoxel_helpers_.length) e]
  exact List.Sublist.map _ (List.filter_sublist _)

theorem expandRound_ownerLive (ops : FloatOps F) (X : Ext F) (e : Engine F)
    (he : OwnerLive e.leaves e.supervoxel_helpers_) :
    OwnerLive (expandRound ops X e).leaves (expandRound ops X e).supervoxel_helpers_ := by
  have h1 := foldl_expand_ownerLive ops (List.range e.supervoxel_helpers_.length) e he
  intro i l hil a ha
  obtain ⟨h, hh, hla, hmem⟩ := h1 i l hil a ha
  refine ⟨updateCentroid X
    ((List.range e.supervoxel_helpers_.length).foldl (expand ops) e).leaves h, ?_, hla, hmem⟩
  refine List.mem_map.2 ⟨h, List.mem_filter.2 ⟨hh, ?_⟩, rfl⟩
  cases hl : h.leaves_ with
  | nil => rw [hl] at hmem; cases hmem
  | cons b t => simp

theorem iterate_expandRound_labels (ops : FloatOps F) (X : Ext F) (n : Nat) (e : Engine F) :
    (labels ((expandRound ops X)^[n] e)).Sublist (labels e) := by
  induction n generalizing e with
  | zero => exact List.Sublist.refl _
  | succ n ih =>
    rw [Function.iterate_succ_apply]
    exact (ih _).trans (expandRound_labels ops X e)

theorem iterate_expandRound_ownerLive (ops : FloatOps F) (X : Ext F) (n : Nat) (e : Engine F)
    (he : OwnerLive e.leaves e.supervoxel_helpers_) :
    OwnerLive ((expandRound ops X)^[n] e).leaves ((expandRound ops X)^[n] e).supervoxel_helpers_ := by
  induction n generalizing e with
  | zero => exact he
  | succ n ih =>
    rw [Function.iterate_succ_apply]
    exact ih _ (expandRound_ownerLive ops X e he)

theorem addLeaf_labels (e : Engine F) (k leaf : Nat) : labels (addLeaf e k leaf) = labels e := by
  unfold addLeaf
  cases hk : e.supervoxel_helpers_[k]? with
  | none => rfl
  | some h =>
    simp only [labels]
    apply List.ext_getElem?
    intro n
    simp only [List.getElem?_map, List.getElem?_set]
    by_cases hnk : k = n
    · subst hnk
      have hlt : k < e.supervoxel_helpers_.length := by
        rcases List.getElem?_eq_some.1 hk with ⟨h, _⟩; exact h
      simp [hk, hlt]
    · simp [hnk]

theorem addLeaf_ownerLive (e : Engine F) (k leaf : Nat)
    (he : OwnerLive e.leaves e.supervoxel_helpers_) :
    OwnerLive (addLeaf e k leaf).leaves (addLeaf e k leaf).supervoxel_helpers_ := by
  unfold addLeaf
  cases hk : e.supervoxel_helpers_[k]? with
  | none => exact he
  | some h =>
    have hlt : k < e.supervoxel_helpers_.length := by
      rcases List.getElem?_eq_some.1 hk with ⟨h, _⟩; exact h
    have hnew : ({ h with leaves_ := setInsert leaf h.leaves_ } : SupervoxelHelper F) ∈
        e.supervoxel_helpers_.set k { h with leaves_ := setInsert leaf h.leaves_ } :=
      List.mem_iff_getElem?.2 ⟨k, by rw [List.getElem?_set_self hlt]⟩
    intro i l hil a ha
    simp only at hil ⊢
    rw [List.getElem?_modify] at hil
    cases hi : e.leaves[i]? with
    | none => rw [hi] at hil; simp at hil
    | some l0 =>
      rw [hi] at hil
      simp only [Option.map_eq_map, Option.map_some', Option.some.injEq] at hil
      by_cases hli : leaf = i
      · subst hli
        simp only [if_true] at hil
        subst hil
        have ha2 : h.label_ = a := by simpa using ha
        exact ⟨_, hnew, ha2, (mem_setInsert _ _ _).2 (Or.inl rfl)⟩
      · simp only [hli, if_false] at hil
        subst hil
        obtain ⟨h1, hh1, hl1, hm1⟩ := he i l0 hi a ha
        obtain ⟨n, hn⟩ := List.mem_iff_getElem?.1 hh1
        by_cases hnk : n = k
        · subst hnk
          rw [hk] at hn
          cases hn
          exact ⟨_, hnew, hl1, (mem_setInsert _ _ _).2 (Or.inr hm1)⟩
        · refine ⟨h1, List.mem_iff_getElem?.2 ⟨n, ?_⟩, hl1, hm1⟩
          rw [List.getElem?_set_ne (Ne.symm hnk)]
          exact hn

theorem ownerLive_of_allUnowned (leaves : List (Leaf F)) (hs : List (SupervoxelHelper F))
    (h : AllUnowned leaves) : OwnerLive leaves hs := by
  intro i l hil a ha
  have := h l (List.mem_iff_getElem?.2 ⟨i, hil⟩)
  rw [this] at ha
  cases ha

theorem createStep_labels (X : Ext F) (e : Engine F) (seed : Nat) :
    labels (createStep X e seed) = labels e ++ [e.supervoxel_helpers_.length + 1] := by
  unfold createStep
  simp only
  split_ifs
  · rw [addLeaf_labels]; simp [labels]
  · simp [labels]

theorem createStep_ownerLive (X : Ext F) (e : Engine F) (seed : Nat)
    (he : OwnerLive e.leaves e.supervoxel_helpers_) :
    OwnerLive (createStep X e seed).leaves (createStep X e seed).supervoxel_helpers_ := by
  have ho2 : OwnerLive e.leaves (e.supervoxel_helpers_ ++
      [{ label_ := e.supervoxel_helpers_.length + 1, leaves_ := [],
         centroid_ := X.defaultCentroid }]) := by
    intro i l hil a ha
    obtain ⟨h1, hh1, hl1, hm1⟩ := he i l hil a ha
    exact ⟨h1, List.mem_append_left _ hh1, hl1, hm1⟩
  unfold createStep
  simp only
  split_ifs
  · exact addLeaf_ownerLive _ _ _ ho2
  · exact ho2

theorem foldl_createStep_labels (X : Ext F) (seeds : List Nat) (e : Engine F) :
    labels (seeds.foldl (createStep X) e) =
      labels e ++ List.range' (e.supervoxel_helpers_.length + 1) seeds.length := by
  induction seeds generalizing e with
  | nil => simp
  | cons sd t ih =>
    have hlen : (createStep X e sd).supervoxel_helpers_.length =
        e.supervoxel_helpers_.length + 1 := by
      have := congrArg List.length (createStep_labels X e sd)
      simpa [labels] using this
    rw [List.foldl_cons, ih, createStep_labels, hlen, List.append_assoc]
    rfl

theorem foldl_createStep_ownerLive (X : Ext F) (seeds : List Nat) (e : Engine F)
    (he : OwnerLive e.leaves e.supervoxel_helpers_) :
    OwnerLive (seeds.foldl (createStep X) e).leaves
      (seeds.foldl (createStep X) e).supervoxel_helpers_ := by
  induction seeds generalizing e with
  | nil => exact he
  | cons sd t ih => exact ih _ (createStep_ownerLive X e sd he)

theorem createSupervoxelHelpers_labels (X : Ext F) (e : Engine F) (seeds : List Nat) :
    labels (createSupervoxelHelpers X e seeds) = List.range' 1 seeds.length := by
  unfold createSupervoxelHelpers
  rw [foldl_createStep_labels]
  simp [labels]

theorem createSupervoxelHelpers_ownerLive (X : Ext F) (e : Engine F) (seeds : List Nat)
    (he : AllUnowned e.leaves) :
    OwnerLive (createSupervoxelHelpers X e seeds).leaves
      (createSupervoxelHelpers X e seeds).supervoxel_helpers_ :=
  foldl_createStep_ownerLive X seeds _ (ownerLive_of_allUnowned _ _ he)

end EngineLemmas

section RefineLemmas

variable {F : Type}

theorem ownerLive_congr (L L1 : List (Leaf F)) (hs : List (SupervoxelHelper F))
    (h : L1.map (·.owner_) = L.map (·.owner_)) (hl : OwnerLive L hs) : OwnerLive L1 hs := by
  intro i l hil a ha
  have h2 := congrArg (fun m => m[i]?) h
  simp only [List.getElem?_map, hil, Option.map_some'] at h2
  cases hi : L[i]? with
  | none => rw [hi] at h2; simp at h2
  | some l0 =>
    rw [hi] at h2
    simp only [Option.map_some', Option.some.injEq] at h2
    exact hl i l0 hi a (by rw [← h2, ha])

theorem storeCentroid_spec (e : Engine F) (idx : Nat) (c : Voxel F) :
    (storeCentroid e idx c).supervoxel_helpers_ = e.supervoxel_helpers_ ∧
      (storeCentroid e idx c).leaves.map (·.owner_) = e.leaves.map (·.owner_) := by
  unfold storeCentroid
  cases hi : e.leaves[idx]? with
  | none => exact ⟨rfl, rfl⟩
  | some l =>
    refine ⟨rfl, ?_⟩
    apply List.ext_getElem?
    intro n
    simp only [List.getElem?_map, List.getElem?_set]
    by_cases hin : idx = n
    · subst hin
      have hlt : idx < e.leaves.length := by
        rcases List.getElem?_eq_some.1 hi with ⟨h, _⟩; exact h
      simp [hi, hlt]
    · simp [hin]

theorem refineLeaf_spec (X : Ext F) (lab : Nat) (e : Engine F) (leaf : Nat) :
    (refineLeaf X lab e leaf).supervoxel_helpers_ = e.supervoxel_helpers_ ∧
      (refineLeaf X lab e leaf).leaves.map (·.owner_) = e.leaves.map (·.owner_) := by
  unfold refineLeaf
  cases e.leaves[leaf]? with
  | none => exact ⟨rfl, rfl⟩
  | some l =>
    simp only
    split_ifs
    · exact storeCentroid_spec _ _ _
    · exact ⟨rfl, rfl⟩

theorem computeLeafNormal_spec (X : Ext F) (e : Engine F) (idx : Nat) :
    (computeLeafNormal X e idx).supervoxel_helpers_ = e.supervoxel_helpers_ ∧
      (computeLeafNormal X e idx).leaves.map (·.owner_) = e.leaves.map (·.owner_) := by
  unfold computeLeafNormal
  cases e.leaves[idx]? with
  | none => exact ⟨rfl, rfl⟩
  | some l => exact storeCentroid_spec _ _ _

theorem foldl_spec (f : Engine F → Nat → Engine F)
    (hf : ∀ e i, (f e i).supervoxel_helpers_ = e.supervoxel_helpers_ ∧
      (f e i).leaves.map (·.owner_) = e.leaves.map (·.owner_))
    (ls : List Nat) (e : Engine F) :
    (ls.foldl f e).supervoxel_helpers_ = e.supervoxel_helpers_ ∧
      (ls.foldl f e).leaves.map (·.owner_) = e.leaves.map (·.owner_) := by
  induction ls generalizing e with
  | nil => exact ⟨rfl, rfl⟩
  | cons b t ih =>
    rw [List.foldl_cons]
    exact ⟨(ih _).1.trans (hf e b).1, (ih _).2.trans (hf e b).2⟩

theorem refineNormals_spec (X : Ext F) (e : Engine F) (k : Nat) :
    (refineNormals X e k).supervoxel_helpers_ = e.supervoxel_helpers_ ∧
      (refineNormals X e k).leaves.map (·.owner_) = e.leaves.map (·.owner_) := by
  unfold refineNormals
  cases e.supervoxel_helpers_[k]? with
  | none => exact ⟨rfl, rfl⟩
  | some h => exact foldl_spec _ (refineLeaf_spec X h.label_) _ _

theorem computeVoxelData_spec (X : Ext F) (e : Engine F) :
    (computeVoxelData X e).supervoxel_helpers_ = e.supervoxel_helpers_ ∧
      (computeVoxelData X e).leaves.map (·.owner_) = e.leaves.map (·.owner_) := by
  unfold computeVoxelData
  simp only
  split_ifs
  · exact foldl_spec _ (computeLeafNormal_spec X) _ _
  · exact ⟨rfl, rfl⟩

theorem allUnowned_iff (L : List (Leaf F)) : AllUnowned L ↔ ∀ o ∈ L.map (·.owner_), o = none := by
  simp [AllUnowned]

theorem prepareForSegmentation_allUnowned (ops : FloatOps F) (X : Ext F) (e e1 : Engine F)
    (h : prepareForSegmentation ops X e = some e1) : AllUnowned e1.leaves := by
  unfold prepareForSegmentation at h
  cases hin : e.input_ with
  | none => rw [hin] at h; cases h
  | some cloud =>
    rw [hin] at h
    simp only at h
    split_ifs at h
    cases h
    rw [allUnowned_iff, (computeVoxelData_spec X _).2]
    intro o ho
    simp only [List.map_map, List.mem_map, Function.comp] at ho
    obtain ⟨_, _, ho⟩ := ho
    exact ho.symm

theorem resetLeaf_other (ops : FloatOps F) (L : List (Leaf F)) (b i : Nat) (h : b ≠ i) :
    (resetLeaf ops L b)[i]? = L[i]? := by
  unfold resetLeaf
  exact List.getElem?_modify_ne _ _ h

theorem resetLeaf_owner (ops : FloatOps F) (L : List (Leaf F)) (b : Nat) (l : Leaf F)
    (h : (resetLeaf ops L b)[b]? = some l) : l.owner_ = none := by
  unfold resetLeaf at h
  rw [List.getElem?_modify_eq] at h
  cases hb : L[b]? with
  | none => rw [hb] at h; simp at h
  | some l0 =>
    rw [hb] at h
    simp only [Option.map_eq_map, Option.map_some', Option.some.injEq] at h
    rw [← h]

theorem foldl_resetLeaf_other (ops : FloatOps F) (ls : List Nat) (L : List (Leaf F)) (i : Nat)
    (h : i ∉ ls) : (ls.foldl (resetLeaf ops) L)[i]? = L[i]? := by
  induction ls generalizing L with
  | nil => rfl
  | cons b t ih =>
    rw [List.foldl_cons, ih _ (fun hh => h (List.mem_cons_of_mem _ hh))]
    exact resetLeaf_other ops L b i (fun hh => h (hh ▸ List.mem_cons_self _ _))

theorem foldl_resetLeaf_keeps (ops : FloatOps F) (ls : List Nat) (L : List (Leaf F)) (i : Nat)
    (h : ∀ l, L[i]? = some l → l.owner_ = none) :
    ∀ l, (ls.foldl (resetLeaf ops) L)[i]? = some l → l.owner_ = none := by
  induction ls generalizing L with
  | nil => exact h
  | cons b t ih =>
    rw [List.foldl_cons]
    apply ih
    intro l hl
    by_cases hbi : b = i
    · subst hbi; exact resetLeaf_owner ops L b l hl
    · rw [resetLeaf_other ops L b i hbi] at hl; exact h l hl

theorem foldl_resetLeaf_owner (ops : FloatOps F) (ls : List Nat) (L : List (Leaf F)) (i : Nat)
    (h : i ∈ ls) : ∀ l, (ls.foldl (resetLeaf ops) L)[i]? = some l → l.owner_ = none := by
  induction ls generalizing L with
  | nil => cases h
  | cons b t ih =>
    rw [List.foldl_cons]
    by_cases hbi : b = i
    · subst hbi
      exact foldl_resetLeaf_keeps ops t _ b (resetLeaf_owner ops L b)
    · rcases List.mem_cons.1 h with h1 | h1
      · exact absurd h1.symm hbi
      · exact ih _ h1

theorem removeAllLeaves_labels (ops : FloatOps F) (e : Engine F) (k : Nat) :
    labels (removeAllLeaves ops e k) = labels e := by
  unfold removeAllLeaves
  cases hk : e.supervoxel_helpers_[k]? with
  | none => rfl
  | some h =>
    simp only [labels]
    apply List.ext_getElem?
    intro n
    simp only [List.getElem?_map, List.getElem?_set]
    by_cases hnk : k = n
    · subst hnk
      have hlt : k < e.supervoxel_helpers_.length := by
        rcases List.getElem?_eq_some.1 hk with ⟨h, _⟩; exact h
      simp [hk, hlt]
    · simp [hnk]

theorem removeAllLeaves_ownerLive (ops : FloatOps F) (e : Engine F) (k : Nat)
    (he : OwnerLive e.leaves e.supervoxel_helpers_) :
    OwnerLive (removeAllLeaves ops e k).leaves (removeAllLeaves ops e k).supervoxel_helpers_ := by
  unfold removeAllLeaves
  cases hk : e.supervoxel_helpers_[k]? with
  | none => exact he
  | some h =>
    intro i l hil a ha
    simp only at hil ⊢
    by_cases hi : i ∈ h.leaves_
    · have := foldl_resetLeaf_owner ops h.leaves_ e.leaves i hi l hil
      rw [this] at ha; cases ha
    · rw [foldl_resetLeaf_other ops h.leaves_ e.leaves i hi] at hil
      obtain ⟨h1, hh1, hl1, hm1⟩ := he i l hil a ha
      obtain ⟨n, hn⟩ := List.mem_iff_getElem?.1 hh1
      have hnk : n ≠ k := by
        intro hnk
        subst hnk
        rw [hk] at hn
        cases hn
        exact hi hm1
      refine ⟨h1, List.mem_iff_getElem?.2 ⟨n, ?_⟩, hl1, hm1⟩
      rw [List.getElem?_set_ne (Ne.symm hnk)]
      exact hn

theorem reseedStep_labels (X : Ext F) (e : Engine F) (k : Nat) :
    labels (reseedStep X e k) = labels e := by
  unfold reseedStep
  cases e.supervoxel_helpers_[k]? with
  | none => rfl
  | some h =>
    simp only
    split_ifs
    · exact addLeaf_labels _ _ _
    · rfl

theorem reseedStep_ownerLive (X : Ext F) (e : Engine F) (k : Nat)
    (he : OwnerLive e.leaves e.supervoxel_helpers_) :
    OwnerLive (reseedStep X e k).leaves (reseedStep X e k).supervoxel_helpers_ := by
  unfold reseedStep
  cases e.supervoxel_helpers_[k]? with
  | none => exact he
  | some h =>
    simp only
    split_ifs
    · exact addLeaf_ownerLive _ _ _ he
    · exact he

theorem foldl_keeps (f : Engine F → Nat → Engine F)
    (hf : ∀ e i, labels (f e i) = labels e)
    (hg : ∀ e i, OwnerLive e.leaves e.supervoxel_helpers_ →
      OwnerLive (f e i).leaves (f e i).supervoxel_helpers_)
    (ls : List Nat) (e : Engine F) :
    labels (ls.foldl f e) = labels e ∧
      (OwnerLive e.leaves e.supervoxel_helpers_ →
        OwnerLive (ls.foldl f e).leaves (ls.foldl f e).supervoxel_helpers_) := by
  induction ls generalizing e with
  | nil => exact ⟨rfl, id⟩
  | cons b t ih =>
    rw [List.foldl_cons]
    exact ⟨(ih _).1.trans (hf e b), fun h => (ih _).2 (hg e b h)⟩

theorem reseedSupervoxels_keeps (ops : FloatOps F) (X : Ext F) (e : Engine F) :
    labels (reseedSupervoxels ops X e) = labels e ∧
      (OwnerLive e.leaves e.supervoxel_helpers_ →
        OwnerLive (reseedSupervoxels ops X e).leaves
          (reseedSupervoxels ops X e).supervoxel_helpers_) := by
  unfold reseedSupervoxels
  simp only
  have h1 := foldl_keeps (removeAllLeaves ops) (removeAllLeaves_labels ops)
    (removeAllLeaves_ownerLive ops) (List.range e.supervoxel_helpers_.length) e
  have h2 := foldl_keeps (reseedStep X) (reseedStep_labels X) (reseedStep_ownerLive X)
    (List.range ((List.range e.supervoxel_helpers_.length).foldl
      (removeAllLeaves ops) e).supervoxel_helpers_.length)
    ((List.range e.supervoxel_helpers_.length).foldl (removeAllLeaves ops) e)
  exact ⟨h2.1.trans h1.1, fun h => h2.2 (h1.2 h)⟩

theorem refineNormals_keeps (X : Ext F) (e : Engine F) (k : Nat) :
    labels (refineNormals X e k) = labels e ∧
      (OwnerLive e.leaves e.supervoxel_helpers_ →
        OwnerLive (refineNormals X e k).leaves (refineNormals X e k).supervoxel_helpers_) := by
  obtain ⟨h1, h2⟩ := refineNormals_spec X e k
  refine ⟨by unfold labels; rw [h1], fun h => ?_⟩
  rw [h1]
  exact ownerLive_congr _ _ _ h2 h

theorem expandSupervoxels_keeps (ops : FloatOps F) (X : Ext F) (e : Engine F) (depth : Int) :
    (labels (expandSupervoxels ops X e depth)).Sublist (labels e) ∧
      (OwnerLive e.leaves e.supervoxel_helpers_ →
        OwnerLive (expandSupervoxels ops X e depth).leaves
          (expandSupervoxels ops X e depth).supervoxel_helpers_) :=
  ⟨iterate_expandRound_labels ops X _ e, iterate_expandRound_ownerLive ops X _ e⟩

theorem refineRound_keeps (ops : FloatOps F) (X : Ext F) (e : Engine F) :
    (labels (refineRound ops X e)).Sublist (labels e) ∧
      (OwnerLive e.leaves e.supervoxel_helpers_ →
        OwnerLive (refineRound ops X e).leaves (refineRound ops X e).supervoxel_helpers_) := by
  unfold refineRound
  simp only
  have h1 := foldl_keeps (refineNormals X) (fun e k => (refineNormals_keeps X e k).1)
    (fun e k => (refineNormals_keeps X e k).2) (List.range e.supervoxel_helpers_.length) e
  have h2 := reseedSupervoxels_keeps ops X
    ((List.range e.supervoxel_helpers_.length).foldl (refineNormals X) e)
  have h3 := expandSupervoxels_keeps ops X
    (reseedSupervoxels ops X ((List.range e.supervoxel_helpers_.length).foldl (refineNormals X) e))
    (maxDepth ops (reseedSupervoxels ops X
      ((List.range e.supervoxel_helpers_.length).foldl (refineNormals X) e)))
  refine ⟨?_, fun h => h3.2 (h2.2 (h1.2 h))⟩
  have := h3.1
  rw [h2.1, h1.1] at this
  exact this

theorem iterate_refineRound_keeps (ops : FloatOps F) (X : Ext F) (n : Nat) (e : Engine F) :
    (labels ((refineRound ops X)^[n] e)).Sublist (labels e) ∧
      (OwnerLive e.leaves e.supervoxel_helpers_ →
        OwnerLive ((refineRound ops X)^[n] e).leaves
          ((refineRound ops X)^[n] e).supervoxel_helpers_) := by
  induction n generalizing e with
  | zero => exact ⟨List.Sublist.refl _, id⟩
  | succ n ih =>
    rw [Function.iterate_succ_apply]
    exact ⟨(ih _).1.trans (refineRound_keeps ops X e).1,
      fun h => (ih _).2 ((refineRound_keeps ops X e).2 h)⟩

end RefineLemmas

section TopLevel

variable {F : Type}

theorem mapAssign_of_lt {α : Type} (k : Nat) (v : α) (m : List (Nat × α))
    (h : ∀ p ∈ m, p.1 < k) : mapAssign k v m = m ++ [(k, v)] := by
  induction m with
  | nil => rfl
  | cons p t ih =>
    have hp : p.1 < k := h p (List.mem_cons_self _ _)
    unfold mapAssign
    rw [if_neg (by omega), if_neg (by omega), ih (fun q hq => h q (List.mem_cons_of_mem _ hq))]
    rfl

theorem foldl_mapAssign_sorted {α : Type} (g : SupervoxelHelper F → α)
    (hs : List (SupervoxelHelper F)) (acc : List (Nat × α))
    (h : (acc.map (·.1) ++ hs.map (·.label_)).Pairwise (· < ·)) :
    hs.foldl (fun m h => mapAssign h.label_ (g h) m) acc = acc ++ hs.map fun h => (h.label_, g h) := by
  induction hs generalizing acc with
  | nil => simp
  | cons b t ih =>
    rw [List.foldl_cons]
    have h1 : ∀ p ∈ acc, p.1 < b.label_ := by
      intro p hp
      rw [List.pairwise_append] at h
      exact h.2.2 p.1 (List.mem_map.2 ⟨p, hp, rfl⟩) b.label_ (by simp)
    rw [mapAssign_of_lt _ _ _ h1, ih]
    · simp
    · simpa [List.append_assoc] using h

theorem makeSupervoxels_map (X : Ext F) (e : Engine F) (h : (labels e).Pairwise (· < ·)) :
    (makeSupervoxels X e).2 = e.supervoxel_helpers_.map fun h =>
      (h.label_, ({ centroid_ := h.centroid_, voxels_ := getVoxels e.leaves h } : Supervoxel F)) := by
  unfold makeSupervoxels
  simp only
  rw [foldl_mapAssign_sorted]
  · rfl
  · simpa [labels] using h

theorem makeSupervoxels_keys (X : Ext F) (e : Engine F) (h : (labels e).Pairwise (· < ·)) :
    (makeSupervoxels X e).2.map (·.1) = labels e := by
  rw [makeSupervoxels_map X e h, List.map_map]
  rfl

theorem makeSupervoxels_engine (X : Ext F) (e : Engine F) :
    (makeSupervoxels X e).1.supervoxel_helpers_ = e.supervoxel_helpers_ ∧
      (makeSupervoxels X e).1.leaves = e.leaves ∧ (makeSupervoxels X e).1.input_ = e.input_ := by
  unfold makeSupervoxels initializeLabelColors
  simp only
  split_ifs <;> exact ⟨rfl, rfl, rfl⟩

theorem extract_cases (ops : FloatOps F) (X : Ext F) (e : Engine F) (m : SupervoxelMap F) :
    extract ops X e m = (e, m) ∨
      ∃ e1, prepareForSegmentation ops X e = some e1 ∧
        extract ops X e m = makeSupervoxels X (grown ops X e1) := by
  unfold extract
  split_ifs
  · exact Or.inl rfl
  · cases hp : prepareForSegmentation ops X e with
    | none => exact Or.inl rfl
    | some e1 => exact Or.inr ⟨e1, rfl, rfl⟩

theorem grown_keeps (ops : FloatOps F) (X : Ext F) (e1 : Engine F) (h : AllUnowned e1.leaves) :
    (labels (grown ops X e1)).Sublist
        (List.range' 1 (selectInitialSupervoxelSeeds ops X e1).length) ∧
      OwnerLive (grown ops X e1).leaves (grown ops X e1).supervoxel_helpers_ := by
  unfold grown
  have h1 := expandSupervoxels_keeps ops X
    (createSupervoxelHelpers X e1 (selectInitialSupervoxelSeeds ops X e1))
    (maxDepth ops (createSupervoxelHelpers X e1 (selectInitialSupervoxelSeeds ops X e1)))
  rw [createSupervoxelHelpers_labels] at h1
  exact ⟨h1.1, h1.2 (createSupervoxelHelpers_ownerLive X e1 _ h)⟩

theorem sublist_range_sorted (l : List Nat) (N : Nat) (h : l.Sublist (List.range' 1 N)) :
    l.Pairwise (· < ·) :=
  (List.pairwise_lt_range' 1 N).sublist h

theorem extract_keeps (ops : FloatOps F) (X : Ext F) (e : Engine F) (m : SupervoxelMap F)
    (he : Fresh e) :
    (∃ N, (labels (extract ops X e m).1).Sublist (List.range' 1 N)) ∧
      OwnerLive (extract ops X e m).1.leaves (extract ops X e m).1.supervoxel_helpers_ := by
  rcases extract_cases ops X e m with h | ⟨e1, hp, h⟩
  · rw [h]
    refine ⟨⟨0, ?_⟩, ?_⟩
    · simp [labels, he.1]
    · simp only [he.1, he.2]
      intro i l hil
      simp at hil
  · rw [h]
    obtain ⟨g1, g2⟩ := grown_keeps ops X e1 (prepareForSegmentation_allUnowned ops X e e1 hp)
    obtain ⟨m1, m2, _⟩ := makeSupervoxels_engine X (grown ops X e1)
    refine ⟨⟨(selectInitialSupervoxelSeeds ops X e1).length, ?_⟩, ?_⟩
    · unfold labels; rw [m1]; exact g1
    · rw [m1, m2]; exact g2

theorem refineSupervoxels_cases (ops : FloatOps F) (X : Ext F) (e : Engine F) (M : Int)
    (m : SupervoxelMap F) :
    (e.supervoxel_helpers_ = [] ∧ refineSupervoxels ops X e M m = (e, m)) ∨
      (e.supervoxel_helpers_ ≠ [] ∧
        refineSupervoxels ops X e M m = makeSupervoxels X ((refineRound ops X)^[M.toNat] e)) := by
  unfold refineSupervoxels
  split_ifs with h
  · exact Or.inl ⟨List.length_eq_zero.1 h, rfl⟩
  · exact Or.inr ⟨fun hh => h (by rw [hh]; rfl), rfl⟩

theorem refineSupervoxels_keeps (ops : FloatOps F) (X : Ext F) (e : Engine F) (M : Int)
    (m : SupervoxelMap F) :
    (labels (refineSupervoxels ops X e M m).1).Sublist (labels e) ∧
      (OwnerLive e.leaves e.supervoxel_helpers_ →
        OwnerLive (refineSupervoxels ops X e M m).1.leaves
          (refineSupervoxels ops X e M m).1.supervoxel_helpers_) := by
  rcases refineSupervoxels_cases ops X e M m with ⟨_, h⟩ | ⟨_, h⟩
  · rw [h]; exact ⟨List.Sublist.refl _, id⟩
  · rw [h]
    obtain ⟨m1, m2, _⟩ := makeSupervoxels_engine X ((refineRound ops X)^[M.toNat] e)
    obtain ⟨r1, r2⟩ := iterate_refineRound_keeps ops X M.toNat e
    refine ⟨?_, fun hh => ?_⟩
    · unfold labels at r1 ⊢; rw [m1]; exact r1
    · rw [m1, m2]; exact r2 hh

theorem mem_collectLabel (L : List (Leaf F)) (lab : Nat) (acc : List Nat) (n x : Nat) :
    x ∈ collectLabel L lab acc n ↔
      x ∈ acc ∨ ∃ nv, L[n]? = some nv ∧ nv.owner_ = some x ∧ x ≠ lab := by
  unfold collectLabel
  cases hn : L[n]? with
  | none => simp
  | some nv =>
    cases ho : nv.owner_ with
    | none => simp [ho]
    | some o =>
      simp only [ho]
      split_ifs with h1
      · rw [mem_setInsert]
        constructor
        · rintro (h | h)
          · subst h; exact Or.inr ⟨nv, rfl, ho, h1⟩
          · exact Or.inl h
        · rintro (h | ⟨nv1, h2, h3, _⟩)
          · exact Or.inr h
          · cases h2; rw [ho] at h3; cases h3; exact Or.inl rfl
      · constructor
        · exact Or.inl
        · rintro (h | ⟨nv1, h2, h3, h4⟩)
          · exact h
          · cases h2; rw [ho] at h3; cases h3; exact absurd (not_not.1 h1) h4

theorem mem_foldl_collectLabel (L : List (Leaf F)) (lab : Nat) (ns : List Nat) (acc : List Nat)
    (x : Nat) :
    x ∈ ns.foldl (collectLabel L lab) acc ↔
      x ∈ acc ∨ ∃ n ∈ ns, ∃ nv, L[n]? = some nv ∧ nv.owner_ = some x ∧ x ≠ lab := by
  induction ns generalizing acc with
  | nil => simp
  | cons b t ih =>
    rw [List.foldl_cons, ih, mem_collectLabel]
    simp only [List.mem_cons, exists_eq_or_imp, or_assoc]

theorem mem_getNeighborLabels (L : List (Leaf F)) (h : SupervoxelHelper F) (x : Nat) :
    x ∈ getNeighborLabels L h ↔
      ∃ leaf ∈ h.leaves_, ∃ n ∈ neighborsOf L leaf, ∃ nv,
        L[n]? = some nv ∧ nv.owner_ = some x ∧ x ≠ h.label_ := by
  unfold getNeighborLabels
  have key : ∀ (ls : List Nat) (acc : List Nat),
      x ∈ ls.foldl (fun acc leaf => (neighborsOf L leaf).foldl (collectLabel L h.label_) acc) acc ↔
        x ∈ acc ∨ ∃ leaf ∈ ls, ∃ n ∈ neighborsOf L leaf, ∃ nv,
          L[n]? = some nv ∧ nv.owner_ = some x ∧ x ≠ h.label_ := by
    intro ls
    induction ls with
    | nil => simp
    | cons b t ih =>
      intro acc
      rw [List.foldl_cons, ih, mem_foldl_collectLabel]
      simp only [List.mem_cons, exists_eq_or_imp, or_assoc]
  rw [key]
  simp

theorem mem_getSupervoxelAdjacency (e : Engine F) (a b : Nat) :
    (a, b) ∈ getSupervoxelAdjacency e ↔
      ∃ h ∈ e.supervoxel_helpers_, h.label_ = a ∧ b ∈ getNeighborLabels e.leaves h := by
  unfold getSupervoxelAdjacency
  have inner : ∀ (lab : Nat) (nls : List Nat) (acc : List (Nat × Nat)),
      (a, b) ∈ nls.foldl (fun acc nl => multimapInsert (lab, nl) acc) acc ↔
        (a, b) ∈ acc ∨ (lab = a ∧ b ∈ nls) := by
    intro lab nls
    induction nls with
    | nil => simp
    | cons c t ih =>
      intro acc
      rw [List.foldl_cons, ih, mem_multimapInsert]
      simp only [List.mem_cons, Prod.mk.injEq]
      constructor
      · rintro ((⟨h1, h2⟩ | h) | ⟨h1, h2⟩)
        · exact Or.inr ⟨h1.symm, Or.inl h2⟩
        · exact Or.inl h
        · exact Or.inr ⟨h1, Or.inr h2⟩
      · rintro (h | ⟨h1, h2 | h2⟩)
        · exact Or.inl (Or.inr h)
        · exact Or.inl (Or.inl ⟨h1.symm, h2⟩)
        · exact Or.inr ⟨h1, h2⟩
  have key : ∀ (hs : List (SupervoxelHelper F)) (acc : List (Nat × Nat)),
      (a, b) ∈ hs.foldl (fun label_adjacency h =>
          (getNeighborLabels e.leaves h).foldl
            (fun acc nl => multimapInsert (h.label_, nl) acc) label_adjacency) acc ↔
        (a, b) ∈ acc ∨ ∃ h ∈ hs, h.label_ = a ∧ b ∈ getNeighborLabels e.leaves h := by
    intro hs
    induction hs with
    | nil => simp
    | cons c t ih =>
      intro acc
      rw [List.foldl_cons, ih, inner]
      simp only [List.mem_cons, exists_eq_or_imp, or_assoc]
  rw [key]
  simp

end TopLevel

section Claims

variable {F : Type}

attribute [local semireducible] Rat.add Rat.mul Rat.sub Rat.inv

theorem mapFind_isSome {α : Type} (k : Nat) (m : List (Nat × α)) (h : k ∈ m.map (·.1)) :
    (mapFind k m).isSome = true := by
  induction m with
  | nil => simp at h
  | cons p t ih =>
    unfold mapFind
    split_ifs with h1
    · rfl
    · apply ih
      rcases List.mem_cons.1 h with h2 | h2
      · exact absurd h2.symm h1
      · exact h2

theorem ownerOf_eq_some (L : List (Leaf F)) (i a : Nat) :
    ownerOf L i = some a ↔ ∃ l, L[i]? = some l ∧ l.owner_ = some a := by
  unfold ownerOf
  cases L[i]? with
  | none => simp
  | some l => simp

theorem symmetricLinks_spec (L : List (Leaf F)) (h : symmetricLinks L = true) (i j : Nat)
    (hj : j ∈ neighborsOf L i) : i ∈ neighborsOf L j := by
  unfold symmetricLinks at h
  rw [List.all_eq_true] at h
  have hi : i < L.length := by
    by_contra hlt
    unfold neighborsOf at hj
    rw [List.getElem?_eq_none (by omega)] at hj
    cases hj
  have h2 := h i (List.mem_range.2 hi)
  rw [List.all_eq_true] at h2
  exact of_decide_eq_true (h2 j hj)

theorem adjacency_of_neighbors (e : Engine F) (he : OwnerLive e.leaves e.supervoxel_helpers_)
    (x y a b : Nat) (hy : y ∈ neighborsOf e.leaves x) (hx : ownerOf e.leaves x = some a)
    (hb : ownerOf e.leaves y = some b) (hab : a ≠ b) : (a, b) ∈ getSupervoxelAdjacency e := by
  obtain ⟨lx, hlx, hox⟩ := (ownerOf_eq_some _ _ _).1 hx
  obtain ⟨ly, hly, hoy⟩ := (ownerOf_eq_some _ _ _).1 hb
  obtain ⟨h, hh, hla, hmem⟩ := he x lx hlx a hox
  rw [mem_getSupervoxelAdjacency]
  refine ⟨h, hh, hla, ?_⟩
  rw [mem_getNeighborLabels]
  exact ⟨x, hmem, y, hy, ly, hly, hoy, by rw [hla]; exact Ne.symm hab⟩

/-- C1 (code at the failing input): on three voxels in a row, with seed pruning switched off,
the curvature shift moves two seeds onto the middle voxel; `extract` then leaves the middle
leaf in the leaf sets of the helpers 1 and 2 while its owner is helper 2, and the returned map
lists that voxel under both labels. -/
theorem extract_shares_leaf_between_helpers :
    selectInitialSupervoxelSeeds ratOps refExt
        ((prepareForSegmentation ratOps refExt chainEngine).getD chainEngine) = [1, 1, 2] ∧
      (extract ratOps refExt chainEngine []).1.supervoxel_helpers_.map
          (fun h => (h.label_, h.leaves_)) = [(1, [1]), (2, [1]), (3, [2])] ∧
      ownerOf (extract ratOps refExt chainEngine []).1.leaves 1 = some 2 ∧
      (extract ratOps refExt chainEngine []).2.map (fun p => (p.1, p.2.voxels_)) =
        [(1, [axisPoint (3 / 2) 0]), (2, [axisPoint (3 / 2) 0]), (3, [axisPoint (5 / 2) 0])] := by
  decide

/-- C2 (code at the failing input): on the same input the neighbour links are symmetric, the
multimap filled by `getSupervoxelAdjacency` holds the pair (1, 3) and does not hold (3, 1). -/
theorem adjacency_not_symmetric_on_shared_leaf :
    symmetricLinks (extract ratOps refExt chainEngine []).1.leaves = true ∧
      (1, 3) ∈ getSupervoxelAdjacency (extract ratOps refExt chainEngine []).1 ∧
      (3, 1) ∉ getSupervoxelAdjacency (extract ratOps refExt chainEngine []).1 := by
  decide

/-- C3: after `extract` on an engine that had not extracted before, when the neighbour links
of the leaves are symmetric, any two neighbouring leaves whose owners carry different labels
`a` and `b` put both `(a, b)` and `(b, a)` into the multimap of `getSupervoxelAdjacency`. -/
theorem adjacency_complete (ops : FloatOps F) (X : Ext F) (e : Engine F) (m : SupervoxelMap F)
    (he : Fresh e) (hs : symmetricLinks (extract ops X e m).1.leaves = true)
    (x y a b : Nat) (hy : y ∈ neighborsOf (extract ops X e m).1.leaves x)
    (hx : ownerOf (extract ops X e m).1.leaves x = some a)
    (hb : ownerOf (extract ops X e m).1.leaves y = some b) (hab : a ≠ b) :
    (a, b) ∈ getSupervoxelAdjacency (extract ops X e m).1 ∧
      (b, a) ∈ getSupervoxelAdjacency (extract ops X e m).1 := by
  have hl := (extract_keeps ops X e m he).2
  exact ⟨adjacency_of_neighbors _ hl x y a b hy hx hb hab,
    adjacency_of_neighbors _ hl y x b a (symmetricLinks_spec _ hs x y hy) hb hx (Ne.symm hab)⟩

theorem adjacency_complete_witness :
    Fresh chainEngine ∧
      symmetricLinks (extract ratOps refExt chainEngine []).1.leaves = true ∧
      ((2, 3) ∈ getSupervoxelAdjacency (extract ratOps refExt chainEngine []).1 ∧
        (3, 2) ∈ getSupervoxelAdjacency (extract ratOps refExt chainEngine []).1) :=
  ⟨⟨rfl, rfl⟩, by decide,
    adjacency_complete ratOps refExt chainEngine [] ⟨rfl, rfl⟩ (by decide) 1 2 2 3
      (by decide) (by decide) (by decide) (by decide)⟩

end Claims

section Claims2

variable {F : Type}

attribute [local semireducible] Rat.add Rat.mul Rat.sub Rat.inv

theorem evolve_keeps (ops : FloatOps F) (X : Ext F) (script : List Bool) (e : Engine F) :
    (labels (evolve ops X script e)).Sublist (labels e) ∧
      (OwnerLive e.leaves e.supervoxel_helpers_ →
        OwnerLive (evolve ops X script e).leaves (evolve ops X script e).supervoxel_helpers_) := by
  induction script generalizing e with
  | nil => exact ⟨List.Sublist.refl _, id⟩
  | cons b t ih =>
    cases b with
    | true =>
      exact ⟨(ih _).1.trans (expandRound_labels ops X e),
        fun h => (ih _).2 (expandRound_ownerLive ops X e h)⟩
    | false =>
      exact ⟨(ih _).1.trans (refineRound_keeps ops X e).1,
        fun h => (ih _).2 ((refineRound_keeps ops X e).2 h)⟩

/-- C4: `createSupervoxelHelpers` on `N` seed indices leaves `N` helpers labelled `1, ..., N` in
seed order; after any sequence of growth rounds and refinement passes the labels of the helpers
still in the list are a sublist of `1, ..., N`, hence strictly increasing in list order, pairwise
distinct and positive, and the keys of the map built by `makeSupervoxels` are exactly these
labels, so they lie in `1..N` and 0 is not a key. -/
theorem helper_labels (ops : FloatOps F) (X : Ext F) (e : Engine F) (seeds : List Nat)
    (script : List Bool) :
    labels (createSupervoxelHelpers X e seeds) = List.range' 1 seeds.length ∧
      (createSupervoxelHelpers X e seeds).supervoxel_helpers_.length = seeds.length ∧
      (labels (evolve ops X script (createSupervoxelHelpers X e seeds))).Sublist
        (List.range' 1 seeds.length) ∧
      (labels (evolve ops X script (createSupervoxelHelpers X e seeds))).Pairwise (· < ·) ∧
      (labels (evolve ops X script (createSupervoxelHelpers X e seeds))).Nodup ∧
      (makeSupervoxels X (evolve ops X script (createSupervoxelHelpers X e seeds))).2.map (·.1) =
        labels (evolve ops X script (createSupervoxelHelpers X e seeds)) ∧
      (∀ k ∈ (makeSupervoxels X (evolve ops X script (createSupervoxelHelpers X e seeds))).2.map
          (·.1), 1 ≤ k ∧ k ≤ seeds.length) ∧
      0 ∉ (makeSupervoxels X (evolve ops X script (createSupervoxelHelpers X e seeds))).2.map
        (·.1) := by
  have h0 := createSupervoxelHelpers_labels X e seeds
  have h1 : (labels (evolve ops X script (createSupervoxelHelpers X e seeds))).Sublist
      (List.range' 1 seeds.length) := by
    have := (evolve_keeps ops X script (createSupervoxelHelpers X e seeds)).1
    rwa [h0] at this
  have h2 := sublist_range_sorted _ _ h1
  have h3 := makeSupervoxels_keys X _ h2
  have h4 : ∀ k ∈ labels (evolve ops X script (createSupervoxelHelpers X e seeds)),
      1 ≤ k ∧ k ≤ seeds.length := by
    intro k hk
    have := List.mem_range'_1.1 (h1.subset hk)
    omega
  refine ⟨h0, ?_, h1, h2, h2.imp (fun h => Nat.ne_of_lt h), h3, ?_, ?_⟩
  · have := congrArg List.length h0
    simpa [labels] using this
  · rw [h3]; exact h4
  · rw [h3]
    intro h
    have := h4 0 h
    omega

/-- C5 (the claim fails): on a new engine that was only given a zero-point cloud, `extract`
called with a map that holds an entry returns with that entry still in the map. -/
theorem extract_without_input_keeps_map :
    (extract ratOps refExt (setInputCloud (SupervoxelClustering ratOps 1 2 true true) [])
      [(7, { centroid_ := axisPoint 0 0, voxels_ := [] })]).2 ≠ [] := by
  decide

/-- C5 (amended): when no input cloud has been set, also after `setInputCloud` was given a
zero-point cloud, or when the input cloud has no point, `extract` returns normally and leaves
the engine and the map argument exactly as they were; the map is empty afterwards when it was
empty before. -/
theorem extract_without_input (ops : FloatOps F) (X : Ext F) (e : Engine F)
    (m : SupervoxelMap F) (h : e.input_ = none ∨ e.input_ = some []) :
    extract ops X e m = (e, m) ∧ extract ops X (setInputCloud e []) m = (e, m) ∧
      (extract ops X (setInputCloud e []) []).2 = [] := by
  have h1 : setInputCloud e [] = e := by simp [setInputCloud]
  have h2 : ∀ m1 : SupervoxelMap F, extract ops X e m1 = (e, m1) := by
    intro m1
    unfold extract initCompute prepareForSegmentation
    rcases h with h | h <;> simp [h]
  rw [h1]
  exact ⟨h2 m, h2 m, by rw [h2]⟩

theorem extract_without_input_witness :
    ((SupervoxelClustering ratOps 1 2 true true).input_ = none ∨
        (SupervoxelClustering ratOps 1 2 true true).input_ = some []) ∧
      (extract ratOps refExt (SupervoxelClustering ratOps 1 2 true true) [] =
          (SupervoxelClustering ratOps 1 2 true true, []) ∧
        extract ratOps refExt (setInputCloud (SupervoxelClustering ratOps 1 2 true true) []) [] =
          (SupervoxelClustering ratOps 1 2 true true, []) ∧
        (extract ratOps refExt (setInputCloud (SupervoxelClustering ratOps 1 2 true true) [])
          []).2 = []) :=
  ⟨Or.inl rfl, extract_without_input ratOps refExt _ [] (Or.inl rfl)⟩

theorem collectSome_spec {α : Type} (l : List (Option α)) (h : ∀ o ∈ l, o ≠ none) :
    ∃ out, collectSome l = some out ∧ out.map some = l := by
  induction l with
  | nil => exact ⟨[], rfl, rfl⟩
  | cons o t ih =>
    obtain ⟨out, h1, h2⟩ := ih (fun o ho => h o (List.mem_cons_of_mem _ ho))
    cases o with
    | none => exact absurd rfl (h none (List.mem_cons_self _ _))
    | some a =>
      refine ⟨a :: out, ?_, ?_⟩
      · simp [collectSome, h1]
      · simp [h2]

theorem labelPoint_spec (ops : FloatOps F) (X : Ext F) (e : Engine F)
    (he : OwnerLive e.leaves e.supervoxel_helpers_) (cloud : List (Voxel F)) (p : Voxel F)
    (hp : pointFinite ops p = true →
      ∃ i, X.getLeafContainerAtPoint e.use_single_camera_transform_ e.octree_resolution_
        cloud p = some i ∧ i < e.leaves.length) :
    ∃ q, labelPoint ops X e cloud p = some q ∧ LabelledAs ops X e cloud p q := by
  unfold labelPoint LabelledAs
  cases hf : pointFinite ops p with
  | false =>
    exact ⟨{ x := p.x, y := p.y, z := p.z, label := 0 }, by simp, rfl, rfl, rfl,
      Or.inl ⟨rfl, rfl⟩⟩
  | true =>
    obtain ⟨i, hi, hlt⟩ := hp hf
    obtain ⟨leaf, hleaf⟩ : ∃ leaf, e.leaves[i]? = some leaf :=
      ⟨e.leaves[i], List.getElem?_eq_getElem hlt⟩
    cases ho : leaf.owner_ with
    | none =>
      refine ⟨{ x := p.x, y := p.y, z := p.z, label := 0 }, by simp [hi, hleaf, ho], rfl, rfl,
        rfl, Or.inr ⟨rfl, i, hi, Or.inl ⟨?_, rfl⟩⟩⟩
      simp [ownerOf, hleaf, ho]
    | some a =>
      obtain ⟨h, hh, hla, hmem⟩ := he i leaf hleaf a ho
      refine ⟨{ x := p.x, y := p.y, z := p.z, label := a }, by simp [hi, hleaf, ho], rfl, rfl,
        rfl, Or.inr ⟨rfl, i, hi, Or.inr ⟨h, hh, ?_, hmem, hla.symm⟩⟩⟩
      simp [ownerOf, hleaf, ho, hla]

/-- Where the octree finds a leaf for every finite input point, as it does without the camera
transform, `getLabeledCloud` after `extract` on an engine that had not extracted before returns
a cloud with one point per input point, in input order and at the same position; point `k` has
label 0 when input point `k` is not finite or its leaf has no owner, and otherwise the label of
the helper in the list that owns the leaf and holds it in its leaf set. -/
theorem labeled_cloud (ops : FloatOps F) (X : Ext F) (e : Engine F) (m : SupervoxelMap F)
    (he : Fresh e) (cloud : List (Voxel F)) (hin : (extract ops X e m).1.input_ = some cloud)
    (hleaf : ∀ p ∈ cloud, pointFinite ops p = true →
      ∃ i, X.getLeafContainerAtPoint (extract ops X e m).1.use_single_camera_transform_
        (extract ops X e m).1.octree_resolution_ cloud p = some i ∧
        i < (extract ops X e m).1.leaves.length) :
    ∃ out, getLabeledCloud ops X (extract ops X e m).1 = some out ∧
      out.length = cloud.length ∧
      ∀ (k : Nat) (p : Voxel F), cloud[k]? = some p →
        ∃ q, out[k]? = some q ∧ LabelledAs ops X (extract ops X e m).1 cloud p q := by
  have hl := (extract_keeps ops X e m he).2
  unfold getLabeledCloud
  rw [hin]
  simp only
  obtain ⟨out, h1, h2⟩ := collectSome_spec
    (cloud.map (labelPoint ops X (extract ops X e m).1 cloud)) (by
      intro o ho
      obtain ⟨p, hp, rfl⟩ := List.mem_map.1 ho
      obtain ⟨q, hq, _⟩ := labelPoint_spec ops X _ hl cloud p (hleaf p hp)
      rw [hq]; simp)
  refine ⟨out, h1, ?_, ?_⟩
  · have := congrArg List.length h2
    simpa using this
  · intro k p hk
    obtain ⟨q, hq, hspec⟩ := labelPoint_spec ops X _ hl cloud p
      (hleaf p (List.mem_iff_getElem?.2 ⟨k, hk⟩))
    refine ⟨q, ?_, hspec⟩
    have := congrArg (fun l => l[k]?) h2
    simp only [List.getElem?_map, hk, Option.map_some', hq] at this
    cases ho : out[k]? with
    | none => rw [ho] at this; simp at this
    | some q1 => rw [ho] at this; simpa using this

theorem labeled_cloud_witness :
    Fresh chainEngine ∧
      ∃ out, getLabeledCloud ratOps refExt (extract ratOps refExt chainEngine []).1 = some out ∧
        out.length = chainCloud.length ∧
        ∀ (k : Nat) (p : Voxel ℚ), chainCloud[k]? = some p →
          ∃ q, out[k]? = some q ∧
            LabelledAs ratOps refExt (extract ratOps refExt chainEngine []).1 chainCloud p q :=
  ⟨⟨rfl, rfl⟩, labeled_cloud ratOps refExt chainEngine [] ⟨rfl, rfl⟩ chainCloud (by decide) (by
    intro p hp _
    simp only [chainCloud, List.mem_cons, List.mem_singleton, List.not_mem_nil, or_false] at hp
    rcases hp with rfl | rfl | rfl
    · exact ⟨0, by decide, by decide⟩
    · exact ⟨1, by decide, by decide⟩
    · exact ⟨2, by decide, by decide⟩)⟩

theorem extract_map_keys (ops : FloatOps F) (X : Ext F) (e : Engine F) (m : SupervoxelMap F)
    (he : Fresh e) (hne : (extract ops X e m).1.supervoxel_helpers_ ≠ []) :
    (extract ops X e m).2.map (·.1) = labels (extract ops X e m).1 := by
  rcases extract_cases ops X e m with h | ⟨e1, hp, h⟩
  · rw [h] at hne
    exact absurd he.1 hne
  · rw [h]
    obtain ⟨g1, _⟩ := grown_keeps ops X e1 (prepareForSegmentation_allUnowned ops X e e1 hp)
    rw [makeSupervoxels_keys X _ (sublist_range_sorted _ _ g1)]
    unfold labels
    rw [(makeSupervoxels_engine X (grown ops X e1)).1]

theorem refine_map_length (ops : FloatOps F) (X : Ext F) (e : Engine F) (M : Int)
    (m : SupervoxelMap F) (hs : (labels e).Pairwise (· < ·)) (hne : e.supervoxel_helpers_ ≠ []) :
    (refineSupervoxels ops X e M m).2.length ≤ (labels e).length := by
  rcases refineSupervoxels_cases ops X e M m with ⟨h0, _⟩ | ⟨_, h⟩
  · exact absurd h0 hne
  · rw [h]
    have r1 := (iterate_refineRound_keeps ops X M.toNat e).1
    have := congrArg List.length (makeSupervoxels_keys X _ (hs.sublist r1))
    rw [List.length_map] at this
    rw [this]
    exact r1.length_le

/-- C7: after `extract` on an engine that had not extracted before, `refineSupervoxels` with
any iteration count never creates a helper (the labels afterwards are a sublist of the labels
before), and the map it leaves in its argument has at most as many labels as the map left by
`extract`: for every map argument when `extract` produced a helper, and in every case when the
argument is a new empty map or the map that `extract` filled. -/
theorem refinement_never_adds_labels (ops : FloatOps F) (X : Ext F) (e : Engine F)
    (m : SupervoxelMap F) (M : Int) (he : Fresh e) :
    (labels (refineSupervoxels ops X (extract ops X e m).1 M (extract ops X e m).2).1).Sublist
        (labels (extract ops X e m).1) ∧
      (refineSupervoxels ops X (extract ops X e m).1 M (extract ops X e m).2).2.length ≤
        (extract ops X e m).2.length ∧
      (refineSupervoxels ops X (extract ops X e m).1 M []).2.length ≤
        (extract ops X e m).2.length ∧
      ((extract ops X e m).1.supervoxel_helpers_ ≠ [] →
        ∀ m1, (refineSupervoxels ops X (extract ops X e m).1 M m1).2.length ≤
          (extract ops X e m).2.length) := by
  have hsub := (refineSupervoxels_keeps ops X (extract ops X e m).1 M (extract ops X e m).2).1
  obtain ⟨⟨N, hN⟩, _⟩ := extract_keeps ops X e m he
  have hsorted := sublist_range_sorted _ _ hN
  have hgen : (extract ops X e m).1.supervoxel_helpers_ ≠ [] →
      ∀ m1, (refineSupervoxels ops X (extract ops X e m).1 M m1).2.length ≤
        (extract ops X e m).2.length := by
    intro hne m1
    have h1 := refine_map_length ops X (extract ops X e m).1 M m1 hsorted hne
    have h2 := congrArg List.length (extract_map_keys ops X e m he hne)
    rw [List.length_map] at h2
    omega
  refine ⟨hsub, ?_, ?_, hgen⟩
  · by_cases hne : (extract ops X e m).1.supervoxel_helpers_ = []
    · rcases refineSupervoxels_cases ops X (extract ops X e m).1 M (extract ops X e m).2 with
        ⟨_, h⟩ | ⟨h0, _⟩
      · rw [h]
      · exact absurd hne h0
    · exact hgen hne _
  · by_cases hne : (extract ops X e m).1.supervoxel_helpers_ = []
    · rcases refineSupervoxels_cases ops X (extract ops X e m).1 M [] with ⟨_, h⟩ | ⟨h0, _⟩
      · rw [h]; exact Nat.zero_le _
      · exact absurd hne h0
    · exact hgen hne _

theorem refinement_never_adds_labels_witness :
    Fresh chainEngine ∧
      (refineSupervoxels ratOps refExt (extract ratOps refExt chainEngine []).1 3 []).2.length ≤
        (extract ratOps refExt chainEngine []).2.length :=
  ⟨⟨rfl, rfl⟩, (refinement_never_adds_labels ratOps refExt chainEngine [] 3 ⟨rfl, rfl⟩).2.2.1⟩

/-- C8: after `extract` on an engine that had not extracted before, both labels of every pair
of the multimap filled by `getSupervoxelAdjacency` are keys of the map left by that `extract`,
so the lookups `supervoxel_clusters.at (label)` of the example find an entry. -/
theorem adjacency_labels_resolve (ops : FloatOps F) (X : Ext F) (e : Engine F)
    (m : SupervoxelMap F) (he : Fresh e) (a b : Nat)
    (hab : (a, b) ∈ getSupervoxelAdjacency (extract ops X e m).1) :
    (a ∈ (extract ops X e m).2.map (·.1) ∧ b ∈ (extract ops X e m).2.map (·.1)) ∧
      (mapFind a (extract ops X e m).2).isSome = true ∧
      (mapFind b (extract ops X e m).2).isSome = true := by
  obtain ⟨h, hh, hla, hb⟩ := (mem_getSupervoxelAdjacency _ a b).1 hab
  have hne : (extract ops X e m).1.supervoxel_helpers_ ≠ [] := List.ne_nil_of_mem hh
  have hkeys := extract_map_keys ops X e m he hne
  obtain ⟨leaf, _, n, _, nv, hnv, hov, _⟩ := (mem_getNeighborLabels _ h b).1 hb
  obtain ⟨h2, hh2, hl2, _⟩ := (extract_keeps ops X e m he).2 n nv hnv b hov
  have ha : a ∈ (extract ops X e m).2.map (·.1) := by
    rw [hkeys]; exact List.mem_map.2 ⟨h, hh, hla⟩
  have hb2 : b ∈ (extract ops X e m).2.map (·.1) := by
    rw [hkeys]; exact List.mem_map.2 ⟨h2, hh2, hl2⟩
  exact ⟨⟨ha, hb2⟩, mapFind_isSome a _ ha, mapFind_isSome b _ hb2⟩

theorem adjacency_labels_resolve_witness :
    Fresh chainEngine ∧ (1, 3) ∈ getSupervoxelAdjacency (extract ratOps refExt chainEngine []).1 ∧
      (mapFind 1 (extract ratOps refExt chainEngine []).2).isSome = true ∧
      (mapFind 3 (extract ratOps refExt chainEngine []).2).isSome = true :=
  ⟨⟨rfl, rfl⟩, by decide,
    (adjacency_labels_resolve ratOps refExt chainEngine [] ⟨rfl, rfl⟩ 1 3 (by decide)).2⟩

end Claims2

section Graph

variable {F : Type}

theorem mapInsertNew_of_lt {α : Type} (k : Nat) (v : α) (m : List (Nat × α))
    (h : ∀ p ∈ m, p.1 < k) : mapInsertNew k v m = m ++ [(k, v)] := by
  induction m with
  | nil => rfl
  | cons p t ih =>
    have hp : p.1 < k := h p (List.mem_cons_self _ _)
    unfold mapInsertNew
    rw [if_neg (by omega), if_neg (by omega), ih (fun q hq => h q (List.mem_cons_of_mem _ hq))]
    rfl

theorem foldl_mapInsertNew_sorted (ps : List (Nat × SupervoxelHelper F)) (acc : List (Nat × Nat))
    (h : (acc.map (·.1) ++ ps.map (·.2.label_)).Pairwise (· < ·)) :
    ps.foldl (fun m p => mapInsertNew p.2.label_ p.1 m) acc =
      acc ++ ps.map fun p => (p.2.label_, p.1) := by
  induction ps generalizing acc with
  | nil => simp
  | cons b t ih =>
    rw [List.foldl_cons]
    have h1 : ∀ p ∈ acc, p.1 < b.2.label_ := by
      intro p hp
      rw [List.pairwise_append] at h
      exact h.2.2 p.1 (List.mem_map.2 ⟨p, hp, rfl⟩) b.2.label_ (by simp)
    rw [mapInsertNew_of_lt _ _ _ h1, ih]
    · simp
    · simpa [List.append_assoc] using h

theorem enum_labels (hs : List (SupervoxelHelper F)) :
    hs.enum.map (·.2.label_) = hs.map (·.label_) := by
  have h1 : hs.enum.map (·.2.label_) = (hs.enum.map Prod.snd).map (·.label_) := by
    rw [List.map_map]; rfl
  rw [h1, List.enum_map_snd]

theorem labelIDMap_eq (e : Engine F) (h : (labels e).Pairwise (· < ·)) :
    labelIDMap e = e.supervoxel_helpers_.enum.map fun p => (p.2.label_, p.1) := by
  unfold labelIDMap
  rw [foldl_mapInsertNew_sorted]
  · rfl
  · simpa [enum_labels] using h

theorem mapFind_iff_mem {α : Type} (k : Nat) (u : α) (m : List (Nat × α))
    (h : (m.map (·.1)).Nodup) : mapFind k m = some u ↔ (k, u) ∈ m := by
  induction m with
  | nil => simp [mapFind]
  | cons p t ih =>
    rw [List.map_cons, List.nodup_cons] at h
    unfold mapFind
    split_ifs with h1
    · constructor
      · intro h2
        simp only [Option.some.injEq] at h2
        rw [← h1, ← h2]
        exact List.mem_cons_self _ _
      · intro h2
        rcases List.mem_cons.1 h2 with h3 | h3
        · rw [← h3]
        · exact absurd (List.mem_map.2 ⟨(k, u), h3, h1.symm⟩) h.1
    · rw [ih h.2]
      constructor
      · exact List.mem_cons_of_mem _
      · intro h2
        rcases List.mem_cons.1 h2 with h3 | h3
        · exact absurd (by rw [← h3]) h1
        · exact h3

theorem mapFind_labelIDMap (e : Engine F) (h : (labels e).Pairwise (· < ·)) (k u : Nat) :
    mapFind k (labelIDMap e) = some u ↔
      ∃ hu, e.supervoxel_helpers_[u]? = some hu ∧ hu.label_ = k := by
  have hkeys : (labelIDMap e).map (·.1) = labels e := by
    rw [labelIDMap_eq e h, List.map_map]
    exact enum_labels _
  rw [mapFind_iff_mem k u _ (by rw [hkeys]; exact h.imp (fun hh => Nat.ne_of_lt hh)),
    labelIDMap_eq e h, List.mem_map]
  constructor
  · rintro ⟨⟨i, hu⟩, hmem, heq⟩
    simp only [Prod.mk.injEq] at heq
    obtain ⟨h1, h2⟩ := heq
    subst h2
    exact ⟨hu, List.mk_mem_enum_iff_getElem?.1 hmem, h1⟩
  · rintro ⟨hu, h1, h2⟩
    exact ⟨(u, hu), List.mk_mem_enum_iff_getElem?.2 h1, by simp [h2]⟩

theorem adjacencyList_eq_foldl (ops : FloatOps F) (e : Engine F) :
    getSupervoxelAdjacencyList ops e =
      (adjacencyPairs e).foldl (fun acc p => addEdgeStep ops e p.1 acc p.2)
        (some { vertices := e.supervoxel_helpers_.map (·.label_), edges := [] }) := by
  unfold getSupervoxelAdjacencyList adjacencyPairs
  generalize (some { vertices := e.supervoxel_helpers_.map (·.label_), edges := [] } :
    Option (VoxelAdjacencyList F)) = init
  generalize e.supervoxel_helpers_ = hs
  induction hs generalizing init with
  | nil => rfl
  | cons h t ih =>
    rw [List.foldl_cons, List.flatMap_cons, List.foldl_append, ih, List.foldl_map]

theorem mem_adjacencyPairs (e : Engine F) (a b : Nat) :
    (a, b) ∈ getSupervoxelAdjacency e ↔ ∃ p ∈ adjacencyPairs e, p.1.label_ = a ∧ p.2 = b := by
  rw [mem_getSupervoxelAdjacency]
  unfold adjacencyPairs
  constructor
  · rintro ⟨h, hh, hla, hb⟩
    exact ⟨(h, b), List.mem_flatMap.2 ⟨h, hh, List.mem_map.2 ⟨b, hb, rfl⟩⟩, hla, rfl⟩
  · rintro ⟨p, hp, hla, hb⟩
    obtain ⟨h, hh, hp2⟩ := List.mem_flatMap.1 hp
    obtain ⟨nl, hnl, rfl⟩ := List.mem_map.1 hp2
    exact ⟨h, hh, hla, by rw [← hb]; exact hnl⟩

theorem hasEdge_iff (gr : VoxelAdjacencyList F) (u v : Nat) :
    hasEdge gr u v = true ↔ ∃ ed ∈ gr.edges, sameEnds ed (u, v, ed.2.2) := by
  unfold hasEdge sameEnds
  rw [List.any_eq_true]
  constructor
  · rintro ⟨ed, hed, h⟩
    refine ⟨ed, hed, ?_⟩
    simpa using h
  · rintro ⟨ed, hed, h⟩
    refine ⟨ed, hed, ?_⟩
    simpa using h

theorem hasEdge_comm (gr : VoxelAdjacencyList F) (u v : Nat) : hasEdge gr u v = hasEdge gr v u := by
  unfold hasEdge
  congr 1
  funext ed
  exact Bool.or_comm _ _

theorem addEdgeStep_inv (ops : FloatOps F) (e : Engine F) (ps : List (SupervoxelHelper F × Nat))
    (gr : VoxelAdjacencyList F) (hg : GraphInv ops e ps gr) (p : SupervoxelHelper F × Nat)
    (u v : Nat) (hu : mapFind p.1.label_ (labelIDMap e) = some u)
    (hv : mapFind p.2 (labelIDMap e) = some v) :
    ∃ gr1, addEdgeStep ops e p.1 (some gr) p.2 = some gr1 ∧ GraphInv ops e (ps ++ [p]) gr1 := by
  obtain ⟨g1, g2, g3, g4⟩ := hg
  unfold addEdgeStep
  rw [hu, hv]
  simp only
  by_cases he : hasEdge gr u v = true
  · rw [if_pos he]
    refine ⟨gr, rfl, g1, ?_, ?_, g4⟩
    · intro ed hed
      obtain ⟨q, hq, hh⟩ := g2 ed hed
      exact ⟨q, List.mem_append_left _ hq, hh⟩
    · intro q hq
      rcases List.mem_append.1 hq with h1 | h1
      · exact g3 q h1
      · rw [List.mem_singleton] at h1
        subst h1
        exact ⟨u, v, hu, hv, he⟩
  · rw [if_neg he]
    refine ⟨_, rfl, g1, ?_, ?_, ?_⟩
    · intro ed hed
      rcases List.mem_append.1 hed with h1 | h1
      · obtain ⟨q, hq, hh⟩ := g2 ed h1
        exact ⟨q, List.mem_append_left _ hq, hh⟩
      · rw [List.mem_singleton] at h1
        subst h1
        exact ⟨p, List.mem_append_right _ (List.mem_singleton.2 rfl), hu, hv, rfl⟩
    · intro q hq
      rcases List.mem_append.1 hq with h1 | h1
      · obtain ⟨u1, v1, h2, h3, h4⟩ := g3 q h1
        refine ⟨u1, v1, h2, h3, ?_⟩
        obtain ⟨ed, hed, hs⟩ := (hasEdge_iff gr u1 v1).1 h4
        exact (hasEdge_iff _ u1 v1).2 ⟨ed, List.mem_append_left _ hed, hs⟩
      · rw [List.mem_singleton] at h1
        subst h1
        refine ⟨u, v, hu, hv, (hasEdge_iff _ u v).2
          ⟨(u, v, edgeLength ops e q.1 q.2), List.mem_append_right _ (List.mem_singleton.2 rfl),
            Or.inl ⟨rfl, rfl⟩⟩⟩
    · rw [List.pairwise_append]
      refine ⟨g4, List.pairwise_singleton _ _, ?_⟩
      intro ed hed ed2 hed2
      rw [List.mem_singleton] at hed2
      subst hed2
      intro hs
      exact he ((hasEdge_iff gr u v).2 ⟨ed, hed, hs⟩)

theorem foldl_addEdgeStep_inv (ops : FloatOps F) (e : Engine F)
    (rest ps : List (SupervoxelHelper F × Nat)) (gr : VoxelAdjacencyList F)
    (hg : GraphInv ops e ps gr)
    (hr : ∀ p ∈ rest, ∃ u v, mapFind p.1.label_ (labelIDMap e) = some u ∧
      mapFind p.2 (labelIDMap e) = some v) :
    ∃ gr1, rest.foldl (fun acc p => addEdgeStep ops e p.1 acc p.2) (some gr) = some gr1 ∧
      GraphInv ops e (ps ++ rest) gr1 := by
  induction rest generalizing ps gr with
  | nil => exact ⟨gr, rfl, by simpa using hg⟩
  | cons p t ih =>
    obtain ⟨u, v, hu, hv⟩ := hr p (List.mem_cons_self _ _)
    obtain ⟨gr1, h1, h2⟩ := addEdgeStep_inv ops e ps gr hg p u v hu hv
    obtain ⟨gr2, h3, h4⟩ := ih (ps ++ [p]) gr1 h2 (fun q hq => hr q (List.mem_cons_of_mem _ hq))
    refine ⟨gr2, ?_, ?_⟩
    · rw [List.foldl_cons, h1]; exact h3
    · simpa [List.append_assoc] using h4

theorem adjacencyPairs_lookup (e : Engine F) (hs : Settled e) (p : SupervoxelHelper F × Nat)
    (hp : p ∈ adjacencyPairs e) :
    p.1 ∈ e.supervoxel_helpers_ ∧ p.2 ≠ p.1.label_ ∧
      ∃ u v hv, e.supervoxel_helpers_[u]? = some p.1 ∧ e.supervoxel_helpers_[v]? = some hv ∧
        hv.label_ = p.2 ∧ mapFind p.1.label_ (labelIDMap e) = some u ∧
        mapFind p.2 (labelIDMap e) = some v := by
  unfold adjacencyPairs at hp
  obtain ⟨h, hh, hp2⟩ := List.mem_flatMap.1 hp
  obtain ⟨nl, hnl, rfl⟩ := List.mem_map.1 hp2
  obtain ⟨leaf, _, n, _, nv, hnv, hov, hne⟩ := (mem_getNeighborLabels _ h nl).1 hnl
  obtain ⟨h2, hh2, hl2, _⟩ := hs.2 n nv hnv nl hov
  obtain ⟨u, hu⟩ := List.mem_iff_getElem?.1 hh
  obtain ⟨v, hv⟩ := List.mem_iff_getElem?.1 hh2
  exact ⟨hh, hne, u, v, h2, hu, hv, hl2, (mapFind_labelIDMap e hs.1 _ u).2 ⟨h, hu, rfl⟩,
    (mapFind_labelIDMap e hs.1 _ v).2 ⟨h2, hv, hl2⟩⟩

theorem adjacencyList_inv (ops : FloatOps F) (e : Engine F) (hs : Settled e) :
    ∃ gr, getSupervoxelAdjacencyList ops e = some gr ∧ GraphInv ops e (adjacencyPairs e) gr := by
  rw [adjacencyList_eq_foldl]
  have h0 : GraphInv ops e []
      { vertices := e.supervoxel_helpers_.map (·.label_), edges := [] } :=
    ⟨rfl, by simp, by simp, List.Pairwise.nil⟩
  have := foldl_addEdgeStep_inv ops e (adjacencyPairs e) [] _ h0 (by
    intro p hp
    obtain ⟨_, _, u, v, _, _, _, _, h1, h2⟩ := adjacencyPairs_lookup e hs p hp
    exact ⟨u, v, h1, h2⟩)
  simpa using this

end Graph

section GraphClaims

variable {F : Type}

attribute [local semireducible] Rat.add Rat.mul Rat.sub Rat.inv

theorem settled_after (ops : FloatOps F) (X : Ext F) (e : Engine F) (m m1 : SupervoxelMap F)
    (M : Int) (he : Fresh e) (e1 : Engine F)
    (h1 : e1 = (extract ops X e m).1 ∨
      e1 = (refineSupervoxels ops X (extract ops X e m).1 M m1).1) : Settled e1 := by
  obtain ⟨⟨N, hN⟩, hl⟩ := extract_keeps ops X e m he
  rcases h1 with rfl | rfl
  · exact ⟨sublist_range_sorted _ _ hN, hl⟩
  · obtain ⟨r1, r2⟩ := refineSupervoxels_keeps ops X (extract ops X e m).1 M m1
    exact ⟨sublist_range_sorted _ _ (r1.trans hN), r2 hl⟩

theorem helper_eq_of_label (e : Engine F) (hs : Settled e) (h1 h2 : SupervoxelHelper F)
    (hh1 : h1 ∈ e.supervoxel_helpers_) (hh2 : h2 ∈ e.supervoxel_helpers_)
    (hl : h1.label_ = h2.label_) : h1 = h2 :=
  List.inj_on_of_nodup_map (hs.1.imp (fun hh => Nat.ne_of_lt hh)) hh1 hh2 hl

theorem vertex_lookup (e : Engine F) (hs : Settled e) (u a : Nat) :
    (labels e)[u]? = some a ↔ mapFind a (labelIDMap e) = some u := by
  rw [mapFind_labelIDMap e hs.1]
  unfold labels
  rw [List.getElem?_map]
  cases e.supervoxel_helpers_[u]? with
  | none => simp
  | some hu => simp

theorem graph_structure_of_settled (ops : FloatOps F) (e : Engine F) (hs : Settled e) :
    ∃ gr, getSupervoxelAdjacencyList ops e = some gr ∧
      gr.vertices = labels e ∧ gr.vertices.Nodup ∧
      (∀ u v, hasEdge gr u v = true ↔
        ∃ a b, gr.vertices[u]? = some a ∧ gr.vertices[v]? = some b ∧
          ((a, b) ∈ getSupervoxelAdjacency e ∨ (b, a) ∈ getSupervoxelAdjacency e)) ∧
      (∀ ed ∈ gr.edges, ed.1 ≠ ed.2.1) ∧
      (gr.edges.Pairwise fun e1 e2 => ¬ sameEnds e1 e2) ∧
      ∀ a b, (a, b) ∈ getSupervoxelAdjacency e → a ∈ gr.vertices ∧ b ∈ gr.vertices := by
  obtain ⟨gr, hgr, g1, g2, g3, g4⟩ := adjacencyList_inv ops e hs
  have hpair : ∀ a b, (a, b) ∈ getSupervoxelAdjacency e →
      ∃ u v, (labels e)[u]? = some a ∧ (labels e)[v]? = some b ∧ hasEdge gr u v = true := by
    intro a b hab
    obtain ⟨p, hp, hla, hb⟩ := (mem_adjacencyPairs e a b).1 hab
    obtain ⟨u, v, hu, hv, hedge⟩ := g3 p hp
    rw [hla] at hu
    rw [hb] at hv
    exact ⟨u, v, (vertex_lookup e hs u a).2 hu, (vertex_lookup e hs v b).2 hv, hedge⟩
  have hinj : ∀ (u v a : Nat), (labels e)[u]? = some a → (labels e)[v]? = some a → u = v := by
    intro u v a hu hv
    have h1 := (vertex_lookup e hs u a).1 hu
    have h2 := (vertex_lookup e hs v a).1 hv
    rw [h1] at h2
    exact Option.some.inj h2
  refine ⟨gr, hgr, g1, ?_, ?_, ?_, g4, ?_⟩
  · rw [g1]; exact hs.1.imp (fun hh => Nat.ne_of_lt hh)
  · intro u v
    rw [g1]
    constructor
    · intro hedge
      obtain ⟨ed, hed, hends⟩ := (hasEdge_iff gr u v).1 hedge
      obtain ⟨p, hp, hu, hv, _⟩ := g2 ed hed
      have hab : (p.1.label_, p.2) ∈ getSupervoxelAdjacency e :=
        (mem_adjacencyPairs e _ _).2 ⟨p, hp, rfl, rfl⟩
      have hu2 := (vertex_lookup e hs _ _).2 hu
      have hv2 := (vertex_lookup e hs _ _).2 hv
      rcases hends with ⟨h1, h2⟩ | ⟨h1, h2⟩
      · simp only at h1 h2
        rw [h1] at hu2
        rw [h2] at hv2
        exact ⟨_, _, hu2, hv2, Or.inl hab⟩
      · simp only at h1 h2
        rw [h1] at hu2
        rw [h2] at hv2
        exact ⟨_, _, hv2, hu2, Or.inr hab⟩
    · rintro ⟨a, b, hu, hv, hab | hab⟩
      · obtain ⟨u1, v1, hu1, hv1, hedge⟩ := hpair a b hab
        rw [hinj u u1 a hu hu1, hinj v v1 b hv hv1]
        exact hedge
      · obtain ⟨u1, v1, hu1, hv1, hedge⟩ := hpair b a hab
        rw [hinj u v1 a hu hv1, hinj v u1 b hv hu1, hasEdge_comm]
        exact hedge
  · intro ed hed heq
    obtain ⟨p, hp, hu, hv, _⟩ := g2 ed hed
    obtain ⟨_, hne, _⟩ := adjacencyPairs_lookup e hs p hp
    have hu2 := (vertex_lookup e hs _ _).2 hu
    have hv2 := (vertex_lookup e hs _ _).2 hv
    rw [heq, hv2] at hu2
    exact hne (Option.some.inj hu2)
  · intro a b hab
    obtain ⟨u, v, hu, hv, _⟩ := hpair a b hab
    rw [g1]
    exact ⟨List.mem_iff_getElem?.2 ⟨u, hu⟩, List.mem_iff_getElem?.2 ⟨v, hv⟩⟩

/-- C9: after `extract` on an engine that had not extracted before, and after a
`refineSupervoxels` that follows it, `getSupervoxelAdjacencyList` finds every label it looks up
and builds a graph with one vertex per helper of the list, carrying the helper labels in list
order (pairwise distinct); two vertices are joined by an edge exactly when their labels `a`, `b`
have `(a, b)` or `(b, a)` in the multimap of `getSupervoxelAdjacency`; no edge is a self-loop,
no two edges join the same vertices, and both labels of every multimap pair have a vertex. -/
theorem adjacency_graph_structure (ops : FloatOps F) (X : Ext F) (e : Engine F)
    (m m1 : SupervoxelMap F) (M : Int) (he : Fresh e) (e1 : Engine F)
    (h1 : e1 = (extract ops X e m).1 ∨
      e1 = (refineSupervoxels ops X (extract ops X e m).1 M m1).1) :
    ∃ gr, getSupervoxelAdjacencyList ops e1 = some gr ∧
      gr.vertices = labels e1 ∧ gr.vertices.Nodup ∧
      (∀ u v, hasEdge gr u v = true ↔
        ∃ a b, gr.vertices[u]? = some a ∧ gr.vertices[v]? = some b ∧
          ((a, b) ∈ getSupervoxelAdjacency e1 ∨ (b, a) ∈ getSupervoxelAdjacency e1)) ∧
      (∀ ed ∈ gr.edges, ed.1 ≠ ed.2.1) ∧
      (gr.edges.Pairwise fun e1 e2 => ¬ sameEnds e1 e2) ∧
      ∀ a b, (a, b) ∈ getSupervoxelAdjacency e1 → a ∈ gr.vertices ∧ b ∈ gr.vertices :=
  graph_structure_of_settled ops e1 (settled_after ops X e m m1 M he e1 h1)

theorem adjacency_graph_structure_witness :
    Fresh chainEngine ∧
      ∃ gr, getSupervoxelAdjacencyList ratOps (extract ratOps refExt chainEngine []).1 = some gr ∧
        gr.vertices = labels (extract ratOps refExt chainEngine []).1 ∧ gr.vertices.Nodup ∧
        (∀ u v, hasEdge gr u v = true ↔
          ∃ a b, gr.vertices[u]? = some a ∧ gr.vertices[v]? = some b ∧
            ((a, b) ∈ getSupervoxelAdjacency (extract ratOps refExt chainEngine []).1 ∨
              (b, a) ∈ getSupervoxelAdjacency (extract ratOps refExt chainEngine []).1)) ∧
        (∀ ed ∈ gr.edges, ed.1 ≠ ed.2.1) ∧
        (gr.edges.Pairwise fun e1 e2 => ¬ sameEnds e1 e2) ∧
        ∀ a b, (a, b) ∈ getSupervoxelAdjacency (extract ratOps refExt chainEngine []).1 →
          a ∈ gr.vertices ∧ b ∈ gr.vertices :=
  ⟨⟨rfl, rfl⟩,
    adjacency_graph_structure ratOps refExt chainEngine [] [] 0 ⟨rfl, rfl⟩ _ (Or.inl rfl)⟩

theorem voxelDistance_comm (ops : FloatOps F) (e : Engine F) (hsym : SymmetricArith ops)
    (v1 v2 : Voxel F) : voxelDistance ops e v1 v2 = voxelDistance ops e v2 v1 := by
  obtain ⟨hmul, hsq⟩ := hsym
  have hint : ∀ a b : Int, (a - b) * (a - b) = (b - a) * (b - a) := by
    intro a b; ring
  unfold voxelDistance
  simp only
  rw [hsq v1.x v2.x, hsq v1.y v2.y, hsq v1.z v2.z, hmul v1.normal_x v2.normal_x,
    hmul v1.normal_y v2.normal_y, hmul v1.normal_z v2.normal_z, hmul v1.normal_w v2.normal_w,
    hint v1.r v2.r, hint v1.g v2.g, hint v1.b v2.b]

theorem find_helper (hs : List (SupervoxelHelper F)) (hn : (hs.map (·.label_)).Nodup)
    (hv : SupervoxelHelper F) (hmem : hv ∈ hs) :
    hs.find? (fun h2 => h2.label_ == hv.label_) = some hv := by
  induction hs with
  | nil => cases hmem
  | cons a t ih =>
    rw [List.map_cons, List.nodup_cons] at hn
    rcases List.mem_cons.1 hmem with h1 | h1
    · subst h1; simp
    · have hne : (a.label_ == hv.label_) = false := by
        rw [beq_eq_false_iff_ne]
        intro heq
        exact hn.1 (List.mem_map.2 ⟨hv, h1, heq.symm⟩)
      rw [List.find?_cons, hne]
      exact ih hn.2 h1

theorem graph_weights_of_settled (ops : FloatOps F) (e : Engine F) (hs : Settled e) :
    ∃ gr, getSupervoxelAdjacencyList ops e = some gr ∧
      ∀ ed ∈ gr.edges, ∃ hu hv, e.supervoxel_helpers_[ed.1]? = some hu ∧
        e.supervoxel_helpers_[ed.2.1]? = some hv ∧
        ed.2.2 = voxelDistance ops e hu.centroid_ hv.centroid_ := by
  obtain ⟨gr, hgr, _, g2, _, _⟩ := adjacencyList_inv ops e hs
  refine ⟨gr, hgr, ?_⟩
  intro ed hed
  obtain ⟨p, hp, hu, hv, hw⟩ := g2 ed hed
  obtain ⟨hp1, _, _⟩ := adjacencyPairs_lookup e hs p hp
  obtain ⟨hu1, hu2, hu3⟩ := (mapFind_labelIDMap e hs.1 _ _).1 hu
  obtain ⟨hv1, hv2, hv3⟩ := (mapFind_labelIDMap e hs.1 _ _).1 hv
  have heq : hu1 = p.1 :=
    helper_eq_of_label e hs hu1 p.1 (List.mem_iff_getElem?.2 ⟨_, hu2⟩) hp1 hu3
  refine ⟨hu1, hv1, hu2, hv2, ?_⟩
  rw [hw, heq]
  unfold edgeLength
  rw [← hv3, find_helper _ (hs.1.imp (fun hh => Nat.ne_of_lt hh)) hv1
    (List.mem_iff_getElem?.2 ⟨_, hv2⟩)]

/-- C10: after `extract` on an engine that had not extracted before, and after a
`refineSupervoxels` that follows it, every edge of the graph built by
`getSupervoxelAdjacencyList` joins the vertices of two helpers of the list and carries
`voxelDistance` of their centroids, taken from the helper that inserted the edge; when
multiplication commutes and the square of a difference does not depend on the order of its
operands, `voxelDistance` is symmetric for all voxels and the weight is the same taken from the
other helper. -/
theorem adjacency_graph_weights (ops : FloatOps F) (X : Ext F) (e : Engine F)
    (m m1 : SupervoxelMap F) (M : Int) (he : Fresh e) (e1 : Engine F)
    (h1 : e1 = (extract ops X e m).1 ∨
      e1 = (refineSupervoxels ops X (extract ops X e m).1 M m1).1) :
    (∃ gr, getSupervoxelAdjacencyList ops e1 = some gr ∧
      ∀ ed ∈ gr.edges, ∃ hu hv, e1.supervoxel_helpers_[ed.1]? = some hu ∧
        e1.supervoxel_helpers_[ed.2.1]? = some hv ∧
        ed.2.2 = voxelDistance ops e1 hu.centroid_ hv.centroid_ ∧
        (SymmetricArith ops → ed.2.2 = voxelDistance ops e1 hv.centroid_ hu.centroid_)) ∧
      (SymmetricArith ops →
        ∀ v1 v2, voxelDistance ops e1 v1 v2 = voxelDistance ops e1 v2 v1) := by
  obtain ⟨gr, hgr, hw⟩ := graph_weights_of_settled ops e1 (settled_after ops X e m m1 M he e1 h1)
  refine ⟨⟨gr, hgr, ?_⟩, fun hsym v1 v2 => voxelDistance_comm ops e1 hsym v1 v2⟩
  intro ed hed
  obtain ⟨hu, hv, h2, h3, h4⟩ := hw ed hed
  exact ⟨hu, hv, h2, h3, h4, fun hsym => by rw [h4]; exact voxelDistance_comm ops e1 hsym _ _⟩

theorem symmetricArith_ratOps : SymmetricArith ratOps :=
  ⟨fun a b => mul_comm a b, fun a b => by show (a - b) * (a - b) = (b - a) * (b - a); ring⟩

theorem adjacency_graph_weights_witness :
    Fresh chainEngine ∧ SymmetricArith ratOps ∧
      ∀ v1 v2, voxelDistance ratOps (extract ratOps refExt chainEngine []).1 v1 v2 =
        voxelDistance ratOps (extract ratOps refExt chainEngine []).1 v2 v1 :=
  ⟨⟨rfl, rfl⟩, symmetricArith_ratOps,
    (adjacency_graph_weights ratOps refExt chainEngine [] [] 0 ⟨rfl, rfl⟩ _ (Or.inl rfl)).2
      symmetricArith_ratOps⟩

end GraphClaims

section Claims3

variable {F : Type}

attribute [local semireducible] Rat.add Rat.mul Rat.sub Rat.inv

theorem extract_runs (ops : FloatOps F) (X : Ext F) (e : Engine F) (m : SupervoxelMap F)
    (cloud : List (Voxel F)) (hin : e.input_ = some cloud) (hc : cloud ≠ []) :
    ∃ e1, prepareForSegmentation ops X e = some e1 ∧
      extract ops X e m = makeSupervoxels X (grown ops X e1) ∧
      (extract ops X e m).2.map (·.1) = labels (extract ops X e m).1 := by
  have hlen : cloud.length ≠ 0 := fun h => hc (List.length_eq_zero.1 h)
  have hp : ∃ e1, prepareForSegmentation ops X e = some e1 := by
    unfold prepareForSegmentation
    rw [hin]
    simp only [hlen, if_false]
    exact ⟨_, rfl⟩
  obtain ⟨e1, hp⟩ := hp
  have hex : extract ops X e m = makeSupervoxels X (grown ops X e1) := by
    unfold extract initCompute
    rw [hin, hp]
    rfl
  refine ⟨e1, hp, hex, ?_⟩
  rw [hex]
  obtain ⟨g1, _⟩ := grown_keeps ops X e1 (prepareForSegmentation_allUnowned ops X e e1 hp)
  rw [makeSupervoxels_keys X _ (sublist_range_sorted _ _ g1)]
  unfold labels
  rw [(makeSupervoxels_engine X (grown ops X e1)).1]

/-- C13 (the claim fails): with voxel resolution 1 and seed resolution 1, so that the seed
resolution is not larger than the voxel resolution, `extract` on three points in three voxels
returns a map with the two labels 1 and 2. -/
theorem extract_with_equal_resolutions :
    (extract ratOps refExt (setInputCloud (SupervoxelClustering ratOps 1 1 false true) chainCloud)
      []).2.map (·.1) = [1, 2] := by
  decide

/-- C13 (amended): the constructor stores the voxel resolution `r` and the seed resolution `R`
and `extract` does not compare them with each other: for all positive `r` and `R`, also when
`R` is not larger than `r`, once a cloud with at least one point is set, `extract` runs the
whole pipeline on the prepared engine and leaves one map entry per helper that survived growth,
keyed by the helper labels. -/
theorem extract_ignores_resolutions (ops : FloatOps F) (X : Ext F) (r R : F) (t p : Bool)
    (cloud : List (Voxel F)) (m : SupervoxelMap F) (hc : cloud ≠ [])
    (_hr : ops.lt (ops.ofInt 0) r = true) (_hR : ops.lt (ops.ofInt 0) R = true) :
    (setInputCloud (SupervoxelClustering ops r R t p) cloud).resolution_ = r ∧
      (setInputCloud (SupervoxelClustering ops r R t p) cloud).seed_resolution_ = R ∧
      ∃ e1, prepareForSegmentation ops X (setInputCloud (SupervoxelClustering ops r R t p) cloud) =
          some e1 ∧
        extract ops X (setInputCloud (SupervoxelClustering ops r R t p) cloud) m =
          makeSupervoxels X (grown ops X e1) ∧
        (extract ops X (setInputCloud (SupervoxelClustering ops r R t p) cloud) m).2.map (·.1) =
          labels (extract ops X (setInputCloud (SupervoxelClustering ops r R t p) cloud) m).1 := by
  have hlen : cloud.length ≠ 0 := fun h => hc (List.length_eq_zero.1 h)
  have hset : setInputCloud (SupervoxelClustering ops r R t p) cloud =
      { SupervoxelClustering ops r R t p with input_ := some cloud } := by
    unfold setInputCloud
    rw [if_neg hlen]
  refine ⟨by rw [hset]; rfl, by rw [hset]; rfl, ?_⟩
  exact extract_runs ops X _ m cloud (by rw [hset]) hc

theorem extract_ignores_resolutions_witness :
    chainCloud ≠ [] ∧ ratOps.lt (ratOps.ofInt 0) 2 = true ∧ ratOps.lt (ratOps.ofInt 0) 1 = true ∧
      (extract ratOps refExt (setInputCloud (SupervoxelClustering ratOps 2 1 false true)
          chainCloud) []).2.map (·.1) =
        labels (extract ratOps refExt (setInputCloud (SupervoxelClustering ratOps 2 1 false true)
          chainCloud) []).1 :=
  ⟨by decide, by decide, by decide, by
    obtain ⟨_, _, _, _, _, h⟩ :=
      extract_ignores_resolutions ratOps refExt 2 1 false true chainCloud [] (by decide)
        (by decide) (by decide)
    exact h⟩

/-- C14 (the claim fails): on a new engine `refineSupervoxels` called with a map that holds an
entry returns with that entry still in the map. -/
theorem refine_before_extract_keeps_map :
    (refineSupervoxels ratOps refExt (SupervoxelClustering ratOps 1 2 true true) 3
      [(7, { centroid_ := axisPoint 0 0, voxels_ := [] })]).2 ≠ [] := by
  decide

/-- C14 (amended): on an engine without helpers `refineSupervoxels` returns, for every
iteration count, leaving the engine and the map argument exactly as they were; the map is
empty afterwards when it was empty before. -/
theorem refine_before_extract (ops : FloatOps F) (X : Ext F) (e : Engine F) (M : Int)
    (m : SupervoxelMap F) (h : e.supervoxel_helpers_ = []) :
    refineSupervoxels ops X e M m = (e, m) ∧ (refineSupervoxels ops X e M []).2 = [] := by
  have h1 : ∀ m1 : SupervoxelMap F, refineSupervoxels ops X e M m1 = (e, m1) := by
    intro m1
    unfold refineSupervoxels
    simp [h]
  exact ⟨h1 m, by rw [h1]⟩

theorem refine_before_extract_witness :
    (SupervoxelClustering ratOps 1 2 true true).supervoxel_helpers_ = [] ∧
      refineSupervoxels ratOps refExt (SupervoxelClustering ratOps 1 2 true true) 3 [] =
        (SupervoxelClustering ratOps 1 2 true true, []) :=
  ⟨rfl, (refine_before_extract ratOps refExt _ 3 [] rfl).1⟩

/-- C15 (code at the failing input): on a new engine that was given a zero-point cloud and
then ran `extract`, the input pointer is still null and `getLabeledCloud` dereferences it
(the model yields `none`) where the claim promises an empty cloud. -/
theorem labeled_cloud_without_input :
    (extract ratOps refExt (setInputCloud (SupervoxelClustering ratOps 1 2 true true) [])
        []).1.input_ = none ∧
      getLabeledCloud ratOps refExt
        (extract ratOps refExt (setInputCloud (SupervoxelClustering ratOps 1 2 true true) [])
          []).1 = none := by
  decide

/-- C18 (code at the failing input): on an engine built with voxel resolution 1 and seed
resolution 2, `getSeedResolution` returns 1, the voxel resolution, and still returns 1 after
`setSeedResolution` stored 5. -/
theorem seed_resolution_getter_returns_voxel_resolution :
    getSeedResolution (SupervoxelClustering ratOps 1 2 true true) = 1 ∧
      getSeedResolution (setSeedResolution (SupervoxelClustering ratOps 1 2 true true) 5) = 1 ∧
      (setSeedResolution (SupervoxelClustering ratOps 1 2 true true) 5).seed_resolution_ = 5 := by
  decide

/-- C19: `setInputCloud` with a zero-point cloud returns the engine unchanged, whatever input
was set before, so `extract` afterwards gives the same engine and the same map as `extract`
without that call. -/
theorem setInputCloud_empty (ops : FloatOps F) (X : Ext F) (e : Engine F)
    (cloud : List (Voxel F)) (m : SupervoxelMap F) :
    setInputCloud e [] = e ∧
      (setInputCloud (setInputCloud e cloud) []).input_ = (setInputCloud e cloud).input_ ∧
      extract ops X (setInputCloud e []) m = extract ops X e m ∧
      extract ops X (setInputCloud (setInputCloud e cloud) []) m =
        extract ops X (setInputCloud e cloud) m := by
  have h : ∀ e1 : Engine F, setInputCloud e1 [] = e1 := by
    intro e1
    simp [setInputCloud]
  exact ⟨h e, by rw [h], by rw [h], by rw [h]⟩

theorem owner_in_labels (L : List (Leaf F)) (hs : List (SupervoxelHelper F))
    (h : OwnerLive L hs) (i a : Nat) (hi : ownerOf L i = some a) : a ∈ hs.map (·.label_) := by
  obtain ⟨l, hl, ho⟩ := (ownerOf_eq_some _ _ _).1 hi
  obtain ⟨h1, hh1, hl1, _⟩ := h i l hl a ho
  exact List.mem_map.2 ⟨h1, hh1, hl1⟩

/-- C20: when `createSupervoxelHelpers` starts from leaves without owner, then after it and
after every number of rounds of the loop of `expandSupervoxels` each leaf with an owner is owned
by a helper that is in the list and holds the leaf in its leaf set; hence the label of a helper
that was erased is the owner of no leaf.  The same holds for the engine left by `extract` on an
engine that had not extracted before. -/
theorem no_dangling_owner (ops : FloatOps F) (X : Ext F) (e : Engine F) (seeds : List Nat)
    (n : Nat) (he : AllUnowned e.leaves) :
    OwnerLive (createSupervoxelHelpers X e seeds).leaves
        (createSupervoxelHelpers X e seeds).supervoxel_helpers_ ∧
      OwnerLive ((expandRound ops X)^[n] (createSupervoxelHelpers X e seeds)).leaves
        ((expandRound ops X)^[n] (createSupervoxelHelpers X e seeds)).supervoxel_helpers_ ∧
      (∀ a, a ∈ labels (createSupervoxelHelpers X e seeds) →
        a ∉ labels ((expandRound ops X)^[n] (createSupervoxelHelpers X e seeds)) →
        ∀ i, ownerOf ((expandRound ops X)^[n] (createSupervoxelHelpers X e seeds)).leaves i ≠
          some a) ∧
      ∀ (e0 : Engine F) (m : SupervoxelMap F), Fresh e0 →
        OwnerLive (extract ops X e0 m).1.leaves (extract ops X e0 m).1.supervoxel_helpers_ := by
  have h1 := createSupervoxelHelpers_ownerLive X e seeds he
  have h2 := iterate_expandRound_ownerLive ops X n _ h1
  refine ⟨h1, h2, ?_, fun e0 m h0 => (extract_keeps ops X e0 m h0).2⟩
  intro a _ hna i hi
  exact hna (owner_in_labels _ _ h2 i a hi)

theorem no_dangling_owner_witness :
    AllUnowned ((prepareForSegmentation ratOps refExt chainEngine).getD chainEngine).leaves ∧
      OwnerLive
        ((expandRound ratOps refExt)^[2] (createSupervoxelHelpers refExt
          ((prepareForSegmentation ratOps refExt chainEngine).getD chainEngine) [0, 2])).leaves
        ((expandRound ratOps refExt)^[2] (createSupervoxelHelpers refExt
          ((prepareForSegmentation ratOps refExt chainEngine).getD chainEngine)
          [0, 2])).supervoxel_helpers_ :=
  ⟨by unfold AllUnowned; decide,
    (no_dangling_owner ratOps refExt _ [0, 2] 2 (by unfold AllUnowned; decide)).2.1⟩

end Claims3

section Claims4

variable {F : Type}

attribute [local semireducible] Rat.add Rat.mul Rat.sub Rat.inv

theorem sqrt_two : Nat.sqrt (Int.toNat 2) = 1 := by
  have h : Int.toNat 2 = 2 := rfl
  rw [h]
  norm_num

/-- C11 (code at the failing input): on a new engine, for two voxels at the same position with
the same normal whose colours differ by one in red and in green, `voxelDistance` is
`0.1 * 1 / 255 = 1 / 2550`, because the norm of the integer colour difference is the integer 1;
the Euclidean norm of the claim would give a value `d` with `(2550 * d) ^ 2 = 2`. -/
theorem colour_norm_is_truncated :
    voxelDistance ratOps (SupervoxelClustering ratOps 1 2 false true)
        { axisPoint 0 0 with r := 1, g := 1 } (axisPoint 0 0) = 1 / 2550 ∧
      (2550 * voxelDistance ratOps (SupervoxelClustering ratOps 1 2 false true)
        { axisPoint 0 0 with r := 1, g := 1 } (axisPoint 0 0)) ^ 2 ≠ 2 := by
  have h : voxelDistance ratOps (SupervoxelClustering ratOps 1 2 false true)
        { axisPoint 0 0 with r := 1, g := 1 } (axisPoint 0 0) = 1 / 2550 := by
    simp only [voxelDistance, ratOps, SupervoxelClustering, axisPoint]
    norm_num [sqrt_two]
  rw [h]
  norm_num

end Claims4

section Single

variable {F : Type}

attribute [local semireducible] Rat.add Rat.mul Rat.sub Rat.inv

theorem computeVoxelData_single (ops : FloatOps F) (X : Ext F) (e : Engine F) (c : Voxel F)
    (h : e.leaves = [isolatedLeaf ops c none]) :
    ∃ v, (computeVoxelData X e).leaves = [isolatedLeaf ops v none] ∧
      (computeVoxelData X e).voxel_centroid_cloud_ = [v] := by
  unfold computeVoxelData
  simp only [h, List.map_cons, List.map_nil, List.length_singleton]
  split_ifs
  · refine ⟨assignNormal X c (X.computePointNormal [c]
      (gatherIndices [isolatedLeaf ops c none] 0)), ?_, ?_⟩ <;>
    simp [List.range_succ, computeLeafNormal, storeCentroid, h, isolatedLeaf]
  · exact ⟨c, rfl, rfl⟩

theorem findNeighborMinCurvature_isolated (ops : FloatOps F) (e : Engine F) (idx : Nat)
    (h : neighborsOf e.leaves idx = []) : findNeighborMinCurvature ops e idx = idx := by
  unfold findNeighborMinCurvature
  rw [h]
  cases e.voxel_centroid_cloud_[idx]? <;> rfl

theorem iterate_fixed {α : Type} (f : α → α) (x : α) (h : f x = x) (n : Nat) : f^[n] x = x := by
  induction n with
  | zero => rfl
  | succ n ih => rw [Function.iterate_succ_apply, h, ih]

theorem seeds_single (ops : FloatOps F) (X : Ext F) (hX : SingletonLibrary X) (e : Engine F)
    (v : Voxel F)
    (hl : e.leaves = [isolatedLeaf ops v none])
    (hc : e.voxel_centroid_cloud_ = [v]) : selectInitialSupervoxelSeeds ops X e = [0] := by
  obtain ⟨h1, h2, h3⟩ := hX
  have hshift : shiftedSeeds ops X e = [0] := by
    unfold shiftedSeeds
    simp only [hc]
    have hlen := h1 e.seed_resolution_ [v] rfl
    obtain ⟨ctr, hctr⟩ := List.length_eq_one.1 hlen
    rw [hctr]
    simp only [List.map_cons, List.map_nil]
    rw [h2 [v] ctr rfl, iterate_fixed _ _ (findNeighborMinCurvature_isolated ops e 0
      (by simp [neighborsOf, hl, isolatedLeaf]))]
  unfold selectInitialSupervoxelSeeds
  rw [hshift]
  simp only
  split_ifs
  · rfl
  · simp only [hc, List.filterMap_cons, List.filterMap_nil, List.getElem?_cons_zero,
      List.enum_singleton, List.map_cons, List.map_nil, List.length_singleton]
    have hr := h3 [v] v (ops.div e.seed_resolution_ (ops.ofRat 2)) rfl
    have hr2 : ((X.radiusSearch [v] v (ops.div e.seed_resolution_ (ops.ofRat 2))).insertionSort
        (· ≤ ·)).length ≤ 1 := by
      rw [List.length_insertionSort]; exact hr
    simp only [sortSeedNHoods, List.insertionSort, List.orderedInsert, pruneSeeds]
    rw [if_neg (by simp only [gt_iff_lt, not_lt]; exact_mod_cast hr2)]
    rfl

theorem create_single (ops : FloatOps F) (X : Ext F) (e : Engine F) (v : Voxel F)
    (hl : e.leaves = [isolatedLeaf ops v none]) :
    SingleVoxel ops v (createSupervoxelHelpers X e [0]) := by
  unfold SingleVoxel createSupervoxelHelpers
  simp only [List.foldl_cons, List.foldl_nil, createStep, hl, List.length_singleton,
    List.length_nil, Nat.lt_one_iff, if_true, List.nil_append, Nat.zero_add]
  unfold addLeaf
  simp [hl, isolatedLeaf, setInsert, List.modify]

theorem expand_single (ops : FloatOps F) (e : Engine F) (v : Voxel F)
    (h : SingleVoxel ops v e) : SingleVoxel ops v (expand ops e 0) := by
  obtain ⟨hl, cen, hh⟩ := h
  unfold SingleVoxel expand
  simp only [hh, List.getElem?_cons_zero]
  simp [expandLoops, neighborsOf, hl, isolatedLeaf, insertOwned, hh, List.modify]

theorem expandRound_single (ops : FloatOps F) (X : Ext F) (e : Engine F) (v : Voxel F)
    (h : SingleVoxel ops v e) : SingleVoxel ops v (expandRound ops X e) := by
  have h1 : e.supervoxel_helpers_.length = 1 := by
    obtain ⟨_, cen, hh⟩ := h
    rw [hh]; rfl
  have h2 := expand_single ops e v h
  obtain ⟨hl, cen, hh⟩ := h2
  have hr : List.range 1 = [0] := rfl
  unfold SingleVoxel expandRound
  simp only [h1, hr, List.foldl_cons, List.foldl_nil, hl, hh]
  refine ⟨trivial, ?_⟩
  simp [updateCentroid]

theorem iterate_expandRound_single (ops : FloatOps F) (X : Ext F) (n : Nat) (e : Engine F)
    (v : Voxel F) (h : SingleVoxel ops v e) : SingleVoxel ops v ((expandRound ops X)^[n] e) := by
  induction n generalizing e with
  | zero => exact h
  | succ n ih =>
    rw [Function.iterate_succ_apply]
    exact ih _ (expandRound_single ops X e v h)

theorem single_outputs (ops : FloatOps F) (X : Ext F) (e : Engine F) (v : Voxel F)
    (h : SingleVoxel ops v e) :
    (makeSupervoxels X e).1.leaves.map (·.voxel_centroid_) = [v] ∧
      (makeSupervoxels X e).2.map (fun p => (p.1, p.2.voxels_)) = [(1, [v])] ∧
      getSupervoxelAdjacency (makeSupervoxels X e).1 = [] := by
  obtain ⟨hl, cen, hh⟩ := h
  obtain ⟨m1, m2, _⟩ := makeSupervoxels_engine X e
  refine ⟨?_, ?_, ?_⟩
  · rw [m2, hl]; rfl
  · unfold makeSupervoxels
    simp [hh, hl, mapAssign, getVoxels, isolatedLeaf]
  · unfold getSupervoxelAdjacency
    rw [m1, m2, hh, hl]
    simp [getNeighborLabels, neighborsOf, isolatedLeaf]

/-- C16: when the octree built from the input cloud consists of one leaf without neighbours,
and the library routines treat a one-point cloud as they should, `extract` leaves a map with
exactly one entry, whose key is 1 and whose voxel list holds exactly the voxel of that leaf, and
`getSupervoxelAdjacency` yields an empty multimap. -/
theorem single_isolated_voxel (ops : FloatOps F) (X : Ext F) (e : Engine F)
    (m : SupervoxelMap F) (cloud : List (Voxel F)) (c : Voxel F) (hX : SingletonLibrary X)
    (hin : e.input_ = some cloud) (hc : cloud ≠ [])
    (hoct : X.addPointsFromInputCloud e.use_single_camera_transform_ e.octree_resolution_ cloud =
      [(c, [])]) :
    ∃ v, (extract ops X e m).1.leaves.map (·.voxel_centroid_) = [v] ∧
      (extract ops X e m).2.map (fun p => (p.1, p.2.voxels_)) = [(1, [v])] ∧
      (extract ops X e m).2.length = 1 ∧
      getSupervoxelAdjacency (extract ops X e m).1 = [] := by
  obtain ⟨e1, hp, hex, _⟩ := extract_runs ops X e m cloud hin hc
  have hlen : cloud.length ≠ 0 := fun h => hc (List.length_eq_zero.1 h)
  have hprep : ∃ v, e1.leaves = [isolatedLeaf ops v none] ∧ e1.voxel_centroid_cloud_ = [v] := by
    unfold prepareForSegmentation at hp
    rw [hin] at hp
    simp only [hlen, if_false, hoct, List.map_cons, List.map_nil, Option.some.injEq] at hp
    rw [← hp]
    exact computeVoxelData_single ops X _ c rfl
  obtain ⟨v, hl, hcl⟩ := hprep
  have hseeds := seeds_single ops X hX e1 v hl hcl
  have hg : SingleVoxel ops v (grown ops X e1) := by
    unfold grown expandSupervoxels
    rw [hseeds]
    exact iterate_expandRound_single ops X _ _ v (create_single ops X e1 v hl)
  obtain ⟨o1, o2, o3⟩ := single_outputs ops X _ v hg
  rw [hex]
  refine ⟨v, o1, o2, ?_, o3⟩
  have := congrArg List.length o2
  simpa using this

theorem singletonLibrary_refExt : SingletonLibrary refExt := by
  refine ⟨?_, ?_, ?_⟩
  · intro R cl hcl
    obtain ⟨a, rfl⟩ := List.length_eq_one.1 hcl
    simp [refExt, occupiedKeys]
  · intro cl q hcl
    obtain ⟨a, rfl⟩ := List.length_eq_one.1 hcl
    simp [refExt, nearestIndex, List.enum]
  · intro cl q radius hcl
    obtain ⟨a, rfl⟩ := List.length_eq_one.1 hcl
    simp only [refExt, List.length_singleton]
    exact (List.length_filter_le _ (List.range 1)).trans (by simp)

theorem single_isolated_voxel_witness :
    SingletonLibrary refExt ∧ originEngine.input_ = some [planePoint 0 0 0] ∧
      ∃ v, (extract ratOps refExt originEngine []).1.leaves.map (·.voxel_centroid_) = [v] ∧
        (extract ratOps refExt originEngine []).2.map (fun p => (p.1, p.2.voxels_)) = [(1, [v])] ∧
        (extract ratOps refExt originEngine []).2.length = 1 ∧
        getSupervoxelAdjacency (extract ratOps refExt originEngine []).1 = [] :=
  ⟨singletonLibrary_refExt, rfl,
    single_isolated_voxel ratOps refExt originEngine [] [planePoint 0 0 0] (planePoint 0 0 0)
      singletonLibrary_refExt rfl (by decide) (by decide)⟩

end Single

section Connected

variable {F : Type}

attribute [local semireducible] Rat.add Rat.mul Rat.sub Rat.inv

theorem neighborsOf_congr (l1 l2 : List (Leaf F))
    (h : l1.map (·.neighbors) = l2.map (·.neighbors)) (i : Nat) :
    neighborsOf l1 i = neighborsOf l2 i := by
  have hi := congrArg (fun l => l[i]?) h
  simp only [List.getElem?_map] at hi
  unfold neighborsOf
  cases h1 : l1[i]? <;> cases h2 : l2[i]? <;> simp_all

theorem joined_congr (l1 l2 : List (Leaf F))
    (h : l1.map (·.neighbors) = l2.map (·.neighbors)) : Joined l1 = Joined l2 := by
  have hl : Linked l1 = Linked l2 := by
    funext a b
    unfold Linked
    rw [neighborsOf_congr l1 l2 h a, neighborsOf_congr l1 l2 h b]
  unfold Joined
  rw [hl]

theorem clustered_congr (l1 l2 : List (Leaf F)) (hs : List (SupervoxelHelper F))
    (h : l1.map (·.neighbors) = l2.map (·.neighbors)) (hc : Clustered l2 hs) :
    Clustered l1 hs := by
  unfold Clustered
  rw [joined_congr l1 l2 h]
  exact hc

theorem joined_symm (leaves : List (Leaf F)) (a b : Nat) (h : Joined leaves a b) :
    Joined leaves b a := by
  induction h with
  | refl => exact Relation.ReflTransGen.refl
  | tail _ hbc ih => exact Relation.ReflTransGen.head (Or.symm hbc) ih

theorem joined_of_neighbor (leaves : List (Leaf F)) (a b : Nat)
    (h : b ∈ neighborsOf leaves a) : Joined leaves a b :=
  Relation.ReflTransGen.single (Or.inl h)

theorem map_set_same {α β : Type} (f : α → β) (l : List α) (n : Nat) (a x : α)
    (ha : l[n]? = some a) (hx : f x = f a) : (l.set n x).map f = l.map f := by
  apply List.ext_getElem?
  intro i
  simp only [List.getElem?_map]
  by_cases hin : n = i
  · subst hin
    have hlt : n < l.length := (List.getElem?_eq_some.1 ha).1
    rw [List.getElem?_set_self hlt, ha]
    simp [hx]
  · rw [List.getElem?_set_ne hin]

theorem map_modify_same {α β : Type} (f : α → β) (g : α → α) (l : List α) (n : Nat)
    (hg : ∀ a, f (g a) = f a) : (l.modify g n).map f = l.map f := by
  apply List.ext_getElem?
  intro i
  simp only [List.getElem?_map, List.getElem?_modify]
  cases hi : l[i]? with
  | none => simp
  | some a => by_cases hin : n = i <;> simp [hin, hg]

theorem mem_modify_cases {α : Type} (f : α → α) (k : Nat) (l : List α) (x : α)
    (hx : x ∈ l.modify f k) : x ∈ l ∨ ∃ a, l[k]? = some a ∧ x = f a := by
  obtain ⟨n, hn⟩ := List.mem_iff_getElem?.1 hx
  rw [List.getElem?_modify] at hn
  by_cases hnk : k = n
  · subst hnk
    right
    cases hl : l[k]? with
    | none => rw [hl] at hn; simp at hn
    | some a =>
      rw [hl] at hn
      simp at hn
      exact ⟨a, rfl, hn.symm⟩
  · left
    simp only [hnk, if_false, Option.map_eq_map] at hn
    cases hl : l[n]? with
    | none => rw [hl] at hn; simp at hn
    | some a =>
      rw [hl] at hn
      simp only [Option.map_some', Option.some.injEq] at hn
      exact List.mem_iff_getElem?.2 ⟨n, hn ▸ hl⟩

theorem removeLeaf_getElem (helpers : List (SupervoxelHelper F)) (o n k : Nat)
    (h1 : SupervoxelHelper F) (hk : (removeLeaf helpers o n)[k]? = some h1) :
    ∃ h0, helpers[k]? = some h0 ∧ ∀ x ∈ h1.leaves_, x ∈ h0.leaves_ := by
  unfold removeLeaf at hk
  rw [List.getElem?_map] at hk
  cases hh : helpers[k]? with
  | none => rw [hh] at hk; simp at hk
  | some h0 =>
    rw [hh] at hk
    simp only [Option.map_some', Option.some.injEq] at hk
    refine ⟨h0, rfl, ?_⟩
    intro x hx
    rw [← hk] at hx
    split_ifs at hx
    · exact ((mem_setErase n x h0.leaves_).1 hx).1
    · exact hx

theorem expandVisit_grow (ops : FloatOps F) (e : Engine F) (lab : Nat) (c : Voxel F)
    (leaves0 : List (Leaf F)) (helpers0 : List (SupervoxelHelper F)) (ls : List Nat)
    (s : ExpandState F) (n : Nat) (hn : ∃ l ∈ ls, n ∈ neighborsOf leaves0 l)
    (hs : GrowInv leaves0 helpers0 ls s) :
    GrowInv leaves0 helpers0 ls (expandVisit ops e lab c s n) := by
  rcases expandVisit_cases ops e lab c s n with h | ⟨nv, hnv, _, _, h⟩
  · rw [h]; exact hs
  · rw [h]
    obtain ⟨g1, g2, g3⟩ := hs
    refine ⟨?_, ?_, ?_⟩
    · show (s.leaves.set n _).map (·.neighbors) = leaves0.map (·.neighbors)
      refine Eq.trans (map_set_same (fun l : Leaf F => l.neighbors) s.leaves n nv _ hnv ?_) g1
      rfl
    · intro k h1 hk
      simp only at hk
      cases ho : nv.owner_ with
      | none =>
        rw [ho] at hk
        exact g2 k h1 hk
      | some o =>
        rw [ho] at hk
        obtain ⟨h2, hh2, hsub⟩ := removeLeaf_getElem s.helpers o n k h1 hk
        obtain ⟨h0, hh0, hsub0⟩ := g2 k h2 hh2
        exact ⟨h0, hh0, fun x hx => hsub0 x (hsub x hx)⟩
    · intro m hm
      simp only [List.mem_append, List.mem_singleton] at hm
      rcases hm with hm | hm
      · exact g3 m hm
      · rw [hm]; exact hn

theorem foldl_visit_grow (ops : FloatOps F) (e : Engine F) (lab : Nat) (c : Voxel F)
    (leaves0 : List (Leaf F)) (helpers0 : List (SupervoxelHelper F)) (ls : List Nat)
    (ns : List Nat) (s : ExpandState F) (hns : ∀ n ∈ ns, ∃ l ∈ ls, n ∈ neighborsOf leaves0 l)
    (hs : GrowInv leaves0 helpers0 ls s) :
    GrowInv leaves0 helpers0 ls (ns.foldl (expandVisit ops e lab c) s) := by
  induction ns generalizing s with
  | nil => exact hs
  | cons n t ih =>
    exact ih _ (fun m hm => hns m (List.mem_cons_of_mem _ hm))
      (expandVisit_grow ops e lab c leaves0 helpers0 ls s n (hns n (List.mem_cons_self _ _)) hs)

theorem expandLoops_grow (ops : FloatOps F) (e : Engine F) (h : SupervoxelHelper F)
    (helpers0 : List (SupervoxelHelper F)) (ls : List Nat) (todo : List Nat)
    (s : ExpandState F) (htodo : ∀ l ∈ todo, l ∈ ls) (hs : GrowInv e.leaves helpers0 ls s) :
    GrowInv e.leaves helpers0 ls (expandLoops ops e h todo s) := by
  induction todo generalizing s with
  | nil => exact hs
  | cons l t ih =>
    unfold expandLoops at ih ⊢
    rw [List.foldl_cons]
    apply ih _ (fun m hm => htodo m (List.mem_cons_of_mem _ hm))
    exact foldl_visit_grow ops e _ _ e.leaves helpers0 ls _ s
      (fun n hn => ⟨l, htodo l (List.mem_cons_self _ _), hn⟩) hs

theorem expand_clustered (ops : FloatOps F) (e : Engine F) (k : Nat) :
    (expand ops e k).leaves.map (·.neighbors) = e.leaves.map (·.neighbors) ∧
      (Clustered e.leaves e.supervoxel_helpers_ →
        Clustered (expand ops e k).leaves (expand ops e k).supervoxel_helpers_) := by
  cases hk : e.supervoxel_helpers_[k]? with
  | none => unfold expand; rw [hk]; exact ⟨rfl, id⟩
  | some h =>
    have hinv := expandLoops_grow ops e h e.supervoxel_helpers_ h.leaves_ h.leaves_
      { leaves := e.leaves, helpers := e.supervoxel_helpers_, new_owned := [] }
      (fun _ hl => hl)
      ⟨rfl, fun k h1 hk1 => ⟨h1, hk1, fun _ hx => hx⟩, fun n hn => by simp at hn⟩
    rw [expand_eq ops e k h hk]
    simp only
    generalize expandLoops ops e h h.leaves_
      { leaves := e.leaves, helpers := e.supervoxel_helpers_, new_owned := [] } = s at hinv ⊢
    obtain ⟨g1, g2, g3⟩ := hinv
    refine ⟨g1, fun hc => ?_⟩
    apply clustered_congr _ e.leaves _ g1
    have hh : h ∈ e.supervoxel_helpers_ := List.mem_iff_getElem?.2 ⟨k, hk⟩
    intro h1 hh1 x hx y hy
    rcases mem_modify_cases _ k _ h1 hh1 with hm | ⟨a, ha, rfl⟩
    · obtain ⟨j, hj⟩ := List.mem_iff_getElem?.1 hm
      obtain ⟨h0, hh0, hsub⟩ := g2 j h1 hj
      exact hc h0 (List.mem_iff_getElem?.2 ⟨j, hh0⟩) x (hsub x hx) y (hsub y hy)
    · obtain ⟨h0, hh0, hsub⟩ := g2 k a ha
      rw [hk] at hh0
      cases hh0
      have key : ∀ z, z ∈ (insertOwned s.new_owned a).leaves_ →
          ∃ l ∈ h.leaves_, Joined e.leaves l z := by
        intro z hz
        rcases (mem_foldl_setInsert _ _ _).1 hz with hz | hz
        · obtain ⟨l, hl, hzl⟩ := g3 z hz
          exact ⟨l, hl, joined_of_neighbor e.leaves l z hzl⟩
        · exact ⟨z, hsub z hz, Relation.ReflTransGen.refl⟩
      obtain ⟨lx, hlx, jx⟩ := key x hx
      obtain ⟨ly, hly, jy⟩ := key y hy
      exact ((joined_symm _ _ _ jx).trans (hc h hh lx hlx ly hly)).trans jy

theorem foldl_expand_clustered (ops : FloatOps F) (ks : List Nat) (e : Engine F) :
    (ks.foldl (expand ops) e).leaves.map (·.neighbors) = e.leaves.map (·.neighbors) ∧
      (Clustered e.leaves e.supervoxel_helpers_ →
        Clustered (ks.foldl (expand ops) e).leaves (ks.foldl (expand ops) e).supervoxel_helpers_) := by
  induction ks generalizing e with
  | nil => exact ⟨rfl, id⟩
  | cons k t ih =>
    obtain ⟨a1, a2⟩ := expand_clustered ops e k
    obtain ⟨b1, b2⟩ := ih (expand ops e k)
    exact ⟨b1.trans a1, fun hc => b2 (a2 hc)⟩

theorem expandRound_clustered (ops : FloatOps F) (X : Ext F) (e : Engine F) :
    (expandRound ops X e).leaves.map (·.neighbors) = e.leaves.map (·.neighbors) ∧
      (Clustered e.leaves e.supervoxel_helpers_ →
        Clustered (expandRound ops X e).leaves (expandRound ops X e).supervoxel_helpers_) := by
  obtain ⟨a1, a2⟩ := foldl_expand_clustered ops (List.range e.supervoxel_helpers_.length) e
  unfold expandRound
  refine ⟨a1, fun hc => ?_⟩
  intro h hh x hx y hy
  simp only [List.mem_map, List.mem_filter] at hh
  obtain ⟨h0, ⟨hh0, _⟩, rfl⟩ := hh
  exact a2 hc h0 hh0 x hx y hy

theorem iterate_expandRound_clustered (ops : FloatOps F) (X : Ext F) (n : Nat) (e : Engine F) :
    ((expandRound ops X)^[n] e).leaves.map (·.neighbors) = e.leaves.map (·.neighbors) ∧
      (Clustered e.leaves e.supervoxel_helpers_ →
        Clustered ((expandRound ops X)^[n] e).leaves
          ((expandRound ops X)^[n] e).supervoxel_helpers_) := by
  induction n generalizing e with
  | zero => exact ⟨rfl, id⟩
  | succ n ih =>
    rw [Function.iterate_succ_apply]
    obtain ⟨a1, a2⟩ := expandRound_clustered ops X e
    obtain ⟨b1, b2⟩ := ih (expandRound ops X e)
    exact ⟨b1.trans a1, fun hc => b2 (a2 hc)⟩

theorem createStep_clustered (X : Ext F) (e : Engine F) (seed : Nat)
    (hc : Clustered e.leaves e.supervoxel_helpers_) :
    Clustered (createStep X e seed).leaves (createStep X e seed).supervoxel_helpers_ := by
  have hnew : Clustered e.leaves (e.supervoxel_helpers_ ++
      [{ label_ := e.supervoxel_helpers_.length + 1, leaves_ := [],
         centroid_ := X.defaultCentroid }]) := by
    intro h hh x hx y hy
    rcases List.mem_append.1 hh with hh | hh
    · exact hc h hh x hx y hy
    · rw [List.mem_singleton.1 hh] at hx
      simp at hx
  unfold createStep
  simp only
  split_ifs with hlt
  · unfold addLeaf
    simp only [List.getElem?_concat_length]
    refine clustered_congr _ e.leaves _
      (map_modify_same (fun l : Leaf F => l.neighbors) _ _ _ ?_) ?_
    · intro _; rfl
    intro h hh x hx y hy
    rcases List.mem_or_eq_of_mem_set hh with hh | rfl
    · exact hnew h hh x hx y hy
    · simp only [setInsert, List.mem_singleton] at hx hy
      rw [hx, hy]
      exact Relation.ReflTransGen.refl
  · exact hnew

theorem createSupervoxelHelpers_clustered (X : Ext F) (e : Engine F) (seeds : List Nat) :
    Clustered (createSupervoxelHelpers X e seeds).leaves
      (createSupervoxelHelpers X e seeds).supervoxel_helpers_ := by
  unfold createSupervoxelHelpers
  have h0 : Clustered ({ e with supervoxel_helpers_ := [] } : Engine F).leaves
      ({ e with supervoxel_helpers_ := [] } : Engine F).supervoxel_helpers_ := by
    intro h hh
    simp at hh
  generalize ({ e with supervoxel_helpers_ := [] } : Engine F) = e0 at h0
  induction seeds generalizing e0 with
  | nil => exact h0
  | cons s t ih => exact ih _ (createStep_clustered X e0 s h0)

theorem grown_clustered (ops : FloatOps F) (X : Ext F) (e1 : Engine F) :
    Clustered (grown ops X e1).leaves (grown ops X e1).supervoxel_helpers_ := by
  unfold grown expandSupervoxels
  exact (iterate_expandRound_clustered ops X _ _).2 (createSupervoxelHelpers_clustered X e1 _)

/-- C17 (the claim fails): on five voxels, a column of three whose lowest voxel touches one
voxel on its left and one on its right, with spatial importance 0, `extract` ends with the
helper of label 2 holding exactly the left and the right voxel, leaves 3 and 4, which are not
neighbours of each other: no path of neighbour links through leaves of that helper joins
them. -/
theorem extract_splits_supervoxel :
    (extract stepOps refExt teeEngine []).1.supervoxel_helpers_.map
        (fun h => (h.label_, h.leaves_)) = [(1, [0, 1, 2]), (2, [3, 4])] ∧
      ¬ JoinedWithin (extract stepOps refExt teeEngine []).1.leaves [3, 4] 3 4 := by
  have hn : (extract stepOps refExt teeEngine []).1.leaves.map (·.neighbors) =
      [[1], [0, 2, 3, 4], [1, 3, 4], [1, 2], [1, 2]] := by
    set_option maxRecDepth 1000000 in decide
  refine ⟨by set_option maxRecDepth 1000000 in decide, ?_⟩
  intro hj
  have h3 : neighborsOf (extract stepOps refExt teeEngine []).1.leaves 3 = [1, 2] := by
    have hi := congrArg (fun l => l[3]?) hn
    simp only [List.getElem?_map] at hi
    unfold neighborsOf
    cases hl : (extract stepOps refExt teeEngine []).1.leaves[3]? with
    | none => rw [hl] at hi; simp at hi
    | some l => rw [hl] at hi; simpa using hi
  have h4 : neighborsOf (extract stepOps refExt teeEngine []).1.leaves 4 = [1, 2] := by
    have hi := congrArg (fun l => l[4]?) hn
    simp only [List.getElem?_map] at hi
    unfold neighborsOf
    cases hl : (extract stepOps refExt teeEngine []).1.leaves[4]? with
    | none => rw [hl] at hi; simp at hi
    | some l => rw [hl] at hi; simpa using hi
  rcases Relation.ReflTransGen.cases_head hj with h | ⟨c, ⟨hl, _, hc⟩, _⟩
  · exact absurd h (by decide)
  · unfold Linked at hl
    rw [h3] at hl
    simp only [List.mem_cons, List.mem_singleton, List.not_mem_nil, or_false] at hc
    rcases hc with rfl | rfl
    · rw [h3] at hl
      simp at hl
    · rw [h4] at hl
      simp at hl

/-- C17 (amended): after `extract` on an engine on which no extraction has run, any two leaves
in the leaf set of a helper are joined by a path of neighbour links of the octree; the path may
run through leaves of other helpers and through leaves without owner. -/
theorem supervoxel_in_one_component (ops : FloatOps F) (X : Ext F) (e : Engine F)
    (m : SupervoxelMap F) (he : Fresh e) :
    ∀ h ∈ (extract ops X e m).1.supervoxel_helpers_, ∀ x ∈ h.leaves_, ∀ y ∈ h.leaves_,
      Joined (extract ops X e m).1.leaves x y := by
  rcases extract_cases ops X e m with h | ⟨e1, _, h⟩
  · rw [h]
    intro h1 hh1
    rw [he.1] at hh1
    simp at hh1
  · rw [h]
    obtain ⟨m1, m2, _⟩ := makeSupervoxels_engine X (grown ops X e1)
    rw [m1, m2]
    exact grown_clustered ops X e1

theorem supervoxel_in_one_component_witness :
    Fresh teeEngine ∧
      ∀ h ∈ (extract stepOps refExt teeEngine []).1.supervoxel_helpers_,
        ∀ x ∈ h.leaves_, ∀ y ∈ h.leaves_,
          Joined (extract stepOps refExt teeEngine []).1.leaves x y :=
  ⟨⟨rfl, rfl⟩, supervoxel_in_one_component stepOps refExt teeEngine [] ⟨rfl, rfl⟩⟩

end Connected

section Camera

variable {F : Type}

attribute [local semireducible] Rat.add Rat.mul Rat.sub Rat.inv

/-- C12 (the claim fails): with the single camera transform enabled and an input of two
points, one at depth 1 and one at depth -0.1, `extract` returns a map that holds the
label 1. -/
theorem extract_accepts_negative_z :
    cameraEngine.use_single_camera_transform_ = true ∧
      cameraEngine.input_ = some cameraCloud ∧
      cameraCloud.map (·.z) = [some 1, some (-1 / 10)] ∧
      (extract nanOps cameraExt cameraEngine []).2.map (·.1) = [1] := by
  set_option maxRecDepth 1000000 in decide

/-- C12 (amended): `extract` with the single camera transform enabled compares no depth with
zero.  On an input that holds a point of negative depth, which `transformFunction` sends to
the depth `log z` like any other, `extract` hands the whole cloud to the octree, keeps one leaf
for each leaf the octree built, runs the segmentation to its end and returns one map entry for
each helper that is left. -/
theorem extract_has_no_depth_check (ops : FloatOps F) (X : Ext F) (log : F → F) (e : Engine F)
    (m : SupervoxelMap F) (cloud : List (Voxel F)) (p : Voxel F)
    (ht : e.use_single_camera_transform_ = true) (hin : e.input_ = some cloud) (hp : p ∈ cloud)
    (_hz : ops.lt p.z (ops.ofInt 0) = true) :
    (transformFunction ops log p).z = log p.z ∧
      ∃ e1, prepareForSegmentation ops X e = some e1 ∧
        e1.leaves.length = (X.addPointsFromInputCloud true e.octree_resolution_ cloud).length ∧
        extract ops X e m = makeSupervoxels X (grown ops X e1) ∧
        (extract ops X e m).2.map (·.1) = labels (extract ops X e m).1 := by
  have hc : cloud ≠ [] := List.ne_nil_of_mem hp
  obtain ⟨e1, h1, h2, h3⟩ := extract_runs ops X e m cloud hin hc
  refine ⟨rfl, e1, h1, ?_, h2, h3⟩
  have hlen : cloud.length ≠ 0 := fun h => hc (List.length_eq_zero.1 h)
  unfold prepareForSegmentation at h1
  rw [hin] at h1
  simp only [hlen, if_false, Option.some.injEq] at h1
  rw [← h1, ← ht]
  have key : ∀ e0 : Engine F, (computeVoxelData X e0).leaves.length = e0.leaves.length := by
    intro e0
    have hs := congrArg List.length (computeVoxelData_spec X e0).2
    simpa using hs
  rw [key]
  simp

theorem extract_has_no_depth_check_witness :
    cameraEngine.use_single_camera_transform_ = true ∧
      nanOps.lt (some (-1 / 10)) (nanOps.ofInt 0) = true ∧
      ∃ e1, prepareForSegmentation nanOps cameraExt cameraEngine = some e1 ∧
        e1.leaves.length =
          (cameraExt.addPointsFromInputCloud true cameraEngine.octree_resolution_
            cameraCloud).length ∧
        extract nanOps cameraExt cameraEngine [] = makeSupervoxels cameraExt (grown nanOps cameraExt e1) ∧
        (extract nanOps cameraExt cameraEngine []).2.map (·.1) =
          labels (extract nanOps cameraExt cameraEngine []).1 :=
  ⟨rfl, by decide,
    (extract_has_no_depth_check nanOps cameraExt logApprox cameraEngine [] cameraCloud
      (liftVoxel { planePoint 0 0 0 with z := -1 / 10 }) rfl rfl (by simp [cameraCloud])
      (by decide)).2⟩

end Camera

section Growth

variable {F : Type}

attribute [local semireducible] Rat.add Rat.mul Rat.sub Rat.inv

theorem not_mem_removeLeaf (helpers : List (SupervoxelHelper F)) (o n : Nat) :
    ∀ h ∈ removeLeaf helpers o n, h.label_ = o → n ∉ h.leaves_ := by
  intro h hh hl
  unfold removeLeaf at hh
  obtain ⟨h0, _, rfl⟩ := List.mem_map.1 hh
  split_ifs at hl ⊢ with h1
  · intro hm
    exact ((mem_setErase n n h0.leaves_).1 hm).2 rfl
  · exact absurd hl h1

/-- C21: when the helper with label `lab` and centroid `c` visits, in `expand`, a neighbour
leaf `n` that it does not own, and `d` is `voxelDistance` from `c` to the voxel of the leaf, then
if `d < distance_` the leaf gets the owner `lab` and the distance `d` (nothing else in it and no
other leaf changes), it is erased from the leaf set of the helper that owned it and staged in
`new_owned`; if `d < distance_` is false, in particular when both are equal, nothing changes at
all. -/
theorem steal_rule (ops : FloatOps F) (e : Engine F) (lab : Nat) (c : Voxel F)
    (s : ExpandState F) (n : Nat) (nv : Leaf F) (hn : s.leaves[n]? = some nv)
    (hown : nv.owner_ ≠ some lab) :
    (ops.lt (voxelDistance ops e c nv.voxel_centroid_) nv.distance_ = true →
        (expandVisit ops e lab c s n).leaves = s.leaves.set n
          { nv with distance_ := voxelDistance ops e c nv.voxel_centroid_, owner_ := some lab } ∧
        (expandVisit ops e lab c s n).new_owned = s.new_owned ++ [n] ∧
        (nv.owner_ = none → (expandVisit ops e lab c s n).helpers = s.helpers) ∧
        ∀ o, nv.owner_ = some o →
          (expandVisit ops e lab c s n).helpers = removeLeaf s.helpers o n ∧
          ∀ h ∈ (expandVisit ops e lab c s n).helpers, h.label_ = o → n ∉ h.leaves_) ∧
      (ops.lt (voxelDistance ops e c nv.voxel_centroid_) nv.distance_ = false →
        expandVisit ops e lab c s n = s) := by
  constructor
  · intro hlt
    have h : expandVisit ops e lab c s n =
        { leaves := s.leaves.set n
            { nv with distance_ := voxelDistance ops e c nv.voxel_centroid_, owner_ := some lab }
          helpers :=
            match nv.owner_ with
            | some o => removeLeaf s.helpers o n
            | none => s.helpers
          new_owned := s.new_owned ++ [n] } := by
      unfold expandVisit
      rw [hn]
      simp only [hown, hlt, if_true, if_false, ne_eq, not_false_eq_true]
    rw [h]
    refine ⟨rfl, rfl, ?_, ?_⟩
    · intro ho
      simp only [ho]
    · intro o ho
      simp only [ho]
      exact ⟨trivial, not_mem_removeLeaf s.helpers o n⟩
  · intro hlt
    unfold expandVisit
    rw [hn]
    simp [hown, hlt]

theorem steal_rule_witness :
    pairState.leaves[0]? = some pairLeaf ∧ pairLeaf.owner_ ≠ some 1 ∧
      (expandVisit stepOps pairStart 1 refExt.defaultCentroid pairState 0).leaves.map
          (fun l => (l.owner_, l.distance_)) =
        [(some 1, 13 / 11), (some 1, stepOps.maxVal), (some 2, stepOps.maxVal)] :=
  ⟨by decide, by decide, by
    rw [((steal_rule stepOps pairStart 1 refExt.defaultCentroid pairState 0 pairLeaf
      (by decide) (by decide)).1 (by decide)).1]
    decide⟩

/-- C22 (code at the failing input): with voxel resolution 1 and seed resolution 1.1 the depth
handed to `expandSupervoxels` is 1, the loop `for (int i = 1; i < depth; ++i)` runs no round,
and `extract` ends with the leaves as `createSupervoxelHelpers` left them, the first voxel
without owner; a single round would have given every voxel an owner.  For every depth the loop
runs `depth - 1` rounds. -/
theorem growth_runs_one_round_less :
    maxDepth stepOps pairStart = 1 ∧
      (extract stepOps refExt pairEngine []).1.leaves = pairStart.leaves ∧
      (extract stepOps refExt pairEngine []).1.leaves.map (·.owner_) = [none, some 1, some 2] ∧
      (expandRound stepOps refExt pairStart).leaves.map (·.owner_) = [some 1, some 1, some 1] ∧
      ∀ depth : Int, expandSupervoxels stepOps refExt pairStart depth =
        (expandRound stepOps refExt)^[(depth - 1).toNat] pairStart := by
  refine ⟨by decide, by decide, by decide, by decide, fun _ => rfl⟩

/-- C23 (code at the failing input): on `teeEngine` the loop of `expandSupervoxels` runs two
rounds; in the state after the last call of `expand`, before the last `updateCentroid`, the
helper 1 holds the leaves 0, 1, 2 with distances max, 1, 1/2 while `voxelDistance` from its
centroid is 1/2 for each of them, and the helper 2 holds the leaves 3, 4 with distance 1 while
`voxelDistance` from its centroid is 1/3. -/
theorem distance_not_recomputed :
    maxDepth stepOps teeStart = 3 ∧
      (extract stepOps refExt teeEngine []).1.leaves =
        (expandAll stepOps (expandRound stepOps refExt teeStart)).leaves ∧
      (expandAll stepOps (expandRound stepOps refExt teeStart)).supervoxel_helpers_.map
          (fun h => (h.label_, h.leaves_)) = [(1, [0, 1, 2]), (2, [3, 4])] ∧
      (expandAll stepOps (expandRound stepOps refExt teeStart)).leaves.map (·.distance_) =
        [stepOps.maxVal, 1, 1 / 2, 1, 1] ∧
      (expandAll stepOps (expandRound stepOps refExt teeStart)).supervoxel_helpers_.map
          (fun h => h.leaves_.map fun i =>
            ((expandAll stepOps (expandRound stepOps refExt teeStart)).leaves[i]?).map fun l =>
              voxelDistance stepOps teeStart h.centroid_ l.voxel_centroid_) =
        [[some (1 / 2), some (1 / 2), some (1 / 2)], [some (1 / 3), some (1 / 3)]] := by
  refine ⟨by decide, ?_, ?_, ?_, ?_⟩ <;> set_option maxRecDepth 1000000 in decide

/-- C24 (code at the failing input): on `pairEngine` the seeds are the leaves 1 and 2; after
`createSupervoxelHelpers` each is in the leaf set of its helper and owned by it, and its distance
is the largest float, as for the leaf 0 that no helper holds, not 0. -/
theorem seed_distance_not_zeroed :
    pairStart.supervoxel_helpers_.map (fun h => (h.label_, h.leaves_)) = [(1, [1]), (2, [2])] ∧
      pairStart.leaves.map (fun l => (l.owner_, l.distance_)) =
        [(none, stepOps.maxVal), (some 1, stepOps.maxVal), (some 2, stepOps.maxVal)] ∧
      stepOps.maxVal ≠ 0 := by
  refine ⟨by decide, by decide, by decide⟩

/-- C25 (code at the failing input): on `wideEngine` the only seed is the leaf 2, at x = 2.5,
and `extract` runs two rounds.  After `createSupervoxelHelpers` the centroid of the helper is the
default constructed point at the origin, not the voxel of the seed leaf; the first call of
`expand` gives the leaf 1 the distance 13/10, which is `voxelDistance` from the default point,
where the distance from the seed voxel is 1/5, and `extract` ends with that value in the
leaf. -/
theorem helper_centroid_not_set :
    wideStart.supervoxel_helpers_.map (fun h => (h.leaves_, h.centroid_)) =
        [([2], refExt.defaultCentroid)] ∧
      wideStart.leaves.map (·.voxel_centroid_) = chainCloud ∧
      maxDepth stepOps wideStart = 3 ∧
      (expand stepOps wideStart 0).leaves.map (·.distance_) =
        [stepOps.maxVal, 13 / 10, stepOps.maxVal] ∧
      voxelDistance stepOps wideStart refExt.defaultCentroid (axisPoint (3 / 2) 0) = 13 / 10 ∧
      voxelDistance stepOps wideStart (axisPoint (5 / 2) 0) (axisPoint (3 / 2) 0) = 1 / 5 ∧
      (extract stepOps refExt wideEngine []).1.leaves.map (·.distance_) =
        [3 / 10, 13 / 10, stepOps.maxVal] := by
  refine ⟨by decide, by decide, by decide, by decide, by decide, by decide, by decide⟩

/-- C26 (code at the failing input): at the end of `extract` on `teeEngine` the leaf 0, the
seed of the helper 1, has an owner and still the distance of a leaf that was never reached, the
largest float. -/
theorem seed_leaf_owned_at_unreached_distance :
    (extract stepOps refExt teeEngine []).1.leaves.map (fun l => (l.owner_, l.distance_)) =
      [(some 1, stepOps.maxVal), (some 1, 1), (some 1, 1 / 2), (some 2, 1), (some 2, 1)] := by
  set_option maxRecDepth 1000000 in decide

/-- C27 (the claim fails): `expandSupervoxels` with depth 0 on a helper list that holds one
helper with an empty leaf set returns with that helper still in the list. -/
theorem expandSupervoxels_keeps_empty_helper :
    (expandSupervoxels ratOps refExt (createSupervoxelHelpers refExt chainEngine [0])
      0).supervoxel_helpers_.map (fun h => (h.label_, h.leaves_)) = [(1, [])] := by
  decide

theorem expandRound_nonempty (ops : FloatOps F) (X : Ext F) (e : Engine F) :
    ∀ h ∈ (expandRound ops X e).supervoxel_helpers_, h.leaves_ ≠ [] := by
  intro h hh
  unfold expandRound at hh
  simp only [List.mem_map, List.mem_filter] at hh
  obtain ⟨h0, ⟨_, hne⟩, rfl⟩ := hh
  intro hnil
  have h1 : h0.leaves_ = [] := hnil
  rw [h1] at hne
  simp at hne

/-- C27 (amended): for every depth of at least 2 and every starting helper list, each helper
that is in the list when `expandSupervoxels` returns has a non-empty leaf set. -/
theorem no_empty_helper (ops : FloatOps F) (X : Ext F) (e : Engine F) (depth : Int)
    (hd : 2 ≤ depth) :
    ∀ h ∈ (expandSupervoxels ops X e depth).supervoxel_helpers_, h.leaves_ ≠ [] := by
  unfold expandSupervoxels
  obtain ⟨n, hn⟩ : ∃ n, (depth - 1).toNat = n + 1 := by
    refine ⟨(depth - 1).toNat - 1, ?_⟩
    omega
  rw [hn, Function.iterate_succ_apply']
  exact expandRound_nonempty ops X _

theorem no_empty_helper_witness :
    (2 : Int) ≤ 2 ∧
      (expandSupervoxels stepOps refExt pairStart 2).supervoxel_helpers_.map (·.label_) = [1] ∧
      ∀ h ∈ (expandSupervoxels stepOps refExt pairStart 2).supervoxel_helpers_, h.leaves_ ≠ [] :=
  ⟨by decide, by decide, no_empty_helper stepOps refExt pairStart 2 (by decide)⟩

end Growth

section Shift

variable {F : Type}

attribute [local semireducible] Rat.add Rat.mul Rat.sub Rat.inv

theorem lt_asymm_of (ops : FloatOps F) (hirr : ∀ a, ops.lt a a = false)
    (htr : ∀ a b c, ops.lt a b = true → ops.lt b c = true → ops.lt a c = true) (a b : F)
    (h : ops.lt a b = true) : ops.lt b a = false := by
  cases hba : ops.lt b a with
  | false => rfl
  | true =>
    have := htr a b a h hba
    rw [hirr a] at this
    exact absurd this (by simp)

theorem foldl_minCurvature (ops : FloatOps F) (hirr : ∀ a, ops.lt a a = false)
    (htr : ∀ a b c, ops.lt a b = true → ops.lt b c = true → ops.lt a c = true)
    (leaves : List (Leaf F)) (ns : List Nat) (acc : Nat × F)
    (hacc : curvatureAt leaves acc.1 = some acc.2) :
    curvatureAt leaves
        (ns.foldl
          (fun (acc : Nat × F) n =>
            match leaves[n]? with
            | none => acc
            | some nb =>
              if ops.lt nb.voxel_centroid_.curvature acc.2 then (n, nb.voxel_centroid_.curvature)
              else acc) acc).1 =
      some (ns.foldl
          (fun (acc : Nat × F) n =>
            match leaves[n]? with
            | none => acc
            | some nb =>
              if ops.lt nb.voxel_centroid_.curvature acc.2 then (n, nb.voxel_centroid_.curvature)
              else acc) acc).2 ∧
      ((ns.foldl
          (fun (acc : Nat × F) n =>
            match leaves[n]? with
            | none => acc
            | some nb =>
              if ops.lt nb.voxel_centroid_.curvature acc.2 then (n, nb.voxel_centroid_.curvature)
              else acc) acc) = acc ∨
        ((ns.foldl
          (fun (acc : Nat × F) n =>
            match leaves[n]? with
            | none => acc
            | some nb =>
              if ops.lt nb.voxel_centroid_.curvature acc.2 then (n, nb.voxel_centroid_.curvature)
              else acc) acc).1 ∈ ns ∧
          ops.lt (ns.foldl
            (fun (acc : Nat × F) n =>
              match leaves[n]? with
              | none => acc
              | some nb =>
                if ops.lt nb.voxel_centroid_.curvature acc.2 then
                  (n, nb.voxel_centroid_.curvature)
                else acc) acc).2 acc.2 = true)) ∧
      ∀ n ∈ ns, ∀ cn, curvatureAt leaves n = some cn →
        ops.lt cn (ns.foldl
          (fun (acc : Nat × F) n =>
            match leaves[n]? with
            | none => acc
            | some nb =>
              if ops.lt nb.voxel_centroid_.curvature acc.2 then (n, nb.voxel_centroid_.curvature)
              else acc) acc).2 = false := by
  induction ns generalizing acc with
  | nil => exact ⟨hacc, Or.inl rfl, fun n hn => absurd hn (List.not_mem_nil n)⟩
  | cons n t ih =>
    rw [List.foldl_cons]
    cases hn : leaves[n]? with
    | none =>
      simp only
      obtain ⟨i1, i2, i3⟩ := ih acc hacc
      refine ⟨i1, ?_, ?_⟩
      · rcases i2 with h | ⟨h1, h2⟩
        · exact Or.inl h
        · exact Or.inr ⟨List.mem_cons_of_mem _ h1, h2⟩
      · intro m hm cm hcm
        rcases List.mem_cons.1 hm with rfl | hm
        · simp [curvatureAt, hn] at hcm
        · exact i3 m hm cm hcm
    | some nb =>
      simp only
      by_cases hlt : ops.lt nb.voxel_centroid_.curvature acc.2 = true
      · simp only [hlt, if_true]
        have hacc1 : curvatureAt leaves (n, nb.voxel_centroid_.curvature).1 =
            some (n, nb.voxel_centroid_.curvature).2 := by
          simp [curvatureAt, hn]
        obtain ⟨i1, i2, i3⟩ := ih (n, nb.voxel_centroid_.curvature) hacc1
        have hdown : ops.lt (t.foldl
            (fun (acc : Nat × F) n =>
              match leaves[n]? with
              | none => acc
              | some nb =>
                if ops.lt nb.voxel_centroid_.curvature acc.2 then
                  (n, nb.voxel_centroid_.curvature)
                else acc) (n, nb.voxel_centroid_.curvature)).2 acc.2 = true ∧
            ops.lt nb.voxel_centroid_.curvature (t.foldl
            (fun (acc : Nat × F) n =>
              match leaves[n]? with
              | none => acc
              | some nb =>
                if ops.lt nb.voxel_centroid_.curvature acc.2 then
                  (n, nb.voxel_centroid_.curvature)
                else acc) (n, nb.voxel_centroid_.curvature)).2 = false := by
          rcases i2 with h | ⟨_, h2⟩
          · rw [h]
            exact ⟨hlt, hirr _⟩
          · exact ⟨htr _ _ _ h2 hlt, lt_asymm_of ops hirr htr _ _ h2⟩
        refine ⟨i1, Or.inr ⟨?_, hdown.1⟩, ?_⟩
        · rcases i2 with h | ⟨h1, _⟩
          · rw [h]; exact List.mem_cons_self _ _
          · exact List.mem_cons_of_mem _ h1
        · intro m hm cm hcm
          rcases List.mem_cons.1 hm with rfl | hm
          · simp only [curvatureAt, hn, Option.map_some', Option.some.injEq] at hcm
            rw [← hcm]
            exact hdown.2
          · exact i3 m hm cm hcm
      · have hlt2 : ops.lt nb.voxel_centroid_.curvature acc.2 = false := by
          simpa using hlt
        simp only [hlt2, Bool.false_eq_true, if_false]
        obtain ⟨i1, i2, i3⟩ := ih acc hacc
        refine ⟨i1, ?_, ?_⟩
        · rcases i2 with h | ⟨h1, h2⟩
          · exact Or.inl h
          · exact Or.inr ⟨List.mem_cons_of_mem _ h1, h2⟩
        · intro m hm cm hcm
          rcases List.mem_cons.1 hm with rfl | hm
          · simp only [curvatureAt, hn, Option.map_some', Option.some.injEq] at hcm
            rw [← hcm]
            rcases i2 with h | ⟨_, h2⟩
            · rw [h]; exact hlt2
            · cases hx : ops.lt nb.voxel_centroid_.curvature _ with
              | false => rfl
              | true =>
                have := htr _ _ _ hx h2
                rw [hlt2] at this
                exact absurd this (by simp)
          · exact i3 m hm cm hcm

theorem findNeighborMinCurvature_step (ops : FloatOps F) (hirr : ∀ a, ops.lt a a = false)
    (htr : ∀ a b c, ops.lt a b = true → ops.lt b c = true → ops.lt a c = true)
    (e : Engine F) (hcloud : e.voxel_centroid_cloud_ = e.leaves.map (·.voxel_centroid_))
    (idx : Nat) (c0 : F) (h0 : curvatureAt e.leaves idx = some c0) :
    ∃ c, curvatureAt e.leaves (findNeighborMinCurvature ops e idx) = some c ∧
      (findNeighborMinCurvature ops e idx = idx ∧ c = c0 ∨
        findNeighborMinCurvature ops e idx ∈ neighborsOf e.leaves idx ∧ ops.lt c c0 = true) ∧
      ∀ n ∈ neighborsOf e.leaves idx, ∀ cn, curvatureAt e.leaves n = some cn →
        ops.lt cn c = false := by
  obtain ⟨l, hl, hc⟩ : ∃ l, e.leaves[idx]? = some l ∧ l.voxel_centroid_.curvature = c0 := by
    unfold curvatureAt at h0
    cases hl : e.leaves[idx]? with
    | none => rw [hl] at h0; simp at h0
    | some l => rw [hl] at h0; exact ⟨l, rfl, by simpa using h0⟩
  have hp : e.voxel_centroid_cloud_[idx]? = some l.voxel_centroid_ := by
    rw [hcloud, List.getElem?_map, hl]; rfl
  unfold findNeighborMinCurvature
  rw [hp]
  simp only
  obtain ⟨i1, i2, i3⟩ := foldl_minCurvature ops hirr htr e.leaves (neighborsOf e.leaves idx)
    (idx, l.voxel_centroid_.curvature) (by rw [hc]; exact h0)
  refine ⟨_, i1, ?_, i3⟩
  rcases i2 with h | ⟨h1, h2⟩
  · left
    exact ⟨congrArg Prod.fst h, (congrArg Prod.snd h).trans hc⟩
  · right
    exact ⟨h1, by rw [← hc]; exact h2⟩

theorem iterate_findNeighborMinCurvature (ops : FloatOps F) (hirr : ∀ a, ops.lt a a = false)
    (htr : ∀ a b c, ops.lt a b = true → ops.lt b c = true → ops.lt a c = true)
    (e : Engine F) (hcloud : e.voxel_centroid_cloud_ = e.leaves.map (·.voxel_centroid_))
    (idx : Nat) (c0 : F) (h0 : curvatureAt e.leaves idx = some c0) (k : Nat) :
    ∃ c, curvatureAt e.leaves ((findNeighborMinCurvature ops e)^[k] idx) = some c ∧
      (c = c0 ∨ ops.lt c c0 = true) := by
  induction k with
  | zero => exact ⟨c0, h0, Or.inl rfl⟩
  | succ k ih =>
    rw [Function.iterate_succ_apply']
    obtain ⟨c, hc, hlt⟩ := ih
    obtain ⟨c1, hc1, hcase, _⟩ := findNeighborMinCurvature_step ops hirr htr e hcloud _ c hc
    refine ⟨c1, hc1, ?_⟩
    rcases hcase with ⟨_, h⟩ | ⟨_, h⟩
    · rw [h]; exact hlt
    · rcases hlt with h2 | h2
      · rw [← h2]; exact Or.inr h
      · exact Or.inr (htr _ _ _ h h2)

/-- C30 (amended): when `<` on curvatures is irreflexive and transitive and the centroid cloud
holds the voxels of the leaves, then for every index `idx` of a leaf `findNeighborMinCurvature`
returns `idx` or one of the neighbours of that leaf, no curvature among those of `idx` and its
neighbours is less than the curvature at the index returned, and after any number of shift steps
the curvature at the seed is not greater than the curvature it started from. -/
theorem curvature_shift (ops : FloatOps F) (e : Engine F) (idx : Nat)
    (hirr : ∀ a, ops.lt a a = false)
    (htr : ∀ a b c, ops.lt a b = true → ops.lt b c = true → ops.lt a c = true)
    (hcloud : e.voxel_centroid_cloud_ = e.leaves.map (·.voxel_centroid_))
    (hidx : idx < e.leaves.length) :
    (findNeighborMinCurvature ops e idx = idx ∨
        findNeighborMinCurvature ops e idx ∈ neighborsOf e.leaves idx) ∧
      (∃ c, curvatureAt e.leaves (findNeighborMinCurvature ops e idx) = some c ∧
        ∀ n, n = idx ∨ n ∈ neighborsOf e.leaves idx →
          ∀ cn, curvatureAt e.leaves n = some cn → ops.lt cn c = false) ∧
      ∀ k, ∃ c0 ck, curvatureAt e.leaves idx = some c0 ∧
        curvatureAt e.leaves ((findNeighborMinCurvature ops e)^[k] idx) = some ck ∧
        ops.lt c0 ck = false := by
  obtain ⟨c0, h0⟩ : ∃ c0, curvatureAt e.leaves idx = some c0 := by
    unfold curvatureAt
    rw [List.getElem?_eq_getElem hidx]
    exact ⟨_, rfl⟩
  obtain ⟨c, hc, hcase, hn⟩ := findNeighborMinCurvature_step ops hirr htr e hcloud idx c0 h0
  refine ⟨?_, ⟨c, hc, ?_⟩, ?_⟩
  · rcases hcase with ⟨h, _⟩ | ⟨h, _⟩
    · exact Or.inl h
    · exact Or.inr h
  · intro n hn1 cn hcn
    rcases hn1 with rfl | hn1
    · rw [h0] at hcn
      cases hcn
      rcases hcase with ⟨_, h⟩ | ⟨_, h⟩
      · rw [h]; exact hirr _
      · exact lt_asymm_of ops hirr htr _ _ h
    · exact hn n hn1 cn hcn
  · intro k
    obtain ⟨ck, hck, hlt⟩ := iterate_findNeighborMinCurvature ops hirr htr e hcloud idx c0 h0 k
    refine ⟨c0, ck, h0, hck, ?_⟩
    rcases hlt with h | h
    · rw [h]; exact hirr _
    · exact lt_asymm_of ops hirr htr _ _ h

theorem curvature_shift_witness :
    findNeighborMinCurvature ratOps
        ((prepareForSegmentation ratOps refExt chainEngine).getD chainEngine) 0 = 1 ∧
      ∃ c, curvatureAt ((prepareForSegmentation ratOps refExt chainEngine).getD chainEngine).leaves
          (findNeighborMinCurvature ratOps
            ((prepareForSegmentation ratOps refExt chainEngine).getD chainEngine) 0) = some c ∧
        ∀ n, n = 0 ∨ n ∈ neighborsOf
            ((prepareForSegmentation ratOps refExt chainEngine).getD chainEngine).leaves 0 →
          ∀ cn, curvatureAt
              ((prepareForSegmentation ratOps refExt chainEngine).getD chainEngine).leaves n =
              some cn → ratOps.lt cn c = false :=
  ⟨by decide,
    (curvature_shift ratOps ((prepareForSegmentation ratOps refExt chainEngine).getD chainEngine) 0
      (fun a => by simp [ratOps])
      (fun a b c h1 h2 => by
        simp only [ratOps, decide_eq_true_eq] at h1 h2 ⊢
        exact lt_trans h1 h2)
      (by decide) (by decide)).2.1⟩

end Shift

section Pruning

variable {F : Type}

attribute [local semireducible] Rat.add Rat.mul Rat.sub Rat.inv

theorem sortSeedNHoods_perm (l : List SeedNHood) : (sortSeedNHoods l).Perm l :=
  List.perm_insertionSort _ l

theorem sortSeedNHoods_order (l : List SeedNHood) :
    (sortSeedNHoods l).Sorted fun a b =>
      b.num_active_ < a.num_active_ ∨
        (b.num_active_ = a.num_active_ ∧ a.seed_idx_ ≤ b.seed_idx_) := by
  haveI : IsTotal SeedNHood fun a b =>
      b.num_active_ < a.num_active_ ∨
        (b.num_active_ = a.num_active_ ∧ a.seed_idx_ ≤ b.seed_idx_) :=
    ⟨fun a b => by
      rcases lt_trichotomy a.num_active_ b.num_active_ with h | h | h
      · exact Or.inr (Or.inl h)
      · rcases le_total a.seed_idx_ b.seed_idx_ with h1 | h1
        · exact Or.inl (Or.inr ⟨h.symm, h1⟩)
        · exact Or.inr (Or.inr ⟨h, h1⟩)
      · exact Or.inl (Or.inl h)⟩
  haveI : IsTrans SeedNHood fun a b =>
      b.num_active_ < a.num_active_ ∨
        (b.num_active_ = a.num_active_ ∧ a.seed_idx_ ≤ b.seed_idx_) :=
    ⟨fun a b c hab hbc => by
      rcases hab with h1 | ⟨h1, h2⟩
      · rcases hbc with h3 | ⟨h3, _⟩
        · exact Or.inl (lt_trans h3 h1)
        · exact Or.inl (by rw [h3]; exact h1)
      · rcases hbc with h3 | ⟨h3, h4⟩
        · exact Or.inl (by rw [← h1]; exact h3)
        · exact Or.inr ⟨h3.trans h1, le_trans h2 h4⟩⟩
  exact List.sorted_insertionSort _ l

theorem sortSeedNHoods_sorted (l : List SeedNHood) :
    (sortSeedNHoods l).Sorted fun a b => b.num_active_ ≤ a.num_active_ :=
  List.Pairwise.imp (fun h => by
    rcases h with h | ⟨h, _⟩
    · exact le_of_lt h
    · exact le_of_eq h) (sortSeedNHoods_order l)

theorem pruneSeeds_step (fuel : Nat) (s : SeedNHood) (rest : List SeedNHood) :
    pruneSeeds (fuel + 1) (s :: rest) =
      if s.num_active_ > 1 then pruneSeeds fuel (pruneStep (s :: rest)) else s :: rest := rfl

theorem pruneStep_sorted (l : List SeedNHood) :
    (pruneStep l).Sorted fun a b => b.num_active_ ≤ a.num_active_ := by
  cases l with
  | nil => exact List.sorted_nil
  | cons s rest => exact sortSeedNHoods_sorted _

theorem iterate_pruneStep_sorted (l : List SeedNHood) (k : Nat) :
    (pruneStep^[k] (sortSeedNHoods l)).Sorted fun a b => b.num_active_ ≤ a.num_active_ := by
  cases k with
  | zero => exact sortSeedNHoods_sorted l
  | succ k =>
    rw [Function.iterate_succ_apply']
    exact pruneStep_sorted _

theorem iterate_pruneStep_order (l : List SeedNHood) (k : Nat) :
    (pruneStep^[k] (sortSeedNHoods l)).Sorted fun a b =>
      b.num_active_ < a.num_active_ ∨
        (b.num_active_ = a.num_active_ ∧ a.seed_idx_ ≤ b.seed_idx_) := by
  cases k with
  | zero => exact sortSeedNHoods_order l
  | succ k =>
    rw [Function.iterate_succ_apply']
    cases pruneStep^[k] (sortSeedNHoods l) with
    | nil => exact List.sorted_nil
    | cons s rest => exact sortSeedNHoods_order _

/-- C29: at every step of the pruning loop the seeds not yet removed stand sorted and the loop
removes the first of them as long as its `num_active_` is above 1: the seed removed has the
largest `num_active_` among the seeds not yet removed, and of the seeds with that `num_active_`
it is the one inserted first, with the lowest `seed_idx_`. -/
theorem pruning_order (l : List SeedNHood) (k : Nat) (s : SeedNHood)
    (h : (pruneStep^[k] (sortSeedNHoods l)).head? = some s) :
    (∀ t ∈ pruneStep^[k] (sortSeedNHoods l),
        t.num_active_ ≤ s.num_active_ ∧
          (t.num_active_ = s.num_active_ → s.seed_idx_ ≤ t.seed_idx_)) ∧
      ∀ fuel rest, pruneSeeds (fuel + 1) (s :: rest) =
        if s.num_active_ > 1 then pruneSeeds fuel (pruneStep (s :: rest)) else s :: rest := by
  refine ⟨?_, fun fuel rest => rfl⟩
  have hs := iterate_pruneStep_order l k
  cases hl : pruneStep^[k] (sortSeedNHoods l) with
  | nil => rw [hl] at h; simp at h
  | cons a rest =>
    rw [hl] at h hs
    simp only [List.head?_cons, Option.some.injEq] at h
    subst h
    intro t ht
    rcases List.mem_cons.1 ht with rfl | ht
    · exact ⟨le_refl _, fun _ => le_refl _⟩
    · rcases List.rel_of_sorted_cons hs t ht with h1 | ⟨h1, h2⟩
      · exact ⟨le_of_lt h1, fun he => absurd he (ne_of_lt h1)⟩
      · exact ⟨le_of_eq h1, fun _ => h2⟩

theorem pruning_order_witness :
    lineNHoods.map (fun s => (s.seed_idx_, s.num_active_)) =
        [(2, 4), (1, 3), (4, 3), (5, 3), (0, 2), (3, 2), (6, 2)] ∧
      (pruneStep^[1] (sortSeedNHoods (seedNHoods refExt lineCloud lineCloud 1
          (List.range 7)))).head? =
        some { neighbor_indices_ := [0, 6], voxel_idx_ := 0, seed_idx_ := 0, num_active_ := 2 } ∧
      (pruneStep^[1] (sortSeedNHoods (seedNHoods refExt lineCloud lineCloud 1
          (List.range 7)))).map (fun s => (s.seed_idx_, s.num_active_)) =
        [(0, 2), (1, 2), (3, 2), (4, 2), (5, 2), (6, 2)] ∧
      ∀ t ∈ pruneStep^[1] (sortSeedNHoods (seedNHoods refExt lineCloud lineCloud 1 (List.range 7))),
        t.num_active_ ≤ 2 ∧ (t.num_active_ = 2 → 0 ≤ t.seed_idx_) :=
  ⟨by decide, by decide, by decide,
    (pruning_order (seedNHoods refExt lineCloud lineCloud 1 (List.range 7)) 1
      { neighbor_indices_ := [0, 6], voxel_idx_ := 0, seed_idx_ := 0, num_active_ := 2 }
      (by decide)).1⟩

theorem pruneInv_perm (l1 l2 : List SeedNHood) (hp : l1.Perm l2) (h : PruneInv l2) :
    PruneInv l1 := by
  obtain ⟨h1, h2⟩ := h
  have hm : (l1.map (·.seed_idx_)).Perm (l2.map (·.seed_idx_)) := hp.map _
  refine ⟨hm.nodup_iff.2 h1, ?_⟩
  intro t ht
  have := h2 t (hp.mem_iff.1 ht)
  rw [(hm.filter _).length_eq]
  exact this

theorem pruneInv_tail (s : SeedNHood) (rest : List SeedNHood) (h : PruneInv (s :: rest)) :
    PruneInv (rest.map fun t =>
      if s.seed_idx_ ∈ t.neighbor_indices_ then { t with num_active_ := t.num_active_ - 1 }
      else t) := by
  obtain ⟨h1, h2⟩ := h
  have hids : (rest.map fun t =>
      if s.seed_idx_ ∈ t.neighbor_indices_ then { t with num_active_ := t.num_active_ - 1 }
      else t).map (·.seed_idx_) = rest.map (·.seed_idx_) := by
    rw [List.map_map]
    apply List.map_congr_left
    intro t _
    simp only [Function.comp]
    split_ifs <;> rfl
  refine ⟨?_, ?_⟩
  · rw [hids]
    exact (List.nodup_cons.1 h1).2
  · intro t1 ht1
    rw [hids]
    obtain ⟨t, ht, rfl⟩ := List.mem_map.1 ht1
    have hc := h2 t (List.mem_cons_of_mem _ ht)
    simp only [List.map_cons, List.filter_cons] at hc
    by_cases hm : s.seed_idx_ ∈ t.neighbor_indices_
    · simp only [hm, decide_True, if_true, List.length_cons, Nat.cast_add, Nat.cast_one] at hc ⊢
      omega
    · simp only [hm, decide_False, if_false, Bool.false_eq_true] at hc ⊢
      exact hc

theorem pruneStep_inv (l : List SeedNHood) (h : PruneInv l) : PruneInv (pruneStep l) := by
  cases l with
  | nil => exact h
  | cons s rest => exact pruneInv_perm _ _ (sortSeedNHoods_perm _) (pruneInv_tail s rest h)

theorem pruneStep_origin (l : List SeedNHood) :
    ∀ t ∈ pruneStep l, ∃ t0 ∈ l, t.seed_idx_ = t0.seed_idx_ ∧ t.voxel_idx_ = t0.voxel_idx_ ∧
      t.neighbor_indices_ = t0.neighbor_indices_ := by
  cases l with
  | nil => intro t ht; simp [pruneStep] at ht
  | cons s rest =>
    intro t ht
    have ht1 := (sortSeedNHoods_perm _).mem_iff.1 ht
    obtain ⟨t0, ht0, rfl⟩ := List.mem_map.1 ht1
    refine ⟨t0, List.mem_cons_of_mem _ ht0, ?_⟩
    split_ifs <;> exact ⟨rfl, rfl, rfl⟩

theorem pruneStep_length (s : SeedNHood) (rest : List SeedNHood) :
    (pruneStep (s :: rest)).length = rest.length := by
  have h := (sortSeedNHoods_perm (rest.map fun t =>
      if s.seed_idx_ ∈ t.neighbor_indices_ then { t with num_active_ := t.num_active_ - 1 }
      else t)).length_eq
  rw [List.length_map] at h
  exact h

theorem pruneSeeds_spec (fuel : Nat) (l : List SeedNHood) (hinv : PruneInv l)
    (hs : l.Sorted fun a b => b.num_active_ ≤ a.num_active_) (hlen : l.length ≤ fuel) :
    PruneInv (pruneSeeds fuel l) ∧ (∀ t ∈ pruneSeeds fuel l, t.num_active_ ≤ 1) ∧
      ∀ t ∈ pruneSeeds fuel l, ∃ t0 ∈ l, t.seed_idx_ = t0.seed_idx_ ∧
        t.voxel_idx_ = t0.voxel_idx_ ∧ t.neighbor_indices_ = t0.neighbor_indices_ := by
  induction fuel generalizing l with
  | zero =>
    have hnil : l = [] := List.length_eq_zero.1 (Nat.le_zero.1 hlen)
    subst hnil
    refine ⟨hinv, ?_, ?_⟩ <;> intro t ht <;> simp [pruneSeeds] at ht
  | succ fuel ih =>
    cases l with
    | nil => refine ⟨hinv, ?_, ?_⟩ <;> intro t ht <;> simp [pruneSeeds] at ht
    | cons s rest =>
      rw [pruneSeeds_step]
      by_cases hgt : s.num_active_ > 1
      · rw [if_pos hgt]
        have hlen1 : (pruneStep (s :: rest)).length ≤ fuel := by
          rw [pruneStep_length]
          simpa using hlen
        obtain ⟨i1, i2, i3⟩ := ih (pruneStep (s :: rest)) (pruneStep_inv _ hinv)
          (pruneStep_sorted _) hlen1
        refine ⟨i1, i2, ?_⟩
        intro t ht
        obtain ⟨t1, ht1, e1, e2, e3⟩ := i3 t ht
        obtain ⟨t0, ht0, f1, f2, f3⟩ := pruneStep_origin _ t1 ht1
        exact ⟨t0, ht0, e1.trans f1, e2.trans f2, e3.trans f3⟩
      · rw [if_neg hgt]
        refine ⟨hinv, ?_, fun t ht => ⟨t, ht, rfl, rfl, rfl⟩⟩
        intro t ht
        rcases List.mem_cons.1 ht with rfl | ht
        · exact not_lt.1 hgt
        · exact le_trans (List.rel_of_sorted_cons hs t ht) (not_lt.1 hgt)

theorem two_le_filter_length (ids : List Nat) (p : Nat → Bool) (a b : Nat) (ha : a ∈ ids)
    (hb : b ∈ ids) (hab : a ≠ b) (hpa : p a = true) (hpb : p b = true) :
    2 ≤ (ids.filter p).length := by
  have hsub : [a, b] ⊆ ids.filter p := by
    intro x hx
    simp only [List.mem_cons, List.mem_singleton, List.not_mem_nil, or_false] at hx
    rcases hx with rfl | rfl
    · exact List.mem_filter.2 ⟨ha, hpa⟩
    · exact List.mem_filter.2 ⟨hb, hpb⟩
  have hnd : [a, b].Nodup := by simp [hab]
  exact (List.subperm_of_subset hnd hsub).length_le

theorem survivors_apart (l : List SeedNHood) (hinv : PruneInv l)
    (hone : ∀ t ∈ l, t.num_active_ ≤ 1) (hself : ∀ t ∈ l, t.seed_idx_ ∈ t.neighbor_indices_) :
    ∀ t ∈ l, ∀ u ∈ l, u.seed_idx_ ∈ t.neighbor_indices_ → u.seed_idx_ = t.seed_idx_ := by
  intro t ht u hu hut
  by_contra hne
  have h2 := two_le_filter_length (l.map (·.seed_idx_))
    (fun i => decide (i ∈ t.neighbor_indices_)) u.seed_idx_ t.seed_idx_
    (List.mem_map.2 ⟨u, hu, rfl⟩) (List.mem_map.2 ⟨t, ht, rfl⟩) hne
    (by simpa using hut) (by simpa using hself t ht)
  have h3 := hinv.2 t ht
  have h4 := hone t ht
  omega

theorem mem_seedNHoods (X : Ext F) (cloud sc : List (Voxel F)) (radius : F) (seeds : List Nat)
    (t : SeedNHood) (ht : t ∈ seedNHoods X cloud sc radius seeds) :
    seeds[t.seed_idx_]? = some t.voxel_idx_ ∧
      (t.num_active_ = (t.neighbor_indices_.length : Int)) ∧
      ∀ q, cloud[t.voxel_idx_]? = some q →
        ∀ x, x ∈ t.neighbor_indices_ ↔ x ∈ X.radiusSearch sc q radius := by
  unfold seedNHoods at ht
  obtain ⟨p, hp, rfl⟩ := List.mem_map.1 ht
  refine ⟨List.mem_enum_iff_getElem?.1 hp, rfl, ?_⟩
  intro q hq x
  simp only [hq]
  exact (List.perm_insertionSort _ _).mem_iff

theorem seedNHoods_ids (X : Ext F) (cloud sc : List (Voxel F)) (radius : F) (seeds : List Nat) :
    (seedNHoods X cloud sc radius seeds).map (·.seed_idx_) = List.range seeds.length := by
  unfold seedNHoods
  rw [List.map_map, ← List.enum_map_fst]
  rfl

theorem seedNHoods_inv (X : Ext F) (cloud sc : List (Voxel F)) (radius : F) (seeds : List Nat) :
    PruneInv (seedNHoods X cloud sc radius seeds) := by
  refine ⟨?_, ?_⟩
  · rw [seedNHoods_ids]
    exact List.nodup_range _
  · intro t ht
    rw [seedNHoods_ids, (mem_seedNHoods X cloud sc radius seeds t ht).2.1]
    have hnd : ((List.range seeds.length).filter fun i =>
        decide (i ∈ t.neighbor_indices_)).Nodup := (List.nodup_range _).filter _
    have hsub : ((List.range seeds.length).filter fun i =>
        decide (i ∈ t.neighbor_indices_)) ⊆ t.neighbor_indices_ := by
      intro x hx
      simpa using (List.mem_filter.1 hx).2
    exact_mod_cast (List.subperm_of_subset hnd hsub).length_le

theorem selectInitialSupervoxelSeeds_pruned (ops : FloatOps F) (X : Ext F) (e : Engine F)
    (hp : e.prune_close_seeds_ = true) :
    selectInitialSupervoxelSeeds ops X e =
      (pruneSeeds (shiftedSeeds ops X e).length
        (sortSeedNHoods (seedNHoods X e.voxel_centroid_cloud_
          ((shiftedSeeds ops X e).filterMap fun idx => e.voxel_centroid_cloud_[idx]?)
          (ops.div e.seed_resolution_ (ops.ofRat 2)) (shiftedSeeds ops X e)))).map
        (·.voxel_idx_) := by
  unfold selectInitialSupervoxelSeeds
  simp only [hp, Bool.not_true, Bool.false_eq_true, if_false, List.length_map, List.enum_length]
  rfl

/-- C28: with `prune_close_seeds_` set, when every shifted seed is a voxel of the centroid
cloud and the radius search around it finds the seed itself, the seed indices returned by
`selectInitialSupervoxelSeeds` are pairwise distinct; they are the voxels of a list `kept` of
positions in the seed cloud such that the radius search (radius R/2) around a seed of `kept`
finds no other seed of `kept`. -/
theorem pruned_seeds_apart (ops : FloatOps F) (X : Ext F) (e : Engine F)
    (hp : e.prune_close_seeds_ = true)
    (hself : ∀ i v, (shiftedSeeds ops X e)[i]? = some v →
      ∃ q, e.voxel_centroid_cloud_[v]? = some q ∧
        i ∈ X.radiusSearch
          ((shiftedSeeds ops X e).filterMap fun idx => e.voxel_centroid_cloud_[idx]?) q
          (ops.div e.seed_resolution_ (ops.ofRat 2))) :
    (selectInitialSupervoxelSeeds ops X e).Nodup ∧
      ∃ kept : List Nat, kept.Nodup ∧
        selectInitialSupervoxelSeeds ops X e =
          kept.filterMap (fun i => (shiftedSeeds ops X e)[i]?) ∧
        ∀ i ∈ kept, ∀ j ∈ kept, ∀ v q, (shiftedSeeds ops X e)[i]? = some v →
          e.voxel_centroid_cloud_[v]? = some q →
          j ∈ X.radiusSearch
            ((shiftedSeeds ops X e).filterMap fun idx => e.voxel_centroid_cloud_[idx]?) q
            (ops.div e.seed_resolution_ (ops.ofRat 2)) → j = i := by
  rw [selectInitialSupervoxelSeeds_pruned ops X e hp]
  generalize hsc : ((shiftedSeeds ops X e).filterMap fun idx => e.voxel_centroid_cloud_[idx]?) =
    sc at hself ⊢
  generalize hrad : ops.div e.seed_resolution_ (ops.ofRat 2) = radius at hself ⊢
  generalize hseeds : shiftedSeeds ops X e = seeds at hself ⊢
  have h0 := seedNHoods_inv X e.voxel_centroid_cloud_ sc radius seeds
  have hlen : (sortSeedNHoods (seedNHoods X e.voxel_centroid_cloud_ sc radius seeds)).length ≤
      seeds.length := by
    rw [(sortSeedNHoods_perm _).length_eq]
    have := congrArg List.length (seedNHoods_ids X e.voxel_centroid_cloud_ sc radius seeds)
    simp only [List.length_map, List.length_range] at this
    exact le_of_eq this
  obtain ⟨i1, i2, i3⟩ := pruneSeeds_spec seeds.length _
    (pruneInv_perm _ _ (sortSeedNHoods_perm _) h0) (sortSeedNHoods_sorted _) hlen
  generalize pruneSeeds seeds.length
    (sortSeedNHoods (seedNHoods X e.voxel_centroid_cloud_ sc radius seeds)) = final at i1 i2 i3 ⊢
  have horig : ∀ t ∈ final, seeds[t.seed_idx_]? = some t.voxel_idx_ ∧
      ∀ q, e.voxel_centroid_cloud_[t.voxel_idx_]? = some q →
        ∀ x, x ∈ t.neighbor_indices_ ↔ x ∈ X.radiusSearch sc q radius := by
    intro t ht
    obtain ⟨t0, ht0, e1, e2, e3⟩ := i3 t ht
    obtain ⟨m1, _, m3⟩ := mem_seedNHoods X e.voxel_centroid_cloud_ sc radius seeds t0
      ((sortSeedNHoods_perm _).mem_iff.1 ht0)
    rw [e1, e2, e3]
    exact ⟨m1, m3⟩
  have hselfn : ∀ t ∈ final, t.seed_idx_ ∈ t.neighbor_indices_ := by
    intro t ht
    obtain ⟨o1, o2⟩ := horig t ht
    obtain ⟨q, hq, hi⟩ := hself _ _ o1
    exact (o2 q hq _).2 hi
  have hapart := survivors_apart final i1 i2 hselfn
  have hinj : ∀ t ∈ final, ∀ u ∈ final, t.voxel_idx_ = u.voxel_idx_ → t = u := by
    intro t ht u hu htu
    obtain ⟨o1, o2⟩ := horig t ht
    obtain ⟨p1, p2⟩ := horig u hu
    obtain ⟨q, hq, _⟩ := hself _ _ o1
    have hmem : u.seed_idx_ ∈ t.neighbor_indices_ := by
      rw [o2 q hq, ← p2 q (by rw [← htu]; exact hq)]
      exact hselfn u hu
    have hid := hapart t ht u hu hmem
    exact (List.inj_on_of_nodup_map i1.1 hu ht hid).symm
  refine ⟨?_, final.map (·.seed_idx_), i1.1, ?_, ?_⟩
  · exact List.Nodup.map_on hinj (List.Nodup.of_map _ i1.1)
  · rw [List.filterMap_map]
    rw [← List.filterMap_eq_map]
    apply List.filterMap_congr
    intro t ht
    simp only [Function.comp]
    exact ((horig t ht).1).symm
  · intro i hi j hj v q hv hq hjn
    obtain ⟨t, ht, rfl⟩ := List.mem_map.1 hi
    obtain ⟨u, hu, rfl⟩ := List.mem_map.1 hj
    obtain ⟨o1, o2⟩ := horig t ht
    rw [o1] at hv
    cases hv
    exact hapart t ht u hu ((o2 q hq _).2 hjn)

theorem pruned_seeds_apart_witness :
    ((prepareForSegmentation stepOps refExt pairEngine).getD pairEngine).prune_close_seeds_ = true ∧
      (selectInitialSupervoxelSeeds stepOps refExt
        ((prepareForSegmentation stepOps refExt pairEngine).getD pairEngine)).Nodup :=
  ⟨by decide,
    (pruned_seeds_apart stepOps refExt
      ((prepareForSegmentation stepOps refExt pairEngine).getD pairEngine) (by decide)
      (by
        have hs : shiftedSeeds stepOps refExt
            ((prepareForSegmentation stepOps refExt pairEngine).getD pairEngine) = [1, 1, 2] := by
          decide
        rw [hs]
        intro i v h
        match i, h with
        | 0, h =>
          simp only [List.getElem?_cons_zero, Option.some.injEq] at h
          subst h
          exact ⟨axisPoint (3 / 2) 0, by decide, by decide⟩
        | 1, h =>
          simp only [List.getElem?_cons_succ, List.getElem?_cons_zero, Option.some.injEq] at h
          subst h
          exact ⟨axisPoint (3 / 2) 0, by decide, by decide⟩
        | 2, h =>
          simp only [List.getElem?_cons_succ, List.getElem?_cons_zero, Option.some.injEq] at h
          subst h
          exact ⟨axisPoint (5 / 2) 0, by decide, by decide⟩
        | n + 3, h => simp at h)).1⟩

end Pruning

section CloudInv

variable {F : Type}

theorem storeCentroid_cloud (e : Engine F) (idx : Nat) (c : Voxel F)
    (h : e.voxel_centroid_cloud_ = e.leaves.map (·.voxel_centroid_)) :
    (storeCentroid e idx c).voxel_centroid_cloud_ =
      (storeCentroid e idx c).leaves.map (·.voxel_centroid_) := by
  unfold storeCentroid
  cases hi : e.leaves[idx]? with
  | none => exact h
  | some l =>
    simp only
    rw [h]
    apply List.ext_getElem?
    intro n
    simp only [List.getElem?_map, List.getElem?_set, List.length_map]
    by_cases hin : idx = n
    · subst hin
      by_cases hlt : idx < e.leaves.length <;> simp [hlt]
    · simp [hin]

theorem computeLeafNormal_cloud (X : Ext F) (e : Engine F) (idx : Nat)
    (h : e.voxel_centroid_cloud_ = e.leaves.map (·.voxel_centroid_)) :
    (computeLeafNormal X e idx).voxel_centroid_cloud_ =
      (computeLeafNormal X e idx).leaves.map (·.voxel_centroid_) := by
  unfold computeLeafNormal
  cases e.leaves[idx]? with
  | none => exact h
  | some l => exact storeCentroid_cloud _ _ _ h

theorem computeVoxelData_cloud (X : Ext F) (e : Engine F) :
    (computeVoxelData X e).voxel_centroid_cloud_ =
      (computeVoxelData X e).leaves.map (·.voxel_centroid_) := by
  have key : ∀ (ls : List Nat) (e0 : Engine F),
      e0.voxel_centroid_cloud_ = e0.leaves.map (·.voxel_centroid_) →
      (ls.foldl (computeLeafNormal X) e0).voxel_centroid_cloud_ =
        (ls.foldl (computeLeafNormal X) e0).leaves.map (·.voxel_centroid_) := by
    intro ls
    induction ls with
    | nil => intro e0 h0; exact h0
    | cons a t ih => intro e0 h0; exact ih _ (computeLeafNormal_cloud X e0 a h0)
  unfold computeVoxelData
  simp only
  split_ifs
  · exact key _ _ rfl
  · rfl

theorem prepareForSegmentation_cloud (ops : FloatOps F) (X : Ext F) (e e1 : Engine F)
    (h : prepareForSegmentation ops X e = some e1) :
    e1.voxel_centroid_cloud_ = e1.leaves.map (·.voxel_centroid_) := by
  unfold prepareForSegmentation at h
  cases hin : e.input_ with
  | none => rw [hin] at h; simp at h
  | some cloud =>
    rw [hin] at h
    simp only at h
    split_ifs at h
    simp only [Option.some.injEq] at h
    rw [← h]
    exact computeVoxelData_cloud X _

end CloudInv

section Colours

variable {F : Type}

attribute [local semireducible] Rat.add Rat.mul Rat.sub Rat.inv

theorem foldl_maxLabel (hs : List (SupervoxelHelper F)) (acc : Nat) :
    acc ≤ hs.foldl (fun max_label h => if h.label_ > max_label then h.label_ else max_label) acc ∧
      ∀ h ∈ hs, h.label_ ≤
        hs.foldl (fun max_label h => if h.label_ > max_label then h.label_ else max_label) acc := by
  induction hs generalizing acc with
  | nil => exact ⟨le_refl _, fun h hh => absurd hh (List.not_mem_nil h)⟩
  | cons a t ih =>
    rw [List.foldl_cons]
    obtain ⟨i1, i2⟩ := ih (if a.label_ > acc then a.label_ else acc)
    refine ⟨le_trans ?_ i1, ?_⟩
    · split_ifs with h
      · exact le_of_lt h
      · exact le_refl _
    · intro h hh
      rcases List.mem_cons.1 hh with rfl | hh
      · refine le_trans ?_ i1
        split_ifs with h1
        · exact le_refl _
        · exact not_lt.1 h1
      · exact i2 h hh

theorem label_le_getMaxLabel (e : Engine F) :
    ∀ h ∈ e.supervoxel_helpers_, h.label_ ≤ getMaxLabel e :=
  (foldl_maxLabel e.supervoxel_helpers_ 0).2

theorem initializeLabelColors_spec (X : Ext F) (e : Engine F) :
    (initializeLabelColors X e).supervoxel_helpers_ = e.supervoxel_helpers_ ∧
      (initializeLabelColors X e).leaves = e.leaves ∧
      getMaxLabel e < (initializeLabelColors X e).label_colors_.length ∧
      e.label_colors_ <+: (initializeLabelColors X e).label_colors_ := by
  unfold initializeLabelColors
  simp only
  split_ifs with h
  · exact ⟨rfl, rfl, h, List.prefix_refl _⟩
  · refine ⟨rfl, rfl, ?_, List.prefix_append _ _⟩
    simp only [List.length_append, List.length_map, List.length_range']
    omega

theorem collectSome_isSome {α : Type} (l : List (Option α)) (h : ∀ o ∈ l, o.isSome = true) :
    (collectSome l).isSome = true := by
  obtain ⟨out, h1, _⟩ := collectSome_spec l (fun o ho hn => by
    have := h o ho
    rw [hn] at this
    simp at this)
  rw [h1]; rfl

/-- C40: after `makeSupervoxels` the table `label_colors_` has more entries than
`getMaxLabel`, which is 0 without helper and at least the label of every helper, so the lookups of
`getColoredVoxelCloud` succeed, and so does every lookup of `getColoredCloud` at a point for
which the loop of `getLabeledCloud` succeeds, when every owner pointer points to a helper of the
list; the table `initializeLabelColors` leaves starts with the table it found. -/
theorem label_colors_bounds (X : Ext F) (e : Engine F) :
    getMaxLabel (makeSupervoxels X e).1 < (makeSupervoxels X e).1.label_colors_.length ∧
      (e.supervoxel_helpers_ = [] → getMaxLabel e = 0) ∧
      (∀ h ∈ (makeSupervoxels X e).1.supervoxel_helpers_,
        h.label_ < (makeSupervoxels X e).1.label_colors_.length) ∧
      (getColoredVoxelCloud (makeSupervoxels X e).1).isSome = true ∧
      (OwnerLive e.leaves e.supervoxel_helpers_ →
        ∀ (ops : FloatOps F) (cloud : List (Voxel F)) (p : Voxel F),
          (labelPoint ops X (makeSupervoxels X e).1 cloud p).isSome = true →
          (colorPoint ops X (makeSupervoxels X e).1 cloud p).isSome = true) ∧
      e.label_colors_ <+: (initializeLabelColors X e).label_colors_ := by
  have hmk : (makeSupervoxels X e).1 = initializeLabelColors X e := rfl
  obtain ⟨s1, s2, s3, s4⟩ := initializeLabelColors_spec X e
  have hmax : getMaxLabel (initializeLabelColors X e) = getMaxLabel e := by
    unfold getMaxLabel
    rw [s1]
  have hlab : ∀ h ∈ (initializeLabelColors X e).supervoxel_helpers_,
      h.label_ < (initializeLabelColors X e).label_colors_.length := by
    intro h hh
    rw [s1] at hh
    exact lt_of_le_of_lt (label_le_getMaxLabel e h hh) s3
  rw [hmk]
  refine ⟨by rw [hmax]; exact s3, fun hnil => by unfold getMaxLabel; rw [hnil]; rfl, hlab, ?_, ?_,
    s4⟩
  · unfold getColoredVoxelCloud
    rw [Option.isSome_map']
    apply collectSome_isSome
    intro o ho
    obtain ⟨h, hh, rfl⟩ := List.mem_map.1 ho
    apply collectSome_isSome
    intro o1 ho1
    obtain ⟨v, _, rfl⟩ := List.mem_map.1 ho1
    rw [Option.isSome_map', List.getElem?_eq_getElem (hlab h hh)]
    rfl
  · intro hlive ops cloud p hp
    unfold labelPoint at hp
    unfold colorPoint
    split_ifs at hp ⊢ with hf
    · rfl
    · cases hleaf : X.getLeafContainerAtPoint
          (initializeLabelColors X e).use_single_camera_transform_
          (initializeLabelColors X e).octree_resolution_ cloud p with
      | none => rw [hleaf] at hp; simp at hp
      | some i =>
        simp only
        cases hl : (initializeLabelColors X e).leaves[i]? with
        | none => rw [hleaf] at hp; simp [hl] at hp
        | some leaf =>
          simp only
          cases ho : leaf.owner_ with
          | none => rfl
          | some o =>
            simp only
            rw [s2] at hl
            obtain ⟨h, hh, hla, _⟩ := hlive i leaf hl o ho
            have hb := hlab h (by rw [s1]; exact hh)
            rw [hla] at hb
            rw [Option.isSome_map', List.getElem?_eq_getElem hb]
            rfl

end Colours

section Ties

variable {F : Type}

attribute [local semireducible] Rat.add Rat.mul Rat.sub Rat.inv

/-- C31 (the claim fails): in the chain of three voxels the leaves 1 and 2 both have the
curvature 0, the least there is, and the leaf 1 is a neighbour of the leaf 2; shifting the seed
2 returns 2, not the smaller index 1. -/
theorem curvature_tie_keeps_seed :
    findNeighborMinCurvature ratOps
        ((prepareForSegmentation ratOps refExt chainEngine).getD chainEngine) 2 = 2 ∧
      curvatureAt ((prepareForSegmentation ratOps refExt chainEngine).getD chainEngine).leaves 1 =
        some 0 ∧
      curvatureAt ((prepareForSegmentation ratOps refExt chainEngine).getD chainEngine).leaves 2 =
        some 0 ∧
      neighborsOf ((prepareForSegmentation ratOps refExt chainEngine).getD chainEngine).leaves 2 =
        [1] := by
  refine ⟨by decide, by decide, by decide, by decide⟩

theorem foldl_firstMin (ops : FloatOps F)
    (htr : ∀ a b c, ops.lt a b = true → ops.lt b c = true → ops.lt a c = true)
    (hneg : ∀ a b c, ops.lt a b = false → ops.lt b c = false → ops.lt a c = false)
    (leaves : List (Leaf F)) (ns : List Nat) (acc : Nat × F) :
    (ns.foldl
        (fun (acc : Nat × F) n =>
          match leaves[n]? with
          | none => acc
          | some nb =>
            if ops.lt nb.voxel_centroid_.curvature acc.2 then (n, nb.voxel_centroid_.curvature)
            else acc) acc = acc ∧
        ∀ n ∈ ns, ∀ cn, curvatureAt leaves n = some cn → ops.lt cn acc.2 = false) ∨
      ∃ pre post, ns = pre ++ (ns.foldl
        (fun (acc : Nat × F) n =>
          match leaves[n]? with
          | none => acc
          | some nb =>
            if ops.lt nb.voxel_centroid_.curvature acc.2 then (n, nb.voxel_centroid_.curvature)
            else acc) acc).1 :: post ∧
        ops.lt (ns.foldl
          (fun (acc : Nat × F) n =>
            match leaves[n]? with
            | none => acc
            | some nb =>
              if ops.lt nb.voxel_centroid_.curvature acc.2 then (n, nb.voxel_centroid_.curvature)
              else acc) acc).2 acc.2 = true ∧
        ∀ n ∈ pre, ∀ cn, curvatureAt leaves n = some cn →
          ops.lt (ns.foldl
            (fun (acc : Nat × F) n =>
              match leaves[n]? with
              | none => acc
              | some nb =>
                if ops.lt nb.voxel_centroid_.curvature acc.2 then
                  (n, nb.voxel_centroid_.curvature)
                else acc) acc).2 cn = true := by
  induction ns generalizing acc with
  | nil => exact Or.inl ⟨rfl, fun n hn => absurd hn (List.not_mem_nil n)⟩
  | cons n t ih =>
    rw [List.foldl_cons]
    cases hn : leaves[n]? with
    | none =>
      simp only
      rcases ih acc with ⟨h1, h2⟩ | ⟨pre, post, h1, h2, h3⟩
      · left
        refine ⟨h1, ?_⟩
        intro m hm cm hcm
        rcases List.mem_cons.1 hm with rfl | hm
        · simp [curvatureAt, hn] at hcm
        · exact h2 m hm cm hcm
      · right
        refine ⟨n :: pre, post, by rw [List.cons_append, ← h1], h2, ?_⟩
        intro m hm cm hcm
        rcases List.mem_cons.1 hm with rfl | hm
        · simp [curvatureAt, hn] at hcm
        · exact h3 m hm cm hcm
    | some nb =>
      simp only
      by_cases hlt : ops.lt nb.voxel_centroid_.curvature acc.2 = true
      · simp only [hlt, if_true]
        right
        rcases ih (n, nb.voxel_centroid_.curvature) with ⟨h1, _⟩ | ⟨pre, post, h1, h2, h3⟩
        · refine ⟨[], t, ?_, ?_, ?_⟩
          · rw [h1]; rfl
          · rw [h1]; exact hlt
          · intro m hm; exact absurd hm (List.not_mem_nil m)
        · refine ⟨n :: pre, post, by rw [List.cons_append, ← h1], htr _ _ _ h2 hlt, ?_⟩
          intro m hm cm hcm
          rcases List.mem_cons.1 hm with rfl | hm
          · simp only [curvatureAt, hn, Option.map_some', Option.some.injEq] at hcm
            rw [← hcm]
            exact h2
          · exact h3 m hm cm hcm
      · have hlt2 : ops.lt nb.voxel_centroid_.curvature acc.2 = false := by
          simpa using hlt
        simp only [hlt2, Bool.false_eq_true, if_false]
        rcases ih acc with ⟨h1, h2⟩ | ⟨pre, post, h1, h2, h3⟩
        · left
          refine ⟨h1, ?_⟩
          intro m hm cm hcm
          rcases List.mem_cons.1 hm with rfl | hm
          · simp only [curvatureAt, hn, Option.map_some', Option.some.injEq] at hcm
            rw [← hcm]
            exact hlt2
          · exact h2 m hm cm hcm
        · right
          refine ⟨n :: pre, post, by rw [List.cons_append, ← h1], h2, ?_⟩
          intro m hm cm hcm
          rcases List.mem_cons.1 hm with rfl | hm
          · simp only [curvatureAt, hn, Option.map_some', Option.some.injEq] at hcm
            rw [← hcm]
            cases hx : ops.lt _ nb.voxel_centroid_.curvature with
            | true => rfl
            | false =>
              have := hneg _ _ _ hx hlt2
              rw [h2] at this
              exact absurd this (by simp)
          · exact h3 m hm cm hcm

/-- C31 (amended): when `<` on curvatures is a strict weak order and the centroid cloud holds
the voxels of the leaves, `findNeighborMinCurvature` returns the first voxel that attains the
least curvature in the order in which the loop meets them, `idx` first and then the neighbours in
the order of the neighbour list of the leaf: it returns `idx` when no neighbour has a smaller
curvature than `idx`, and otherwise a neighbour with a smaller curvature than `idx` before which
the neighbour list holds only voxels of larger curvature. -/
theorem curvature_tie_first_met (ops : FloatOps F) (e : Engine F) (idx : Nat) (c0 : F)
    (htr : ∀ a b c, ops.lt a b = true → ops.lt b c = true → ops.lt a c = true)
    (hneg : ∀ a b c, ops.lt a b = false → ops.lt b c = false → ops.lt a c = false)
    (hcloud : e.voxel_centroid_cloud_ = e.leaves.map (·.voxel_centroid_))
    (h0 : curvatureAt e.leaves idx = some c0) :
    (findNeighborMinCurvature ops e idx = idx ∧
        ∀ n ∈ neighborsOf e.leaves idx, ∀ cn, curvatureAt e.leaves n = some cn →
          ops.lt cn c0 = false) ∨
      ∃ pre post c, neighborsOf e.leaves idx = pre ++ findNeighborMinCurvature ops e idx :: post ∧
        curvatureAt e.leaves (findNeighborMinCurvature ops e idx) = some c ∧
        ops.lt c c0 = true ∧
        ∀ n ∈ pre, ∀ cn, curvatureAt e.leaves n = some cn → ops.lt c cn = true := by
  obtain ⟨l, hl, hc⟩ : ∃ l, e.leaves[idx]? = some l ∧ l.voxel_centroid_.curvature = c0 := by
    unfold curvatureAt at h0
    cases hl : e.leaves[idx]? with
    | none => rw [hl] at h0; simp at h0
    | some l => rw [hl] at h0; exact ⟨l, rfl, by simpa using h0⟩
  have hp : e.voxel_centroid_cloud_[idx]? = some l.voxel_centroid_ := by
    rw [hcloud, List.getElem?_map, hl]; rfl
  have hfold : findNeighborMinCurvature ops e idx =
      ((neighborsOf e.leaves idx).foldl
        (fun (acc : Nat × F) n =>
          match e.leaves[n]? with
          | none => acc
          | some nb =>
            if ops.lt nb.voxel_centroid_.curvature acc.2 then (n, nb.voxel_centroid_.curvature)
            else acc) (idx, l.voxel_centroid_.curvature)).1 := by
    unfold findNeighborMinCurvature
    simp only [hp]
  rcases foldl_firstMin ops htr hneg e.leaves (neighborsOf e.leaves idx)
      (idx, l.voxel_centroid_.curvature) with ⟨h1, h2⟩ | ⟨pre, post, h1, h2, h3⟩
  · left
    refine ⟨by rw [hfold, h1], ?_⟩
    intro n hn cn hcn
    rw [← hc]
    exact h2 n hn cn hcn
  · right
    rw [← hfold] at h1
    refine ⟨pre, post, _, h1, ?_, by rw [← hc]; exact h2, h3⟩
    rw [hfold]
    have hirrfree : ∀ (ns : List Nat) (acc : Nat × F), curvatureAt e.leaves acc.1 = some acc.2 →
        curvatureAt e.leaves (ns.foldl
          (fun (acc : Nat × F) n =>
            match e.leaves[n]? with
            | none => acc
            | some nb =>
              if ops.lt nb.voxel_centroid_.curvature acc.2 then
                (n, nb.voxel_centroid_.curvature)
              else acc) acc).1 = some (ns.foldl
          (fun (acc : Nat × F) n =>
            match e.leaves[n]? with
            | none => acc
            | some nb =>
              if ops.lt nb.voxel_centroid_.curvature acc.2 then
                (n, nb.voxel_centroid_.curvature)
              else acc) acc).2 := by
      intro ns
      induction ns with
      | nil => intro acc ha; exact ha
      | cons n t ih =>
        intro acc ha
        rw [List.foldl_cons]
        apply ih
        cases hn : e.leaves[n]? with
        | none => exact ha
        | some nb =>
          simp only
          split_ifs
          · simp [curvatureAt, hn]
          · exact ha
    exact hirrfree _ _ (by rw [hc]; exact h0)

theorem curvature_tie_first_met_witness :
    curvatureAt ((prepareForSegmentation ratOps refExt chainEngine).getD chainEngine).leaves 2 =
        some 0 ∧
      findNeighborMinCurvature ratOps
        ((prepareForSegmentation ratOps refExt chainEngine).getD chainEngine) 2 = 2 :=
  ⟨by decide, by
    rcases curvature_tie_first_met ratOps
      ((prepareForSegmentation ratOps refExt chainEngine).getD chainEngine) 2 0
      (fun a b c h1 h2 => by
        simp only [ratOps, decide_eq_true_eq] at h1 h2 ⊢
        exact lt_trans h1 h2)
      (fun a b c h1 h2 => by
        simp only [ratOps, decide_eq_false_iff_not, not_lt] at h1 h2 ⊢
        exact le_trans h2 h1)
      (by decide) (by decide) with h | ⟨_, _, _, _, _, _, _⟩
    · exact h.1
    · decide⟩

end Ties

section Degenerate

variable {F : Type}

attribute [local semireducible] Rat.add Rat.mul Rat.sub Rat.inv

/-- C33 (code at the failing input): on a cloud of one point with the input normals ignored,
`computeVoxelData` gathers the single index 0 for the only leaf, calls the plane fit all the
same and stores its result: with a plane fit that reports not-a-number for fewer than three
indices the normal and the curvature of the leaf and of the centroid array are not-a-number, not
zero. -/
theorem normal_fit_without_count_check :
    (prepareForSegmentation nanOps nanFitExt loneEngine).map
        (fun e => e.leaves.map fun _ => gatherIndices e.leaves 0) = some [[0]] ∧
      (prepareForSegmentation nanOps nanFitExt loneEngine).map
        (fun e => e.leaves.map fun l =>
          (l.voxel_centroid_.normal_x, l.voxel_centroid_.normal_y, l.voxel_centroid_.normal_z,
            l.voxel_centroid_.curvature)) = some [(none, none, none, none)] ∧
      (prepareForSegmentation nanOps nanFitExt loneEngine).map
        (fun e => e.voxel_centroid_cloud_.map fun v =>
          (v.normal_x, v.normal_y, v.normal_z, v.curvature)) =
        some [(none, none, none, none)] := by
  refine ⟨by decide, by decide, by decide⟩

end Degenerate

section Monotone

variable {F : Type}

attribute [local semireducible] Rat.add Rat.mul Rat.sub Rat.inv

theorem grows_refl (ops : FloatOps F) (L : List (Leaf F)) : Grows ops L L :=
  fun _ l hl => ⟨l, hl, Or.inl rfl, id⟩

theorem grows_trans (ops : FloatOps F)
    (htr : ∀ a b c, ops.lt a b = true → ops.lt b c = true → ops.lt a c = true)
    (L1 L2 L3 : List (Leaf F)) (h12 : Grows ops L1 L2) (h23 : Grows ops L2 L3) :
    Grows ops L1 L3 := by
  intro i l hl
  obtain ⟨l2, hl2, d2, o2⟩ := h12 i l hl
  obtain ⟨l3, hl3, d3, o3⟩ := h23 i l2 hl2
  refine ⟨l3, hl3, ?_, fun h => o3 (o2 h)⟩
  rcases d3 with d3 | d3
  · rw [d3]; exact d2
  · rcases d2 with d2 | d2
    · rw [← d2]; exact Or.inr d3
    · exact Or.inr (htr _ _ _ d3 d2)

theorem expandVisit_grows (ops : FloatOps F) (e : Engine F) (lab : Nat) (c : Voxel F)
    (s : ExpandState F) (n : Nat) :
    Grows ops s.leaves (expandVisit ops e lab c s n).leaves := by
  rcases expandVisit_cases ops e lab c s n with h | ⟨nv, hnv, _, hlt, h⟩
  · rw [h]; exact grows_refl ops _
  · rw [h]
    intro i l hl
    simp only
    by_cases hin : n = i
    · subst hin
      have hlt2 : n < s.leaves.length := (List.getElem?_eq_some.1 hnv).1
      rw [hnv] at hl
      cases hl
      refine ⟨_, List.getElem?_set_self hlt2, Or.inr hlt, fun _ => by simp⟩
    · refine ⟨l, ?_, Or.inl rfl, id⟩
      rw [List.getElem?_set_ne hin]
      exact hl

theorem expandLoops_grows (ops : FloatOps F)
    (htr : ∀ a b c, ops.lt a b = true → ops.lt b c = true → ops.lt a c = true)
    (e : Engine F) (h : SupervoxelHelper F) (ls : List Nat) (s : ExpandState F) :
    Grows ops s.leaves (expandLoops ops e h ls s).leaves := by
  have inner : ∀ (ns : List Nat) (s : ExpandState F),
      Grows ops s.leaves (ns.foldl (expandVisit ops e h.label_ h.centroid_) s).leaves := by
    intro ns
    induction ns with
    | nil => intro s; exact grows_refl ops _
    | cons n t ih =>
      intro s
      rw [List.foldl_cons]
      exact grows_trans ops htr _ _ _ (expandVisit_grows ops e _ _ s n) (ih _)
  induction ls generalizing s with
  | nil => exact grows_refl ops _
  | cons l t ih =>
    unfold expandLoops at ih ⊢
    rw [List.foldl_cons]
    exact grows_trans ops htr _ _ _ (inner _ s) (ih _)

theorem expand_grows (ops : FloatOps F)
    (htr : ∀ a b c, ops.lt a b = true → ops.lt b c = true → ops.lt a c = true)
    (e : Engine F) (k : Nat) : Grows ops e.leaves (expand ops e k).leaves := by
  cases hk : e.supervoxel_helpers_[k]? with
  | none => unfold expand; rw [hk]; exact grows_refl ops _
  | some h =>
    rw [expand_eq ops e k h hk]
    exact expandLoops_grows ops htr e h h.leaves_
      { leaves := e.leaves, helpers := e.supervoxel_helpers_, new_owned := [] }

theorem expandAll_grows (ops : FloatOps F)
    (htr : ∀ a b c, ops.lt a b = true → ops.lt b c = true → ops.lt a c = true)
    (ks : List Nat) (e : Engine F) : Grows ops e.leaves (ks.foldl (expand ops) e).leaves := by
  induction ks generalizing e with
  | nil => exact grows_refl ops _
  | cons k t ih =>
    rw [List.foldl_cons]
    exact grows_trans ops htr _ _ _ (expand_grows ops htr e k) (ih _)

theorem expandRound_grows (ops : FloatOps F)
    (htr : ∀ a b c, ops.lt a b = true → ops.lt b c = true → ops.lt a c = true)
    (X : Ext F) (e : Engine F) : Grows ops e.leaves (expandRound ops X e).leaves :=
  expandAll_grows ops htr _ e

/-- C38: when `<` on distances is transitive, then from the start of `expandSupervoxels` to
the state after any number of rounds, and to its end, every leaf keeps its distance or gets a
strictly smaller one, and every leaf that had an owner still has one. -/
theorem monotone_growth (ops : FloatOps F) (X : Ext F) (e : Engine F) (n : Nat) (depth : Int)
    (htr : ∀ a b c, ops.lt a b = true → ops.lt b c = true → ops.lt a c = true) :
    Grows ops e.leaves ((expandRound ops X)^[n] e).leaves ∧
      Grows ops ((expandRound ops X)^[n] e).leaves ((expandRound ops X)^[n + 1] e).leaves ∧
      Grows ops e.leaves (expandSupervoxels ops X e depth).leaves := by
  have key : ∀ (m : Nat) (e0 : Engine F),
      Grows ops e0.leaves ((expandRound ops X)^[m] e0).leaves := by
    intro m
    induction m with
    | zero => intro e0; exact grows_refl ops _
    | succ m ih =>
      intro e0
      rw [Function.iterate_succ_apply]
      exact grows_trans ops htr _ _ _ (expandRound_grows ops htr X e0) (ih _)
  refine ⟨key n e, ?_, key _ e⟩
  rw [Function.iterate_succ_apply']
  exact expandRound_grows ops htr X _

theorem monotone_growth_witness :
    Grows stepOps wideStart.leaves (expandSupervoxels stepOps refExt wideStart 3).leaves ∧
      (expandSupervoxels stepOps refExt wideStart 3).leaves.map (fun l => (l.owner_, l.distance_)) =
        [(some 1, 3 / 10), (some 1, 13 / 10), (some 1, stepOps.maxVal)] :=
  ⟨(monotone_growth stepOps refExt wideStart 0 3 (fun a b c h1 h2 => by
      simp only [stepOps, ratOps, decide_eq_true_eq] at h1 h2 ⊢
      exact lt_trans h1 h2)).2.2, by decide⟩

end Monotone

section Order

variable {F : Type}

attribute [local semireducible] Rat.add Rat.mul Rat.sub Rat.inv

theorem setInsert_sorted (a : Nat) (l : List Nat) (h : l.Sorted (· < ·)) :
    (setInsert a l).Sorted (· < ·) := by
  induction l with
  | nil => simp [setInsert]
  | cons b t ih =>
    unfold setInsert
    split_ifs with h1 h2
    · refine List.sorted_cons.2 ⟨?_, h⟩
      intro x hx
      rcases List.mem_cons.1 hx with rfl | hx
      · exact h1
      · exact lt_trans h1 (List.rel_of_sorted_cons h x hx)
    · exact h
    · refine List.sorted_cons.2 ⟨?_, ih (List.sorted_cons.1 h).2⟩
      intro x hx
      rcases (mem_setInsert a x t).1 hx with rfl | hx
      · omega
      · exact List.rel_of_sorted_cons h x hx

theorem setErase_sorted (a : Nat) (l : List Nat) (h : l.Sorted (· < ·)) :
    (setErase a l).Sorted (· < ·) :=
  List.Pairwise.filter _ h

theorem foldl_setInsert_sorted (ns l : List Nat) (h : l.Sorted (· < ·)) :
    (ns.foldl (fun acc i => setInsert i acc) l).Sorted (· < ·) := by
  induction ns generalizing l with
  | nil => exact h
  | cons n t ih => exact ih _ (setInsert_sorted n l h)

theorem removeLeaf_sorted (hs : List (SupervoxelHelper F)) (o n : Nat)
    (h : ∀ h ∈ hs, h.leaves_.Sorted (· < ·)) :
    ∀ h ∈ removeLeaf hs o n, h.leaves_.Sorted (· < ·) := by
  intro h1 hh1
  unfold removeLeaf at hh1
  obtain ⟨h0, hh0, rfl⟩ := List.mem_map.1 hh1
  split_ifs
  · exact setErase_sorted n _ (h h0 hh0)
  · exact h h0 hh0

theorem expandVisit_sorted (ops : FloatOps F) (e : Engine F) (lab : Nat) (c : Voxel F)
    (s : ExpandState F) (n : Nat) (h : ∀ h ∈ s.helpers, h.leaves_.Sorted (· < ·)) :
    ∀ h ∈ (expandVisit ops e lab c s n).helpers, h.leaves_.Sorted (· < ·) := by
  rcases expandVisit_cases ops e lab c s n with h1 | ⟨nv, _, _, _, h1⟩
  · rw [h1]; exact h
  · rw [h1]
    simp only
    cases nv.owner_ with
    | none => exact h
    | some o => exact removeLeaf_sorted _ o n h

theorem expandLoops_sorted (ops : FloatOps F) (e : Engine F) (h : SupervoxelHelper F)
    (ls : List Nat) (s : ExpandState F) (hs : ∀ h1 ∈ s.helpers, h1.leaves_.Sorted (· < ·)) :
    ∀ h1 ∈ (expandLoops ops e h ls s).helpers, h1.leaves_.Sorted (· < ·) := by
  have inner : ∀ (ns : List Nat) (s : ExpandState F),
      (∀ h ∈ s.helpers, h.leaves_.Sorted (· < ·)) →
      ∀ h1 ∈ (ns.foldl (expandVisit ops e h.label_ h.centroid_) s).helpers,
        h1.leaves_.Sorted (· < ·) := by
    intro ns
    induction ns with
    | nil => intro s hs; exact hs
    | cons n t ih =>
      intro s hs
      rw [List.foldl_cons]
      exact ih _ (expandVisit_sorted ops e _ _ s n hs)
  induction ls generalizing s with
  | nil => exact hs
  | cons l t ih =>
    unfold expandLoops at ih ⊢
    rw [List.foldl_cons]
    exact ih _ (inner _ s hs)

theorem expand_sorted (ops : FloatOps F) (e : Engine F) (k : Nat)
    (hs : ∀ h ∈ e.supervoxel_helpers_, h.leaves_.Sorted (· < ·)) :
    ∀ h ∈ (expand ops e k).supervoxel_helpers_, h.leaves_.Sorted (· < ·) := by
  cases hk : e.supervoxel_helpers_[k]? with
  | none => unfold expand; rw [hk]; exact hs
  | some h =>
    have hl := expandLoops_sorted ops e h h.leaves_
      { leaves := e.leaves, helpers := e.supervoxel_helpers_, new_owned := [] } hs
    rw [expand_eq ops e k h hk]
    simp only
    intro h1 hh1
    rcases mem_modify_cases _ k _ h1 hh1 with hm | ⟨a, ha, rfl⟩
    · exact hl h1 hm
    · exact foldl_setInsert_sorted _ _ (hl a (List.mem_iff_getElem?.2 ⟨k, ha⟩))

theorem expandRound_sorted (ops : FloatOps F) (X : Ext F) (e : Engine F)
    (hs : ∀ h ∈ e.supervoxel_helpers_, h.leaves_.Sorted (· < ·)) :
    ∀ h ∈ (expandRound ops X e).supervoxel_helpers_, h.leaves_.Sorted (· < ·) := by
  have key : ∀ (ks : List Nat) (e0 : Engine F),
      (∀ h ∈ e0.supervoxel_helpers_, h.leaves_.Sorted (· < ·)) →
      ∀ h ∈ (ks.foldl (expand ops) e0).supervoxel_helpers_, h.leaves_.Sorted (· < ·) := by
    intro ks
    induction ks with
    | nil => intro e0 h0; exact h0
    | cons k t ih => intro e0 h0; exact ih _ (expand_sorted ops e0 k h0)
  intro h hh
  unfold expandRound at hh
  simp only [List.mem_map, List.mem_filter] at hh
  obtain ⟨h0, ⟨hh0, _⟩, rfl⟩ := hh
  exact key _ e hs h0 hh0

theorem createSupervoxelHelpers_sorted (X : Ext F) (e : Engine F) (seeds : List Nat) :
    ∀ h ∈ (createSupervoxelHelpers X e seeds).supervoxel_helpers_, h.leaves_.Sorted (· < ·) := by
  unfold createSupervoxelHelpers
  have h0 : ∀ h ∈ ({ e with supervoxel_helpers_ := [] } : Engine F).supervoxel_helpers_,
      h.leaves_.Sorted (· < ·) := by
    intro h hh
    simp at hh
  generalize ({ e with supervoxel_helpers_ := [] } : Engine F) = e0 at h0
  induction seeds generalizing e0 with
  | nil => exact h0
  | cons s t ih =>
    apply ih
    have hnew : ∀ h ∈ e0.supervoxel_helpers_ ++
        [{ label_ := e0.supervoxel_helpers_.length + 1, leaves_ := [],
           centroid_ := X.defaultCentroid }], h.leaves_.Sorted (· < ·) := by
      intro h hh
      rcases List.mem_append.1 hh with hh | hh
      · exact h0 h hh
      · rw [List.mem_singleton.1 hh]
        exact List.sorted_nil
    unfold createStep
    simp only
    split_ifs
    · unfold addLeaf
      simp only [List.getElem?_concat_length]
      intro h hh
      rcases List.mem_or_eq_of_mem_set hh with hh | rfl
      · exact hnew h hh
      · exact setInsert_sorted _ _ List.sorted_nil
    · exact hnew

theorem iterate_expandRound_sorted (ops : FloatOps F) (X : Ext F) (n : Nat) (e : Engine F)
    (hs : ∀ h ∈ e.supervoxel_helpers_, h.leaves_.Sorted (· < ·)) :
    ∀ h ∈ ((expandRound ops X)^[n] e).supervoxel_helpers_, h.leaves_.Sorted (· < ·) := by
  induction n generalizing e with
  | zero => exact hs
  | succ n ih =>
    rw [Function.iterate_succ_apply]
    exact ih _ (expandRound_sorted ops X e hs)

/-- C34 (the claim fails): on `wideEngine` the helper gets the leaf 2 first, as its seed, the
leaf 1 in the first round and the leaf 0 in the second; its leaf set is then 0, 1, 2 and
`extract` returns the voxels at x = 0.5, 1.5, 2.5, in the order of the leaf index and not in
the order of insertion. -/
theorem voxels_not_in_insertion_order :
    wideStart.supervoxel_helpers_.map (·.leaves_) = [[2]] ∧
      (expandRound stepOps refExt wideStart).supervoxel_helpers_.map (·.leaves_) = [[1, 2]] ∧
      (extract stepOps refExt wideEngine []).1.supervoxel_helpers_.map (·.leaves_) =
        [[0, 1, 2]] ∧
      (extract stepOps refExt wideEngine []).2.map (fun p => (p.1, p.2.voxels_.map (·.x))) =
        [(1, [1 / 2, 3 / 2, 5 / 2])] := by
  refine ⟨by decide, by decide, by decide, by decide⟩

/-- C34 (amended): the leaf set of a helper is ordered by the leaf index `idx_`, whatever the
order of insertion.  After `createSupervoxelHelpers` and any number of rounds, hence whenever
`expand` traverses a leaf set, and at the end of `extract`, the leaf set of every helper is
strictly increasing, and `extract` returns for every helper the voxels of its leaves in that
order. -/
theorem voxels_in_index_order (ops : FloatOps F) (X : Ext F) (e : Engine F)
    (m : SupervoxelMap F) (cloud : List (Voxel F)) (hin : e.input_ = some cloud)
    (hc : cloud ≠ []) :
    (∀ h ∈ (extract ops X e m).1.supervoxel_helpers_, h.leaves_.Sorted (· < ·)) ∧
      (extract ops X e m).2 = (extract ops X e m).1.supervoxel_helpers_.map (fun h =>
        (h.label_, Supervoxel.mk h.centroid_ (h.leaves_.filterMap fun i =>
          ((extract ops X e m).1.leaves[i]?).map (·.voxel_centroid_)))) ∧
      ∀ (e1 : Engine F) (seeds : List Nat) (n : Nat),
        ∀ h ∈ ((expandRound ops X)^[n] (createSupervoxelHelpers X e1 seeds)).supervoxel_helpers_,
          h.leaves_.Sorted (· < ·) := by
  have hall : ∀ (e1 : Engine F) (seeds : List Nat) (n : Nat),
      ∀ h ∈ ((expandRound ops X)^[n] (createSupervoxelHelpers X e1 seeds)).supervoxel_helpers_,
        h.leaves_.Sorted (· < ·) :=
    fun e1 seeds n =>
      iterate_expandRound_sorted ops X n _ (createSupervoxelHelpers_sorted X e1 seeds)
  obtain ⟨e1, hp, hex, _⟩ := extract_runs ops X e m cloud hin hc
  obtain ⟨g1, _⟩ := grown_keeps ops X e1 (prepareForSegmentation_allUnowned ops X e e1 hp)
  obtain ⟨m1, m2, _⟩ := makeSupervoxels_engine X (grown ops X e1)
  refine ⟨?_, ?_, hall⟩
  · rw [hex, m1]
    exact hall e1 _ _
  · rw [hex, m1, m2, makeSupervoxels_map X _ (sublist_range_sorted _ _ g1)]
    rfl

theorem voxels_in_index_order_witness :
    wideEngine.input_ = some chainCloud ∧
      ∀ h ∈ (extract stepOps refExt wideEngine []).1.supervoxel_helpers_,
        h.leaves_.Sorted (· < ·) :=
  ⟨rfl, (voxels_in_index_order stepOps refExt wideEngine [] chainCloud rfl (by decide)).1⟩

end Order

section KeepsSeed

variable {F : Type}

attribute [local semireducible] Rat.add Rat.mul Rat.sub Rat.inv

theorem pruneExact_perm (l1 l2 : List SeedNHood) (hp : l1.Perm l2) (h : PruneExact l2) :
    PruneExact l1 := by
  obtain ⟨h1, h2⟩ := h
  have hm : (l1.map (·.seed_idx_)).Perm (l2.map (·.seed_idx_)) := hp.map _
  refine ⟨hm.nodup_iff.2 h1, ?_⟩
  intro t ht
  rw [(hm.filter _).length_eq]
  exact h2 t (hp.mem_iff.1 ht)

theorem pruneExact_tail (s : SeedNHood) (rest : List SeedNHood) (h : PruneExact (s :: rest)) :
    PruneExact (rest.map fun t =>
      if s.seed_idx_ ∈ t.neighbor_indices_ then { t with num_active_ := t.num_active_ - 1 }
      else t) := by
  obtain ⟨h1, h2⟩ := h
  have hids : (rest.map fun t =>
      if s.seed_idx_ ∈ t.neighbor_indices_ then { t with num_active_ := t.num_active_ - 1 }
      else t).map (·.seed_idx_) = rest.map (·.seed_idx_) := by
    rw [List.map_map]
    apply List.map_congr_left
    intro t _
    simp only [Function.comp]
    split_ifs <;> rfl
  refine ⟨?_, ?_⟩
  · rw [hids]
    exact (List.nodup_cons.1 h1).2
  · intro t1 ht1
    rw [hids]
    obtain ⟨t, ht, rfl⟩ := List.mem_map.1 ht1
    have hc := h2 t (List.mem_cons_of_mem _ ht)
    simp only [List.map_cons, List.filter_cons] at hc
    by_cases hm : s.seed_idx_ ∈ t.neighbor_indices_
    · simp only [hm, decide_True, if_true, List.length_cons, Nat.cast_add, Nat.cast_one] at hc ⊢
      omega
    · simp only [hm, decide_False, if_false, Bool.false_eq_true] at hc ⊢
      exact hc

theorem pruneStep_exact (l : List SeedNHood) (h : PruneExact l) : PruneExact (pruneStep l) := by
  cases l with
  | nil => exact h
  | cons s rest => exact pruneExact_perm _ _ (sortSeedNHoods_perm _) (pruneExact_tail s rest h)

theorem pruneSeeds_nonempty (fuel : Nat) (l : List SeedNHood) (hinv : PruneExact l)
    (hne : l ≠ []) : pruneSeeds fuel l ≠ [] := by
  induction fuel generalizing l with
  | zero => simpa [pruneSeeds] using hne
  | succ fuel ih =>
    cases l with
    | nil => exact absurd rfl hne
    | cons s rest =>
      rw [pruneSeeds_step]
      by_cases hgt : s.num_active_ > 1
      · rw [if_pos hgt]
        apply ih _ (pruneStep_exact _ hinv)
        have hc := hinv.2 s (List.mem_cons_self _ _)
        have hle : ((List.map (·.seed_idx_) (s :: rest)).filter fun i =>
            decide (i ∈ s.neighbor_indices_)).length ≤ (s :: rest).length := by
          refine le_trans (List.length_filter_le _ _) ?_
          simp
        have h2 : 2 ≤ (s :: rest).length := by
          have : (2 : Int) ≤ ((s :: rest).length : Int) := by
            have hle2 : (((List.map (·.seed_idx_) (s :: rest)).filter fun i =>
                decide (i ∈ s.neighbor_indices_)).length : Int) ≤ ((s :: rest).length : Int) := by
              exact_mod_cast hle
            omega
          exact_mod_cast this
        intro hnil
        have hlen := pruneStep_length s rest
        rw [hnil] at hlen
        simp only [List.length_nil, List.length_cons] at hlen h2
        omega
      · rw [if_neg hgt]
        exact hne

theorem seedNHoods_exact (X : Ext F) (cloud sc : List (Voxel F)) (radius : F) (seeds : List Nat)
    (hlib : ∀ v ∈ seeds, ∀ q, cloud[v]? = some q →
      (X.radiusSearch sc q radius).Nodup ∧ ∀ j ∈ X.radiusSearch sc q radius, j < seeds.length) :
    PruneExact (seedNHoods X cloud sc radius seeds) := by
  refine ⟨?_, ?_⟩
  · rw [seedNHoods_ids]
    exact List.nodup_range _
  · intro t ht
    obtain ⟨m1, m2, m3⟩ := mem_seedNHoods X cloud sc radius seeds t ht
    rw [seedNHoods_ids, m2]
    have hv : t.voxel_idx_ ∈ seeds := List.mem_iff_getElem?.2 ⟨_, m1⟩
    have hnb : t.neighbor_indices_.Nodup ∧ ∀ j ∈ t.neighbor_indices_, j < seeds.length := by
      unfold seedNHoods at ht
      obtain ⟨p, hp, rfl⟩ := List.mem_map.1 ht
      simp only at hv ⊢
      cases hq : cloud[p.2]? with
      | none => simp
      | some q =>
        simp only
        obtain ⟨l1, l2⟩ := hlib p.2 hv q hq
        refine ⟨(List.perm_insertionSort _ _).nodup_iff.2 l1, ?_⟩
        intro j hj
        exact l2 j ((List.perm_insertionSort _ _).mem_iff.1 hj)
    have hperm : ((List.range seeds.length).filter fun i =>
        decide (i ∈ t.neighbor_indices_)).Perm t.neighbor_indices_ := by
      refine (List.perm_ext_iff_of_nodup ((List.nodup_range _).filter _) hnb.1).2 ?_
      intro a
      simp only [List.mem_filter, List.mem_range, decide_eq_true_eq]
      exact ⟨fun h => h.2, fun h => ⟨hnb.2 a h, h⟩⟩
    rw [hperm.length_eq]

/-- C39: with `prune_close_seeds_` set, when every radius search around a shifted seed returns
distinct positions of the seed cloud, `selectInitialSupervoxelSeeds` returns at least one seed
whenever there is a shifted seed, and every seed it returns is one of the shifted seeds, which
are the seeds returned without pruning. -/
theorem pruning_keeps_a_seed (ops : FloatOps F) (X : Ext F) (e : Engine F)
    (hp : e.prune_close_seeds_ = true) (hne : shiftedSeeds ops X e ≠ [])
    (hlib : ∀ v ∈ shiftedSeeds ops X e, ∀ q, e.voxel_centroid_cloud_[v]? = some q →
      (X.radiusSearch
          ((shiftedSeeds ops X e).filterMap fun idx => e.voxel_centroid_cloud_[idx]?) q
          (ops.div e.seed_resolution_ (ops.ofRat 2))).Nodup ∧
        ∀ j ∈ X.radiusSearch
          ((shiftedSeeds ops X e).filterMap fun idx => e.voxel_centroid_cloud_[idx]?) q
          (ops.div e.seed_resolution_ (ops.ofRat 2)), j < (shiftedSeeds ops X e).length) :
    selectInitialSupervoxelSeeds ops X e ≠ [] ∧
      (∀ v ∈ selectInitialSupervoxelSeeds ops X e, v ∈ shiftedSeeds ops X e) ∧
      selectInitialSupervoxelSeeds ops X { e with prune_close_seeds_ := false } =
        shiftedSeeds ops X e := by
  refine ⟨?_, ?_, ?_⟩
  · rw [selectInitialSupervoxelSeeds_pruned ops X e hp]
    intro hnil
    have hnil2 := List.map_eq_nil_iff.1 hnil
    refine pruneSeeds_nonempty _ _
      (pruneExact_perm _ _ (sortSeedNHoods_perm _)
        (seedNHoods_exact X e.voxel_centroid_cloud_ _ _ (shiftedSeeds ops X e) hlib)) ?_ hnil2
    intro hs
    have hlen := congrArg List.length
      (seedNHoods_ids X e.voxel_centroid_cloud_
        ((shiftedSeeds ops X e).filterMap fun idx => e.voxel_centroid_cloud_[idx]?)
        (ops.div e.seed_resolution_ (ops.ofRat 2)) (shiftedSeeds ops X e))
    have hl2 := (sortSeedNHoods_perm (seedNHoods X e.voxel_centroid_cloud_
        ((shiftedSeeds ops X e).filterMap fun idx => e.voxel_centroid_cloud_[idx]?)
        (ops.div e.seed_resolution_ (ops.ofRat 2)) (shiftedSeeds ops X e))).length_eq
    rw [hs] at hl2
    simp only [List.length_map, List.length_range, List.length_nil] at hlen hl2
    exact hne (List.length_eq_zero.1 (by omega))
  · rw [selectInitialSupervoxelSeeds_pruned ops X e hp]
    intro v hv
    obtain ⟨t, ht, rfl⟩ := List.mem_map.1 hv
    have hinv := pruneInv_perm _ _ (sortSeedNHoods_perm _)
      (seedNHoods_inv X e.voxel_centroid_cloud_
        ((shiftedSeeds ops X e).filterMap fun idx => e.voxel_centroid_cloud_[idx]?)
        (ops.div e.seed_resolution_ (ops.ofRat 2)) (shiftedSeeds ops X e))
    have hlen : (sortSeedNHoods (seedNHoods X e.voxel_centroid_cloud_
        ((shiftedSeeds ops X e).filterMap fun idx => e.voxel_centroid_cloud_[idx]?)
        (ops.div e.seed_resolution_ (ops.ofRat 2)) (shiftedSeeds ops X e))).length ≤
        (shiftedSeeds ops X e).length := by
      rw [(sortSeedNHoods_perm _).length_eq]
      have := congrArg List.length (seedNHoods_ids X e.voxel_centroid_cloud_
        ((shiftedSeeds ops X e).filterMap fun idx => e.voxel_centroid_cloud_[idx]?)
        (ops.div e.seed_resolution_ (ops.ofRat 2)) (shiftedSeeds ops X e))
      simp only [List.length_map, List.length_range] at this
      exact le_of_eq this
    obtain ⟨_, _, i3⟩ := pruneSeeds_spec _ _ hinv (sortSeedNHoods_sorted _) hlen
    obtain ⟨t0, ht0, _, e2, _⟩ := i3 t ht
    obtain ⟨m1, _, _⟩ := mem_seedNHoods X e.voxel_centroid_cloud_ _ _ _ t0
      ((sortSeedNHoods_perm _).mem_iff.1 ht0)
    rw [e2]
    exact List.mem_iff_getElem?.2 ⟨_, m1⟩
  · unfold selectInitialSupervoxelSeeds
    simp only [Bool.not_false, if_true]
    rfl

theorem pruning_keeps_a_seed_witness :
    shiftedSeeds stepOps refExt
        ((prepareForSegmentation stepOps refExt pairEngine).getD pairEngine) = [1, 1, 2] ∧
      selectInitialSupervoxelSeeds stepOps refExt
        ((prepareForSegmentation stepOps refExt pairEngine).getD pairEngine) ≠ [] :=
  ⟨by decide,
    (pruning_keeps_a_seed stepOps refExt
      ((prepareForSegmentation stepOps refExt pairEngine).getD pairEngine) (by decide) (by decide)
      (by
        have hs : shiftedSeeds stepOps refExt
            ((prepareForSegmentation stepOps refExt pairEngine).getD pairEngine) = [1, 1, 2] := by
          decide
        rw [hs]
        intro v hv q hq
        simp only [List.mem_cons, List.mem_singleton, List.not_mem_nil, or_false] at hv
        rcases hv with rfl | rfl | rfl
        · have hq1 : q = axisPoint (3 / 2) 0 := by
            have h1 : ((prepareForSegmentation stepOps refExt pairEngine).getD
                pairEngine).voxel_centroid_cloud_[1]? = some (axisPoint (3 / 2) 0) := by decide
            rw [h1] at hq
            exact (Option.some.inj hq).symm
          subst hq1
          decide
        · have hq1 : q = axisPoint (3 / 2) 0 := by
            have h1 : ((prepareForSegmentation stepOps refExt pairEngine).getD
                pairEngine).voxel_centroid_cloud_[1]? = some (axisPoint (3 / 2) 0) := by decide
            rw [h1] at hq
            exact (Option.some.inj hq).symm
          subst hq1
          decide
        · have hq1 : q = axisPoint (5 / 2) 0 := by
            have h1 : ((prepareForSegmentation stepOps refExt pairEngine).getD
                pairEngine).voxel_centroid_cloud_[2]? = some (axisPoint (5 / 2) 0) := by decide
            rw [h1] at hq
            exact (Option.some.inj hq).symm
          subst hq1
          decide)).1⟩

end KeepsSeed

section Partition

variable {F : Type}

attribute [local semireducible] Rat.add Rat.mul Rat.sub Rat.inv

theorem ownerOf_modify_ne (L : List (Leaf F)) (g : Leaf F → Leaf F) (n i : Nat) (h : n ≠ i) :
    ownerOf (L.modify g n) i = ownerOf L i := by
  unfold ownerOf
  rw [List.getElem?_modify_ne _ _ h]

theorem ownerOf_set_ne (L : List (Leaf F)) (l : Leaf F) (n i : Nat) (h : n ≠ i) :
    ownerOf (L.set n l) i = ownerOf L i := by
  unfold ownerOf
  rw [List.getElem?_set_ne h]

theorem ownerOf_set_self (L : List (Leaf F)) (l : Leaf F) (n : Nat) (h : n < L.length) :
    ownerOf (L.set n l) n = l.owner_ := by
  unfold ownerOf
  rw [List.getElem?_set_self h]
  rfl

theorem addLeaf_leaves (e : Engine F) (k leaf : Nat) (i : Nat) (hi : leaf ≠ i) :
    ownerOf (addLeaf e k leaf).leaves i = ownerOf e.leaves i := by
  unfold addLeaf
  cases e.supervoxel_helpers_[k]? with
  | none => rfl
  | some h => exact ownerOf_modify_ne _ _ _ _ hi

theorem addLeaf_memberOwned (e : Engine F) (k leaf : Nat)
    (hm : MemberOwned e.leaves e.supervoxel_helpers_) (hfree : ownerOf e.leaves leaf = none)
    (hlt : leaf < e.leaves.length) :
    MemberOwned (addLeaf e k leaf).leaves (addLeaf e k leaf).supervoxel_helpers_ := by
  have hne : ∀ h ∈ e.supervoxel_helpers_, ∀ i ∈ h.leaves_, leaf ≠ i := by
    intro h hh i hi hli
    have := hm h hh i hi
    rw [← hli, hfree] at this
    cases this
  unfold addLeaf
  cases hk : e.supervoxel_helpers_[k]? with
  | none => exact hm
  | some h =>
    have hh : h ∈ e.supervoxel_helpers_ := List.mem_iff_getElem?.2 ⟨k, hk⟩
    intro h1 hh1 i hi
    simp only at hh1 ⊢
    rcases List.mem_or_eq_of_mem_set hh1 with hh1 | rfl
    · rw [ownerOf_modify_ne _ _ _ _ (hne h1 hh1 i hi)]
      exact hm h1 hh1 i hi
    · rcases (mem_setInsert leaf i h.leaves_).1 hi with rfl | hi
      · unfold ownerOf
        rw [List.getElem?_modify_eq, List.getElem?_eq_getElem hlt]
        rfl
      · rw [ownerOf_modify_ne _ _ _ _ (hne h hh i hi)]
        exact hm h hh i hi

theorem createStep_memberOwned (X : Ext F) (e : Engine F) (seed : Nat)
    (hm : MemberOwned e.leaves e.supervoxel_helpers_) (hfree : ownerOf e.leaves seed = none) :
    MemberOwned (createStep X e seed).leaves (createStep X e seed).supervoxel_helpers_ ∧
      ∀ i, seed ≠ i → ownerOf (createStep X e seed).leaves i = ownerOf e.leaves i := by
  have hnew : MemberOwned e.leaves (e.supervoxel_helpers_ ++
      [{ label_ := e.supervoxel_helpers_.length + 1, leaves_ := [],
         centroid_ := X.defaultCentroid }]) := by
    intro h hh i hi
    rcases List.mem_append.1 hh with hh | hh
    · exact hm h hh i hi
    · rw [List.mem_singleton.1 hh] at hi
      simp at hi
  unfold createStep
  simp only
  split_ifs with hlt
  · exact ⟨addLeaf_memberOwned _ _ _ hnew hfree hlt, fun i hi => addLeaf_leaves _ _ _ i hi⟩
  · exact ⟨hnew, fun _ _ => rfl⟩

theorem foldl_createStep_memberOwned (X : Ext F) (seeds : List Nat) (e : Engine F)
    (done : List Nat) (hm : MemberOwned e.leaves e.supervoxel_helpers_)
    (hown : ∀ i, ownerOf e.leaves i ≠ none → i ∈ done) (hnew : ∀ s ∈ seeds, s ∉ done)
    (hnd : seeds.Nodup) :
    MemberOwned (seeds.foldl (createStep X) e).leaves
      (seeds.foldl (createStep X) e).supervoxel_helpers_ := by
  induction seeds generalizing e done with
  | nil => exact hm
  | cons s t ih =>
    rw [List.foldl_cons]
    have hfree : ownerOf e.leaves s = none := by
      by_contra hne
      exact hnew s (List.mem_cons_self _ _) (hown s hne)
    obtain ⟨c1, c2⟩ := createStep_memberOwned X e s hm hfree
    refine ih _ (done ++ [s]) c1 ?_ ?_ (List.nodup_cons.1 hnd).2
    · intro i hi
      by_cases hsi : s = i
      · simp [hsi]
      · rw [c2 i hsi] at hi
        exact List.mem_append_left _ (hown i hi)
    · intro x hx hxd
      rcases List.mem_append.1 hxd with hxd | hxd
      · exact hnew x (List.mem_cons_of_mem _ hx) hxd
      · rw [List.mem_singleton.1 hxd] at hx
        exact (List.nodup_cons.1 hnd).1 hx

theorem createSupervoxelHelpers_memberOwned (X : Ext F) (e : Engine F) (seeds : List Nat)
    (hun : AllUnowned e.leaves) (hnd : seeds.Nodup) :
    MemberOwned (createSupervoxelHelpers X e seeds).leaves
      (createSupervoxelHelpers X e seeds).supervoxel_helpers_ := by
  unfold createSupervoxelHelpers
  refine foldl_createStep_memberOwned X seeds _ [] ?_ ?_ (fun s _ => List.not_mem_nil s) hnd
  · intro h hh
    simp at hh
  · intro i hi
    exfalso
    apply hi
    unfold ownerOf
    cases hl : e.leaves[i]? with
    | none => rfl
    | some l => exact hun l (List.mem_iff_getElem?.2 ⟨i, hl⟩)

theorem mem_removeLeaf_origin (hs : List (SupervoxelHelper F)) (o n : Nat)
    (h1 : SupervoxelHelper F) (hh1 : h1 ∈ removeLeaf hs o n) :
    ∃ h0 ∈ hs, h1.label_ = h0.label_ ∧ (∀ x ∈ h1.leaves_, x ∈ h0.leaves_) ∧
      (h0.label_ = o → n ∉ h1.leaves_) := by
  unfold removeLeaf at hh1
  obtain ⟨h0, hh0, rfl⟩ := List.mem_map.1 hh1
  refine ⟨h0, hh0, ?_, ?_, ?_⟩
  · split_ifs <;> rfl
  · intro x hx
    split_ifs at hx
    · exact ((mem_setErase n x h0.leaves_).1 hx).1
    · exact hx
  · intro hl hn
    rw [if_pos hl] at hn
    exact ((mem_setErase n n h0.leaves_).1 hn).2 rfl

theorem expandVisit_exact (ops : FloatOps F) (e : Engine F) (lab : Nat) (c : Voxel F)
    (s : ExpandState F) (n : Nat) (hm : MemberOwned s.leaves s.helpers)
    (hnew : ∀ m ∈ s.new_owned, ownerOf s.leaves m = some lab) :
    MemberOwned (expandVisit ops e lab c s n).leaves (expandVisit ops e lab c s n).helpers ∧
      ∀ m ∈ (expandVisit ops e lab c s n).new_owned,
        ownerOf (expandVisit ops e lab c s n).leaves m = some lab := by
  rcases expandVisit_cases ops e lab c s n with h | ⟨nv, hnv, hown, _, h⟩
  · rw [h]; exact ⟨hm, hnew⟩
  · rw [h]
    have hlt : n < s.leaves.length := (List.getElem?_eq_some.1 hnv).1
    have hon : ownerOf s.leaves n = nv.owner_ := by
      unfold ownerOf
      rw [hnv]; rfl
    refine ⟨?_, ?_⟩
    · intro h1 hh1 i hi
      simp only at hh1 ⊢
      have horig : ∃ h0 ∈ s.helpers, h1.label_ = h0.label_ ∧ (∀ x ∈ h1.leaves_, x ∈ h0.leaves_) ∧
          (nv.owner_ = some h0.label_ → n ∉ h1.leaves_) := by
        cases ho : nv.owner_ with
        | none =>
          rw [ho] at hh1
          exact ⟨h1, hh1, rfl, fun _ hx => hx, fun hc => by cases hc⟩
        | some o =>
          rw [ho] at hh1
          obtain ⟨h0, hh0, e1, e2, e3⟩ := mem_removeLeaf_origin s.helpers o n h1 hh1
          exact ⟨h0, hh0, e1, e2, fun hc => e3 (Option.some.inj hc).symm⟩
      obtain ⟨h0, hh0, e1, e2, e3⟩ := horig
      have hi0 := hm h0 hh0 i (e2 i hi)
      have hni : n ≠ i := by
        intro hni
        subst hni
        rw [hon] at hi0
        exact e3 hi0 hi
      rw [ownerOf_set_ne _ _ _ _ hni, hi0, e1]
    · intro m hmem
      simp only at hmem ⊢
      rcases List.mem_append.1 hmem with hmem | hmem
      · have h1 := hnew m hmem
        have hnm : n ≠ m := by
          intro hnm
          subst hnm
          rw [hon] at h1
          exact hown h1
        rw [ownerOf_set_ne _ _ _ _ hnm]
        exact h1
      · rw [List.mem_singleton.1 hmem, ownerOf_set_self _ _ _ hlt]

theorem expandLoops_exact (ops : FloatOps F) (e : Engine F) (h : SupervoxelHelper F)
    (ls : List Nat) (s : ExpandState F) (hm : MemberOwned s.leaves s.helpers)
    (hnew : ∀ m ∈ s.new_owned, ownerOf s.leaves m = some h.label_) :
    MemberOwned (expandLoops ops e h ls s).leaves (expandLoops ops e h ls s).helpers ∧
      ∀ m ∈ (expandLoops ops e h ls s).new_owned,
        ownerOf (expandLoops ops e h ls s).leaves m = some h.label_ := by
  have inner : ∀ (ns : List Nat) (s : ExpandState F),
      MemberOwned s.leaves s.helpers →
      (∀ m ∈ s.new_owned, ownerOf s.leaves m = some h.label_) →
      MemberOwned (ns.foldl (expandVisit ops e h.label_ h.centroid_) s).leaves
          (ns.foldl (expandVisit ops e h.label_ h.centroid_) s).helpers ∧
        ∀ m ∈ (ns.foldl (expandVisit ops e h.label_ h.centroid_) s).new_owned,
          ownerOf (ns.foldl (expandVisit ops e h.label_ h.centroid_) s).leaves m =
            some h.label_ := by
    intro ns
    induction ns with
    | nil => intro s h1 h2; exact ⟨h1, h2⟩
    | cons n t ih =>
      intro s h1 h2
      rw [List.foldl_cons]
      obtain ⟨a1, a2⟩ := expandVisit_exact ops e h.label_ h.centroid_ s n h1 h2
      exact ih _ a1 a2
  induction ls generalizing s with
  | nil => exact ⟨hm, hnew⟩
  | cons l t ih =>
    unfold expandLoops at ih ⊢
    rw [List.foldl_cons]
    obtain ⟨a1, a2⟩ := inner _ s hm hnew
    exact ih _ a1 a2

theorem expand_memberOwned (ops : FloatOps F) (e : Engine F) (k : Nat)
    (hm : MemberOwned e.leaves e.supervoxel_helpers_) :
    MemberOwned (expand ops e k).leaves (expand ops e k).supervoxel_helpers_ := by
  cases hk : e.supervoxel_helpers_[k]? with
  | none => unfold expand; rw [hk]; exact hm
  | some h =>
    obtain ⟨a1, a2⟩ := expandLoops_exact ops e h h.leaves_
      { leaves := e.leaves, helpers := e.supervoxel_helpers_, new_owned := [] } hm
      (fun m hmem => absurd hmem (List.not_mem_nil m))
    have hlab := expandLoops_labels ops e h h.leaves_
      { leaves := e.leaves, helpers := e.supervoxel_helpers_, new_owned := [] }
    rw [expand_eq ops e k h hk]
    simp only
    generalize expandLoops ops e h h.leaves_
      { leaves := e.leaves, helpers := e.supervoxel_helpers_, new_owned := [] } = s
      at a1 a2 hlab ⊢
    intro h1 hh1 i hi
    rcases mem_modify_cases _ k _ h1 hh1 with hmem | ⟨a, ha, rfl⟩
    · exact a1 h1 hmem i hi
    · have hla : a.label_ = h.label_ := by
        have h2 := congrArg (fun l => l[k]?) hlab
        simp only [List.getElem?_map, ha, hk, Option.map_some', Option.some.injEq] at h2
        exact h2
      show ownerOf s.leaves i = some a.label_
      rw [hla]
      rcases (mem_foldl_setInsert _ _ _).1 hi with hi | hi
      · exact a2 i hi
      · rw [← hla]
        exact a1 a (List.mem_iff_getElem?.2 ⟨k, ha⟩) i hi

theorem expandRound_memberOwned (ops : FloatOps F) (X : Ext F) (e : Engine F)
    (hm : MemberOwned e.leaves e.supervoxel_helpers_) :
    MemberOwned (expandRound ops X e).leaves (expandRound ops X e).supervoxel_helpers_ := by
  have key : ∀ (ks : List Nat) (e0 : Engine F),
      MemberOwned e0.leaves e0.supervoxel_helpers_ →
      MemberOwned (ks.foldl (expand ops) e0).leaves
        (ks.foldl (expand ops) e0).supervoxel_helpers_ := by
    intro ks
    induction ks with
    | nil => intro e0 h0; exact h0
    | cons k t ih => intro e0 h0; exact ih _ (expand_memberOwned ops e0 k h0)
  intro h hh i hi
  unfold expandRound at hh
  simp only [List.mem_map, List.mem_filter] at hh
  obtain ⟨h0, ⟨hh0, _⟩, rfl⟩ := hh
  exact key _ e hm h0 hh0 i hi

theorem iterate_expandRound_memberOwned (ops : FloatOps F) (X : Ext F) (n : Nat) (e : Engine F)
    (hm : MemberOwned e.leaves e.supervoxel_helpers_) :
    MemberOwned ((expandRound ops X)^[n] e).leaves
      ((expandRound ops X)^[n] e).supervoxel_helpers_ := by
  induction n generalizing e with
  | zero => exact hm
  | succ n ih =>
    rw [Function.iterate_succ_apply]
    exact ih _ (expandRound_memberOwned ops X e hm)

/-- C36: when all leaves start without owner and the seed indices are pairwise distinct, then
after `createSupervoxelHelpers` and `expandSupervoxels` of any depth a leaf is in the leaf set of
a helper if and only if the owner of the leaf is that helper, and the leaf sets of two different
helpers have no leaf in common. -/
theorem partition_under_distinct_seeds (ops : FloatOps F) (X : Ext F) (e : Engine F)
    (seeds : List Nat) (depth : Int) (hun : AllUnowned e.leaves) (hnd : seeds.Nodup) :
    (∀ h ∈ (expandSupervoxels ops X (createSupervoxelHelpers X e seeds) depth).supervoxel_helpers_,
        ∀ i, i ∈ h.leaves_ ↔
          ownerOf (expandSupervoxels ops X (createSupervoxelHelpers X e seeds) depth).leaves i =
            some h.label_) ∧
      ∀ h1 ∈ (expandSupervoxels ops X (createSupervoxelHelpers X e seeds)
          depth).supervoxel_helpers_,
        ∀ h2 ∈ (expandSupervoxels ops X (createSupervoxelHelpers X e seeds)
          depth).supervoxel_helpers_,
          h1 ≠ h2 → ∀ i, i ∈ h1.leaves_ → i ∉ h2.leaves_ := by
  have hm : MemberOwned (expandSupervoxels ops X (createSupervoxelHelpers X e seeds) depth).leaves
      (expandSupervoxels ops X (createSupervoxelHelpers X e seeds) depth).supervoxel_helpers_ :=
    iterate_expandRound_memberOwned ops X _ _
      (createSupervoxelHelpers_memberOwned X e seeds hun hnd)
  obtain ⟨k1, k2⟩ := expandSupervoxels_keeps ops X (createSupervoxelHelpers X e seeds) depth
  have hlive := k2 (createSupervoxelHelpers_ownerLive X e seeds hun)
  rw [createSupervoxelHelpers_labels] at k1
  have hset : Settled (expandSupervoxels ops X (createSupervoxelHelpers X e seeds) depth) :=
    ⟨sublist_range_sorted _ _ k1, hlive⟩
  generalize expandSupervoxels ops X (createSupervoxelHelpers X e seeds) depth = E
    at hm hlive hset ⊢
  refine ⟨?_, ?_⟩
  · intro h hh i
    refine ⟨fun hi => hm h hh i hi, fun ho => ?_⟩
    obtain ⟨l, hl, hlo⟩ := (ownerOf_eq_some _ _ _).1 ho
    obtain ⟨h1, hh1, hl1, hm1⟩ := hlive i l hl _ hlo
    rw [helper_eq_of_label E hset h1 h hh1 hh hl1] at hm1
    exact hm1
  · intro h1 hh1 h2 hh2 hne i hi1 hi2
    have o1 := hm h1 hh1 i hi1
    have o2 := hm h2 hh2 i hi2
    rw [o1] at o2
    exact hne (helper_eq_of_label E hset h1 h2 hh1 hh2 (Option.some.inj o2))

theorem partition_under_distinct_seeds_witness :
    AllUnowned ((prepareForSegmentation stepOps refExt teeEngine).getD teeEngine).leaves ∧
      [0, 2].Nodup ∧
      ∀ h ∈ (expandSupervoxels stepOps refExt (createSupervoxelHelpers refExt
          ((prepareForSegmentation stepOps refExt teeEngine).getD teeEngine) [0, 2])
          3).supervoxel_helpers_,
        ∀ i, i ∈ h.leaves_ ↔
          ownerOf (expandSupervoxels stepOps refExt (createSupervoxelHelpers refExt
            ((prepareForSegmentation stepOps refExt teeEngine).getD teeEngine) [0, 2])
            3).leaves i = some h.label_ :=
  ⟨by unfold AllUnowned; decide, by decide,
    (partition_under_distinct_seeds stepOps refExt
      ((prepareForSegmentation stepOps refExt teeEngine).getD teeEngine) [0, 2] 3
      (by unfold AllUnowned; decide) (by decide)).1⟩

end Partition

section Reach

variable {F : Type}

attribute [local semireducible] Rat.add Rat.mul Rat.sub Rat.inv

theorem foldl_range_inv {α : Type} (f : α → Nat → α) (P : Nat → α → Prop) (n : Nat) (a : α)
    (h0 : P 0 a) (hstep : ∀ m b, m < n → P m b → P (m + 1) (f b m)) :
    P n ((List.range n).foldl f a) := by
  induction n with
  | zero => exact h0
  | succ n ih =>
    rw [List.range_succ, List.foldl_append]
    simp only [List.foldl_cons, List.foldl_nil]
    exact hstep n _ (Nat.lt_succ_self n)
      (ih (fun m b hm hb => hstep m b (Nat.lt_succ_of_lt hm) hb))

theorem reachWithin_congr (l1 l2 : List (Leaf F))
    (h : l1.map (·.neighbors) = l2.map (·.neighbors)) (k a b : Nat) :
    reachWithin l1 k a b ↔ reachWithin l2 k a b := by
  induction k generalizing b with
  | zero => exact Iff.rfl
  | succ k ih =>
    unfold reachWithin
    constructor
    · rintro (h1 | ⟨c, h1, h2⟩)
      · exact Or.inl ((ih b).1 h1)
      · exact Or.inr ⟨c, (ih c).1 h1, by rw [← neighborsOf_congr l1 l2 h c]; exact h2⟩
    · rintro (h1 | ⟨c, h1, h2⟩)
      · exact Or.inl ((ih b).2 h1)
      · exact Or.inr ⟨c, (ih c).2 h1, by rw [neighborsOf_congr l1 l2 h c]; exact h2⟩

theorem reachWithin_joined (L : List (Leaf F)) (k a b : Nat) (h : reachWithin L k a b) :
    Joined L a b := by
  induction k generalizing b with
  | zero =>
    have hab : a = b := h
    rw [hab]
    exact Relation.ReflTransGen.refl
  | succ k ih =>
    unfold reachWithin at h
    rcases h with h | ⟨c, h1, h2⟩
    · exact ih b h
    · exact (ih c h1).tail (Or.inl h2)

theorem foldl_createStep_seed (X : Ext F) (seeds : List Nat) (e : Engine F) (done : List Nat)
    (hlen : e.supervoxel_helpers_.length = done.length)
    (h : ∀ h ∈ e.supervoxel_helpers_, ∀ i ∈ h.leaves_, done[h.label_ - 1]? = some i) :
    ∀ h ∈ (seeds.foldl (createStep X) e).supervoxel_helpers_, ∀ i ∈ h.leaves_,
      (done ++ seeds)[h.label_ - 1]? = some i := by
  induction seeds generalizing e done with
  | nil => simpa using h
  | cons s t ih =>
    rw [List.foldl_cons]
    have happ : done ++ s :: t = (done ++ [s]) ++ t := by simp
    rw [happ]
    have hnew : ∀ h1 ∈ e.supervoxel_helpers_ ++
        [{ label_ := e.supervoxel_helpers_.length + 1, leaves_ := [],
           centroid_ := X.defaultCentroid }], ∀ i ∈ h1.leaves_,
        (done ++ [s])[h1.label_ - 1]? = some i := by
      intro h1 hh1 i hi
      rcases List.mem_append.1 hh1 with hh1 | hh1
      · have := h h1 hh1 i hi
        have hlt : h1.label_ - 1 < done.length := (List.getElem?_eq_some.1 this).1
        rw [List.getElem?_append_left hlt]
        exact this
      · rw [List.mem_singleton.1 hh1] at hi
        simp at hi
    have hget : ∀ x : SupervoxelHelper F,
        (e.supervoxel_helpers_ ++ [x])[e.supervoxel_helpers_.length]? = some x :=
      fun x => List.getElem?_concat_length _ _
    apply ih
    · unfold createStep
      simp only
      split_ifs
      · unfold addLeaf
        simp only [hget]
        simp only [List.length_set, List.length_append, List.length_singleton, hlen]
      · simp only [List.length_append, List.length_singleton, hlen]
    · unfold createStep
      simp only
      split_ifs
      · unfold addLeaf
        simp only [hget]
        intro h1 hh1 i hi
        rcases List.mem_or_eq_of_mem_set hh1 with hh1 | rfl
        · exact hnew h1 hh1 i hi
        · simp only [setInsert, List.mem_singleton] at hi
          simp only [Nat.add_sub_cancel, hlen]
          rw [hi]
          simp
      · exact hnew

theorem createSupervoxelHelpers_seed (X : Ext F) (e : Engine F) (seeds : List Nat) :
    ∀ h ∈ (createSupervoxelHelpers X e seeds).supervoxel_helpers_, ∀ i ∈ h.leaves_,
      seeds[h.label_ - 1]? = some i := by
  unfold createSupervoxelHelpers
  have := foldl_createStep_seed X seeds { e with supervoxel_helpers_ := [] } [] rfl
    (fun h hh => by simp at hh)
  simpa using this

theorem createSupervoxelHelpers_links (X : Ext F) (e : Engine F) (seeds : List Nat) :
    (createSupervoxelHelpers X e seeds).leaves.map (·.neighbors) = e.leaves.map (·.neighbors) := by
  unfold createSupervoxelHelpers
  have key : ∀ (ss : List Nat) (e0 : Engine F),
      (ss.foldl (createStep X) e0).leaves.map (·.neighbors) = e0.leaves.map (·.neighbors) := by
    intro ss
    induction ss with
    | nil => intro e0; rfl
    | cons s t ih =>
      intro e0
      rw [List.foldl_cons, ih]
      unfold createStep
      simp only
      split_ifs
      · unfold addLeaf
        simp only [List.getElem?_concat_length]
        exact map_modify_same (fun l : Leaf F => l.neighbors) _ _ _ (fun _ => rfl)
      · rfl
  exact key seeds _

theorem expandAll_reach (ops : FloatOps F) (e : Engine F) :
    (expandAll ops e).leaves.map (·.neighbors) = e.leaves.map (·.neighbors) ∧
      ∀ h1 ∈ (expandAll ops e).supervoxel_helpers_, ∃ h0 ∈ e.supervoxel_helpers_,
        h0.label_ = h1.label_ ∧
        ∀ i ∈ h1.leaves_, i ∈ h0.leaves_ ∨ ∃ l ∈ h0.leaves_, i ∈ neighborsOf e.leaves l := by
  have key := foldl_range_inv (expand ops)
    (fun m (E : Engine F) =>
      E.leaves.map (·.neighbors) = e.leaves.map (·.neighbors) ∧
        labels E = labels e ∧
        ∀ (p : Nat) (h1 : SupervoxelHelper F), E.supervoxel_helpers_[p]? = some h1 →
          ∃ h0 : SupervoxelHelper F, e.supervoxel_helpers_[p]? = some h0 ∧
            ∀ i ∈ h1.leaves_, i ∈ h0.leaves_ ∨
              (p < m ∧ ∃ l ∈ h0.leaves_, i ∈ neighborsOf e.leaves l))
    e.supervoxel_helpers_.length e
    ⟨rfl, rfl, fun p h1 hp => ⟨h1, hp, fun i hi => Or.inl hi⟩⟩
    (by
      intro m E _ hE
      obtain ⟨b1, b2, b3⟩ := hE
      refine ⟨(expand_clustered ops E m).1.trans b1, (expand_labels ops E m).trans b2, ?_⟩
      cases hk : E.supervoxel_helpers_[m]? with
      | none =>
        have hsame : expand ops E m = E := by unfold expand; rw [hk]
        rw [hsame]
        intro p h1 hp
        obtain ⟨h0, e1, e2⟩ := b3 p h1 hp
        refine ⟨h0, e1, fun i hi => ?_⟩
        rcases e2 i hi with h | ⟨hlt, h⟩
        · exact Or.inl h
        · exact Or.inr ⟨Nat.lt_succ_of_lt hlt, h⟩
      | some h =>
        have hinv := expandLoops_grow ops E h E.supervoxel_helpers_ h.leaves_ h.leaves_
          { leaves := E.leaves, helpers := E.supervoxel_helpers_, new_owned := [] }
          (fun _ hl => hl)
          ⟨rfl, fun k h1 hk1 => ⟨h1, hk1, fun _ hx => hx⟩, fun n hn => by simp at hn⟩
        rw [expand_eq ops E m h hk]
        simp only
        generalize expandLoops ops E h h.leaves_
          { leaves := E.leaves, helpers := E.supervoxel_helpers_, new_owned := [] } = s
          at hinv ⊢
        obtain ⟨_, g2, g3⟩ := hinv
        intro p h1 hp
        rw [List.getElem?_modify] at hp
        by_cases hpm : m = p
        · subst hpm
          cases hs : s.helpers[m]? with
          | none => rw [hs] at hp; simp at hp
          | some a =>
            rw [hs] at hp
            simp only [if_true, Option.map_eq_map, Option.map_some', Option.some.injEq] at hp
            obtain ⟨hE, hhE, hsub⟩ := g2 m a hs
            rw [hk] at hhE
            cases hhE
            obtain ⟨h0, e1, e2⟩ := b3 m h hk
            have hbase : ∀ x ∈ h.leaves_, x ∈ h0.leaves_ := by
              intro x hx
              rcases e2 x hx with h | ⟨hlt, _⟩
              · exact h
              · exact absurd hlt (lt_irrefl m)
            refine ⟨h0, e1, fun i hi => ?_⟩
            rw [← hp] at hi
            rcases (mem_foldl_setInsert _ _ _).1 hi with hi | hi
            · obtain ⟨l, hl, hil⟩ := g3 i hi
              right
              refine ⟨Nat.lt_succ_self m, l, hbase l hl, ?_⟩
              rw [← neighborsOf_congr E.leaves e.leaves b1 l]
              exact hil
            · exact Or.inl (hbase i (hsub i hi))
        · simp only [hpm, if_false, Option.map_eq_map] at hp
          cases hs : s.helpers[p]? with
          | none => rw [hs] at hp; simp at hp
          | some a =>
            rw [hs] at hp
            simp only [Option.map_some', Option.some.injEq] at hp
            subst hp
            obtain ⟨hE, hhE, hsub⟩ := g2 p a hs
            obtain ⟨h0, e1, e2⟩ := b3 p hE hhE
            refine ⟨h0, e1, fun i hi => ?_⟩
            rcases e2 i (hsub i hi) with h | ⟨hlt, h⟩
            · exact Or.inl h
            · exact Or.inr ⟨Nat.lt_succ_of_lt hlt, h⟩)
  obtain ⟨k1, k2, k3⟩ := key
  refine ⟨k1, ?_⟩
  intro h1 hh1
  obtain ⟨p, hp⟩ := List.mem_iff_getElem?.1 hh1
  have hp1 : (expandAll ops e).supervoxel_helpers_[p]? = some h1 := hp
  obtain ⟨h0, e1, e2⟩ := k3 p h1 hp1
  refine ⟨h0, List.mem_iff_getElem?.2 ⟨p, e1⟩, ?_, ?_⟩
  · have h2 := congrArg (fun l => l[p]?) k2
    simp only [labels, List.getElem?_map] at h2
    have hp2 : (List.foldl (expand ops) e
        (List.range e.supervoxel_helpers_.length)).supervoxel_helpers_[p]? = some h1 := hp
    rw [hp2, e1] at h2
    simp only [Option.map_some', Option.some.injEq] at h2
    exact h2.symm
  · intro i hi
    rcases e2 i hi with h | ⟨_, h⟩
    · exact Or.inl h
    · exact Or.inr h

theorem expandRound_reach (ops : FloatOps F) (X : Ext F) (e : Engine F) (seeds : List Nat)
    (k : Nat)
    (h : ∀ h ∈ e.supervoxel_helpers_, ∀ i ∈ h.leaves_,
      ∃ s, seeds[h.label_ - 1]? = some s ∧ reachWithin e.leaves k s i) :
    ∀ h ∈ (expandRound ops X e).supervoxel_helpers_, ∀ i ∈ h.leaves_,
      ∃ s, seeds[h.label_ - 1]? = some s ∧
        reachWithin (expandRound ops X e).leaves (k + 1) s i := by
  obtain ⟨a1, a2⟩ := expandAll_reach ops e
  have hl : (expandRound ops X e).leaves = (expandAll ops e).leaves := rfl
  intro h1 hh1 i hi
  unfold expandRound at hh1
  simp only [List.mem_map, List.mem_filter] at hh1
  obtain ⟨h2, ⟨hh2, _⟩, rfl⟩ := hh1
  obtain ⟨h0, hh0, e1, e2⟩ := a2 h2 hh2
  have hi2 : i ∈ h2.leaves_ := hi
  show ∃ s, seeds[h2.label_ - 1]? = some s ∧ _
  rw [← e1]
  rcases e2 i hi2 with hin | ⟨l, hl0, hil⟩
  · obtain ⟨s, hs, hr⟩ := h h0 hh0 i hin
    refine ⟨s, hs, ?_⟩
    rw [hl, reachWithin_congr _ e.leaves a1]
    exact Or.inl hr
  · obtain ⟨s, hs, hr⟩ := h h0 hh0 l hl0
    refine ⟨s, hs, ?_⟩
    rw [hl, reachWithin_congr _ e.leaves a1]
    exact Or.inr ⟨l, hr, hil⟩

theorem iterate_expandRound_reach (ops : FloatOps F) (X : Ext F) (seeds : List Nat) (n k : Nat)
    (e : Engine F)
    (h : ∀ h ∈ e.supervoxel_helpers_, ∀ i ∈ h.leaves_,
      ∃ s, seeds[h.label_ - 1]? = some s ∧ reachWithin e.leaves k s i) :
    ∀ h ∈ ((expandRound ops X)^[n] e).supervoxel_helpers_, ∀ i ∈ h.leaves_,
      ∃ s, seeds[h.label_ - 1]? = some s ∧
        reachWithin ((expandRound ops X)^[n] e).leaves (k + n) s i := by
  induction n generalizing e k with
  | zero => exact h
  | succ n ih =>
    rw [Function.iterate_succ_apply]
    have := ih (k + 1) _ (expandRound_reach ops X e seeds k h)
    have hk : k + 1 + n = k + (n + 1) := by omega
    rw [hk] at this
    exact this

/-- C37: after `createSupervoxelHelpers` and `k` rounds of the loop of `expandSupervoxels`,
every leaf in the leaf set of the helper with label `j + 1` can be reached from the seed
`seeds[j]` by at most `k` neighbour links.  When all leaves started without owner, two helpers
whose seeds are not joined by any path of neighbour links have no leaf in common and
`getSupervoxelAdjacency` does not list them as adjacent. -/
theorem bounded_reach (ops : FloatOps F) (X : Ext F) (e : Engine F) (seeds : List Nat)
    (k : Nat) (hun : AllUnowned e.leaves) :
    (∀ h ∈ ((expandRound ops X)^[k] (createSupervoxelHelpers X e seeds)).supervoxel_helpers_,
        ∀ i ∈ h.leaves_, ∃ s, seeds[h.label_ - 1]? = some s ∧
          reachWithin ((expandRound ops X)^[k] (createSupervoxelHelpers X e seeds)).leaves
            k s i) ∧
      ∀ h1 ∈ ((expandRound ops X)^[k] (createSupervoxelHelpers X e seeds)).supervoxel_helpers_,
        ∀ h2 ∈ ((expandRound ops X)^[k] (createSupervoxelHelpers X e seeds)).supervoxel_helpers_,
          ∀ s1 s2, seeds[h1.label_ - 1]? = some s1 → seeds[h2.label_ - 1]? = some s2 →
            ¬ Joined ((expandRound ops X)^[k] (createSupervoxelHelpers X e seeds)).leaves s1 s2 →
            (∀ i, i ∈ h1.leaves_ → i ∉ h2.leaves_) ∧
              (h1.label_, h2.label_) ∉
                getSupervoxelAdjacency ((expandRound ops X)^[k]
                  (createSupervoxelHelpers X e seeds)) := by
  have hreach := iterate_expandRound_reach ops X seeds k 0 (createSupervoxelHelpers X e seeds)
    (fun h hh i hi => ⟨i, createSupervoxelHelpers_seed X e seeds h hh i hi, rfl⟩)
  rw [Nat.zero_add] at hreach
  have hlive := iterate_expandRound_ownerLive ops X k _
    (createSupervoxelHelpers_ownerLive X e seeds hun)
  generalize (expandRound ops X)^[k] (createSupervoxelHelpers X e seeds) = E at hreach hlive ⊢
  refine ⟨hreach, ?_⟩
  intro h1 hh1 h2 hh2 s1 s2 hs1 hs2 hnj
  refine ⟨?_, ?_⟩
  · intro i hi1 hi2
    obtain ⟨t1, ht1, r1⟩ := hreach h1 hh1 i hi1
    obtain ⟨t2, ht2, r2⟩ := hreach h2 hh2 i hi2
    rw [hs1] at ht1
    rw [hs2] at ht2
    cases ht1
    cases ht2
    exact hnj ((reachWithin_joined _ _ _ _ r1).trans
      (joined_symm _ _ _ (reachWithin_joined _ _ _ _ r2)))
  · intro hadj
    obtain ⟨h, hh, hla, hnb⟩ := (mem_getSupervoxelAdjacency E _ _).1 hadj
    obtain ⟨leaf, hleaf, n, hn, nv, hnv, hown, _⟩ := (mem_getNeighborLabels _ _ _).1 hnb
    obtain ⟨h3, hh3, hl3, hm3⟩ := hlive n nv hnv _ hown
    obtain ⟨t1, ht1, r1⟩ := hreach h hh leaf hleaf
    obtain ⟨t2, ht2, r2⟩ := hreach h3 hh3 n hm3
    rw [hla, hs1] at ht1
    rw [hl3, hs2] at ht2
    cases ht1
    cases ht2
    exact hnj (((reachWithin_joined _ _ _ _ r1).tail (Or.inl hn)).trans
      (joined_symm _ _ _ (reachWithin_joined _ _ _ _ r2)))

theorem bounded_reach_witness :
    AllUnowned ((prepareForSegmentation stepOps refExt teeEngine).getD teeEngine).leaves ∧
      ∀ h ∈ ((expandRound stepOps refExt)^[2] (createSupervoxelHelpers refExt
          ((prepareForSegmentation stepOps refExt teeEngine).getD teeEngine)
          [0, 2])).supervoxel_helpers_,
        ∀ i ∈ h.leaves_, ∃ s, [0, 2][h.label_ - 1]? = some s ∧
          reachWithin ((expandRound stepOps refExt)^[2] (createSupervoxelHelpers refExt
            ((prepareForSegmentation stepOps refExt teeEngine).getD teeEngine) [0, 2])).leaves
            2 s i :=
  ⟨by unfold AllUnowned; decide,
    (bounded_reach stepOps refExt
      ((prepareForSegmentation stepOps refExt teeEngine).getD teeEngine) [0, 2] 2
      (by unfold AllUnowned; decide)).1⟩

end Reach

section Frame

variable {F : Type}

attribute [local semireducible] Rat.add Rat.mul Rat.sub Rat.inv

theorem sameButNormal_refl (l : Leaf F) : SameButNormal l l :=
  ⟨rfl, rfl, rfl, rfl, rfl, rfl, rfl, rfl, rfl⟩

theorem sameButNormal_trans (a b c : Leaf F) (h1 : SameButNormal a b) (h2 : SameButNormal b c) :
    SameButNormal a c := by
  obtain ⟨a1, a2, a3, a4, a5, a6, a7, a8, a9⟩ := h1
  obtain ⟨b1, b2, b3, b4, b5, b6, b7, b8, b9⟩ := h2
  exact ⟨b1.trans a1, b2.trans a2, b3.trans a3, b4.trans a4, b5.trans a5, b6.trans a6,
    b7.trans a7, b8.trans a8, b9.trans a9⟩

theorem ownedBy_congr (l1 l2 : List (Leaf F)) (h : l1.map (·.owner_) = l2.map (·.owner_))
    (lab n : Nat) : ownedBy l1 lab n = ownedBy l2 lab n := by
  have h2 := congrArg (fun l => l[n]?) h
  simp only [List.getElem?_map] at h2
  unfold ownedBy
  cases h1 : l1[n]? with
  | none =>
    rw [h1] at h2
    cases h3 : l2[n]? with
    | none => rfl
    | some b => rw [h3] at h2; simp at h2
  | some a =>
    rw [h1] at h2
    cases h3 : l2[n]? with
    | none => rw [h3] at h2; simp at h2
    | some b =>
      rw [h3] at h2
      simp only [Option.map_some', Option.some.injEq] at h2
      simp only [h2]

theorem refineIndices_congr (l1 l2 : List (Leaf F)) (ho : l1.map (·.owner_) = l2.map (·.owner_))
    (hn : l1.map (·.neighbors) = l2.map (·.neighbors)) (lab leaf : Nat) :
    refineIndices l1 lab leaf = refineIndices l2 lab leaf := by
  unfold refineIndices
  have e1 : ownedBy l1 lab = ownedBy l2 lab := funext (ownedBy_congr l1 l2 ho lab)
  have e2 : neighborsOf l1 = neighborsOf l2 := funext (neighborsOf_congr l1 l2 hn)
  rw [e1, e2]

theorem mem_refineIndices (L : List (Leaf F)) (lab leaf n : Nat)
    (h : n ∈ refineIndices L lab leaf) :
    n = leaf ∨ (n ∈ neighborsOf L leaf ∧ ownedBy L lab n = true) ∨
      ∃ m ∈ neighborsOf L leaf, ownedBy L lab m = true ∧ n ∈ neighborsOf L m ∧
        ownedBy L lab n = true := by
  unfold refineIndices at h
  rcases List.mem_cons.1 h with h | h
  · exact Or.inl h
  · right
    have key : ∀ (ns : List Nat) (acc : List Nat),
        n ∈ ns.foldl (fun acc n =>
          if ownedBy L lab n then (acc ++ [n]) ++ (neighborsOf L n).filter (ownedBy L lab)
          else acc) acc →
        n ∈ acc ∨ (n ∈ ns ∧ ownedBy L lab n = true) ∨
          ∃ m ∈ ns, ownedBy L lab m = true ∧ n ∈ neighborsOf L m ∧ ownedBy L lab n = true := by
      intro ns
      induction ns with
      | nil => intro acc h; exact Or.inl h
      | cons a t ih =>
        intro acc h
        rw [List.foldl_cons] at h
        rcases ih _ h with h1 | ⟨h1, h2⟩ | ⟨m, hm, h1, h2, h3⟩
        · by_cases ha : ownedBy L lab a = true
          · rw [if_pos ha] at h1
            rcases List.mem_append.1 h1 with h1 | h1
            · rcases List.mem_append.1 h1 with h1 | h1
              · exact Or.inl h1
              · rw [List.mem_singleton.1 h1]
                exact Or.inr (Or.inl ⟨List.mem_cons_self _ _, ha⟩)
            · obtain ⟨h2, h3⟩ := List.mem_filter.1 h1
              exact Or.inr (Or.inr ⟨a, List.mem_cons_self _ _, ha, h2, h3⟩)
          · rw [if_neg ha] at h1
            exact Or.inl h1
        · exact Or.inr (Or.inl ⟨List.mem_cons_of_mem _ h1, h2⟩)
        · exact Or.inr (Or.inr ⟨m, List.mem_cons_of_mem _ hm, h1, h2, h3⟩)
    rcases key _ _ h with h1 | h1 | h1
    · simp at h1
    · exact Or.inl h1
    · exact Or.inr h1

theorem storeCentroid_frame (e : Engine F) (idx : Nat) (c : Voxel F) :
    (storeCentroid e idx c).leaves.map (·.neighbors) = e.leaves.map (·.neighbors) ∧
      (∀ i, idx ≠ i → (storeCentroid e idx c).leaves[i]? = e.leaves[i]? ∧
        (storeCentroid e idx c).voxel_centroid_cloud_[i]? = e.voxel_centroid_cloud_[i]?) ∧
      ∀ l, e.leaves[idx]? = some l →
        (storeCentroid e idx c).leaves[idx]? = some { l with voxel_centroid_ := c } := by
  unfold storeCentroid
  cases hi : e.leaves[idx]? with
  | none =>
    refine ⟨rfl, fun i _ => ⟨rfl, rfl⟩, fun l hl => ?_⟩
    cases hl
  | some l =>
    have hlt : idx < e.leaves.length := (List.getElem?_eq_some.1 hi).1
    refine ⟨?_, fun i hne => ⟨?_, ?_⟩, fun l1 hl1 => ?_⟩
    · exact map_set_same (fun l : Leaf F => l.neighbors) _ _ _ _ hi rfl
    · simp only [List.getElem?_set_ne hne]
    · simp only [List.getElem?_set_ne hne]
    · cases hl1
      simp only [List.getElem?_set_self hlt]

theorem assignNormal_frame (X : Ext F) (v : Voxel F) (res : (F × F × F × F) × F) :
    (assignNormal X v res).x = v.x ∧ (assignNormal X v res).y = v.y ∧
      (assignNormal X v res).z = v.z ∧ (assignNormal X v res).r = v.r ∧
      (assignNormal X v res).g = v.g ∧ (assignNormal X v res).b = v.b :=
  ⟨rfl, rfl, rfl, rfl, rfl, rfl⟩

theorem refineLeaf_frame (X : Ext F) (lab : Nat) (e : Engine F) (leaf : Nat) :
    (refineLeaf X lab e leaf).leaves.map (·.neighbors) = e.leaves.map (·.neighbors) ∧
      (∀ i, leaf ≠ i → (refineLeaf X lab e leaf).leaves[i]? = e.leaves[i]? ∧
        (refineLeaf X lab e leaf).voxel_centroid_cloud_[i]? = e.voxel_centroid_cloud_[i]?) ∧
      ((refineIndices e.leaves lab leaf).length < 4 → refineLeaf X lab e leaf = e) ∧
      ∀ (i : Nat) (l : Leaf F), e.leaves[i]? = some l →
        ∃ l1 : Leaf F, (refineLeaf X lab e leaf).leaves[i]? = some l1 ∧ SameButNormal l l1 := by
  unfold refineLeaf
  cases hl : e.leaves[leaf]? with
  | none =>
    exact ⟨rfl, fun i _ => ⟨rfl, rfl⟩, fun _ => rfl,
      fun i l hi => ⟨l, hi, sameButNormal_refl l⟩⟩
  | some l0 =>
    simp only
    by_cases hlen : (refineIndices e.leaves lab leaf).length ≥ 4
    · rw [if_pos hlen]
      obtain ⟨s1, s2, s3⟩ := storeCentroid_frame e leaf (assignNormal X l0.voxel_centroid_
        (X.computePointNormal e.voxel_centroid_cloud_ (refineIndices e.leaves lab leaf)))
      refine ⟨s1, s2, fun hlt => absurd hlen (Nat.not_le.2 hlt), ?_⟩
      intro i l hi
      by_cases hne : leaf = i
      · subst hne
        rw [hl] at hi
        cases hi
        refine ⟨_, s3 l0 hl, ?_⟩
        exact ⟨rfl, rfl, rfl, rfl, rfl, rfl, rfl, rfl, rfl⟩
      · exact ⟨l, ((s2 i hne).1).trans hi, sameButNormal_refl l⟩
    · rw [if_neg hlen]
      exact ⟨rfl, fun i _ => ⟨rfl, rfl⟩, fun _ => rfl,
        fun i l hi => ⟨l, hi, sameButNormal_refl l⟩⟩

theorem refineLeaf_cloud (X : Ext F) (lab : Nat) (e : Engine F) (leaf : Nat)
    (h : e.voxel_centroid_cloud_ = e.leaves.map (·.voxel_centroid_)) :
    (refineLeaf X lab e leaf).voxel_centroid_cloud_ =
      (refineLeaf X lab e leaf).leaves.map (·.voxel_centroid_) := by
  unfold refineLeaf
  cases e.leaves[leaf]? with
  | none => exact h
  | some l =>
    simp only
    split_ifs
    · exact storeCentroid_cloud _ _ _ h
    · exact h

theorem foldl_refineLeaf_frame (X : Ext F) (lab : Nat) (ls : List Nat) (e : Engine F) :
    (ls.foldl (refineLeaf X lab) e).leaves.map (·.owner_) = e.leaves.map (·.owner_) ∧
      (ls.foldl (refineLeaf X lab) e).leaves.map (·.neighbors) = e.leaves.map (·.neighbors) ∧
      (∀ (i : Nat) (l : Leaf F), e.leaves[i]? = some l →
        ∃ l1 : Leaf F, (ls.foldl (refineLeaf X lab) e).leaves[i]? = some l1 ∧ SameButNormal l l1) ∧
      (∀ i, (i ∉ ls ∨ (refineIndices e.leaves lab i).length < 4) →
        (ls.foldl (refineLeaf X lab) e).leaves[i]? = e.leaves[i]? ∧
          (ls.foldl (refineLeaf X lab) e).voxel_centroid_cloud_[i]? =
            e.voxel_centroid_cloud_[i]?) ∧
      (e.voxel_centroid_cloud_ = e.leaves.map (·.voxel_centroid_) →
        (ls.foldl (refineLeaf X lab) e).voxel_centroid_cloud_ =
          (ls.foldl (refineLeaf X lab) e).leaves.map (·.voxel_centroid_)) := by
  induction ls generalizing e with
  | nil =>
    exact ⟨rfl, rfl, fun i l hi => ⟨l, hi, sameButNormal_refl l⟩, fun _ _ => ⟨rfl, rfl⟩,
      fun h => h⟩
  | cons b t ih =>
    rw [List.foldl_cons]
    obtain ⟨i1, i2, i3, i4, i5⟩ := ih (refineLeaf X lab e b)
    obtain ⟨f1, f2, f3, f4⟩ := refineLeaf_frame X lab e b
    have fo := (refineLeaf_spec X lab e b).2
    refine ⟨i1.trans fo, i2.trans f1, ?_, ?_, fun h => i5 (refineLeaf_cloud X lab e b h)⟩
    · intro i l hi
      obtain ⟨l1, h1, s1⟩ := f4 i l hi
      obtain ⟨l2, h2, s2⟩ := i3 i l1 h1
      exact ⟨l2, h2, sameButNormal_trans _ _ _ s1 s2⟩
    · intro i hi
      have hidx : refineIndices (refineLeaf X lab e b).leaves lab i =
          refineIndices e.leaves lab i := refineIndices_congr _ _ fo f1 lab i
      have hstep : (refineLeaf X lab e b).leaves[i]? = e.leaves[i]? ∧
          (refineLeaf X lab e b).voxel_centroid_cloud_[i]? = e.voxel_centroid_cloud_[i]? := by
        by_cases hbi : b = i
        · subst hbi
          rcases hi with hi | hi
          · exact absurd (List.mem_cons_self _ _) hi
          · rw [f3 hi]
            exact ⟨rfl, rfl⟩
        · exact f2 i hbi
      have hrest := i4 i (by
        rcases hi with hi | hi
        · exact Or.inl (fun hm => hi (List.mem_cons_of_mem _ hm))
        · exact Or.inr (by rw [hidx]; exact hi))
      exact ⟨hrest.1.trans hstep.1, hrest.2.trans hstep.2⟩

/-- C35: `refineNormals` on the helper `h` gathers for a leaf only the leaf itself, neighbours
owned by `h` and neighbours owned by `h` of such neighbours.  The call changes no helper; every
leaf keeps its owner, distance, neighbour list, position and colour; a leaf outside the leaf
set of `h`, or one for which fewer than 4 indices are gathered, is left as it was, and so is its
entry of the centroid array; and a centroid array that matched the leaves still matches them. -/
theorem refinement_frame (X : Ext F) (e : Engine F) (k : Nat) (h : SupervoxelHelper F)
    (hk : e.supervoxel_helpers_[k]? = some h) :
    (∀ leaf n, n ∈ refineIndices e.leaves h.label_ leaf →
        n = leaf ∨ (n ∈ neighborsOf e.leaves leaf ∧ ownedBy e.leaves h.label_ n = true) ∨
          ∃ m ∈ neighborsOf e.leaves leaf, ownedBy e.leaves h.label_ m = true ∧
            n ∈ neighborsOf e.leaves m ∧ ownedBy e.leaves h.label_ n = true) ∧
      (refineNormals X e k).supervoxel_helpers_ = e.supervoxel_helpers_ ∧
      (∀ (i : Nat) (l : Leaf F), e.leaves[i]? = some l →
        ∃ l1 : Leaf F, (refineNormals X e k).leaves[i]? = some l1 ∧ SameButNormal l l1) ∧
      (∀ i, (i ∉ h.leaves_ ∨ (refineIndices e.leaves h.label_ i).length < 4) →
        (refineNormals X e k).leaves[i]? = e.leaves[i]? ∧
          (refineNormals X e k).voxel_centroid_cloud_[i]? = e.voxel_centroid_cloud_[i]?) ∧
      (e.voxel_centroid_cloud_ = e.leaves.map (·.voxel_centroid_) →
        (refineNormals X e k).voxel_centroid_cloud_ =
          (refineNormals X e k).leaves.map (·.voxel_centroid_)) := by
  refine ⟨fun leaf n hn => mem_refineIndices _ _ _ _ hn, (refineNormals_spec X e k).1, ?_⟩
  unfold refineNormals
  rw [hk]
  obtain ⟨_, _, a3, a4, a5⟩ := foldl_refineLeaf_frame X h.label_ h.leaves_ e
  exact ⟨a3, a4, a5⟩

theorem refinement_frame_witness :
    (extract stepOps refExt wideEngine []).1.supervoxel_helpers_[0]? = some wideHelper ∧
      ∀ (i : Nat) (l : Leaf ℚ), (extract stepOps refExt wideEngine []).1.leaves[i]? = some l →
        ∃ l1 : Leaf ℚ,
          (refineNormals refExt (extract stepOps refExt wideEngine []).1 0).leaves[i]? = some l1 ∧
            SameButNormal l l1 :=
  ⟨by decide,
    (refinement_frame refExt (extract stepOps refExt wideEngine []).1 0 wideHelper
      (by decide)).2.2.1⟩

end Frame

section Reseed

variable {F : Type}

attribute [local semireducible] Rat.add Rat.mul Rat.sub Rat.inv

theorem removeAllLeaves_eq (ops : FloatOps F) (E : Engine F) (m : Nat) (h : SupervoxelHelper F)
    (hk : E.supervoxel_helpers_[m]? = some h) :
    (removeAllLeaves ops E m).supervoxel_helpers_ =
        E.supervoxel_helpers_.set m (SupervoxelHelper.mk h.label_ [] h.centroid_) ∧
      (removeAllLeaves ops E m).leaves = h.leaves_.foldl (resetLeaf ops) E.leaves ∧
      (removeAllLeaves ops E m).voxel_centroid_cloud_ = E.voxel_centroid_cloud_ := by
  unfold removeAllLeaves
  rw [hk]
  exact ⟨rfl, rfl, rfl⟩

theorem reseedStep_eq (X : Ext F) (E : Engine F) (m : Nat) (h : SupervoxelHelper F)
    (hk : E.supervoxel_helpers_[m]? = some h)
    (hlt : X.nearestKSearch E.voxel_centroid_cloud_ h.centroid_ < E.leaves.length) :
    (reseedStep X E m).supervoxel_helpers_ =
        E.supervoxel_helpers_.set m (SupervoxelHelper.mk h.label_
          (setInsert (X.nearestKSearch E.voxel_centroid_cloud_ h.centroid_) h.leaves_)
          h.centroid_) ∧
      (reseedStep X E m).leaves =
        E.leaves.modify (fun l => Leaf.mk l.voxel_centroid_ (some h.label_) l.distance_ l.neighbors)
          (X.nearestKSearch E.voxel_centroid_cloud_ h.centroid_) ∧
      (reseedStep X E m).voxel_centroid_cloud_ = E.voxel_centroid_cloud_ := by
  unfold reseedStep
  rw [hk]
  simp only
  rw [if_pos hlt]
  unfold addLeaf
  rw [hk]
  exact ⟨rfl, rfl, rfl⟩

theorem resetLeaf_unreached (ops : FloatOps F) (L : List (Leaf F)) (i : Nat)
    (h : Unreached ops L) : Unreached ops (resetLeaf ops L i) := by
  intro l hl ho
  unfold resetLeaf at hl
  rcases mem_modify_cases _ _ _ _ hl with hl | ⟨a, _, rfl⟩
  · exact h l hl ho
  · rfl

theorem foldl_resetLeaf_unreached (ops : FloatOps F) (ls : List Nat) (L : List (Leaf F))
    (h : Unreached ops L) :
    Unreached ops (ls.foldl (resetLeaf ops) L) ∧
      (ls.foldl (resetLeaf ops) L).length = L.length := by
  induction ls generalizing L with
  | nil => exact ⟨h, rfl⟩
  | cons b t ih =>
    rw [List.foldl_cons]
    obtain ⟨i1, i2⟩ := ih _ (resetLeaf_unreached ops L b h)
    refine ⟨i1, i2.trans ?_⟩
    unfold resetLeaf
    exact List.length_modify _ _ _

theorem removeAll_phase (ops : FloatOps F) (e : Engine F)
    (hl : OwnerLive e.leaves e.supervoxel_helpers_) (hu : Unreached ops e.leaves) :
    ((List.range e.supervoxel_helpers_.length).foldl (removeAllLeaves ops)
        e).voxel_centroid_cloud_ = e.voxel_centroid_cloud_ ∧
      ((List.range e.supervoxel_helpers_.length).foldl (removeAllLeaves ops) e).leaves.length =
        e.leaves.length ∧
      (∀ p : Nat, ((List.range e.supervoxel_helpers_.length).foldl (removeAllLeaves ops)
          e).supervoxel_helpers_[p]? =
        (e.supervoxel_helpers_[p]?).map fun h => SupervoxelHelper.mk h.label_ [] h.centroid_) ∧
      ∀ l ∈ ((List.range e.supervoxel_helpers_.length).foldl (removeAllLeaves ops) e).leaves,
        l.owner_ = none ∧ l.distance_ = ops.maxVal := by
  have key := foldl_range_inv (removeAllLeaves ops)
    (fun m (E : Engine F) =>
      E.voxel_centroid_cloud_ = e.voxel_centroid_cloud_ ∧
        E.leaves.length = e.leaves.length ∧
        (∀ p : Nat, E.supervoxel_helpers_[p]? =
          if p < m then (e.supervoxel_helpers_[p]?).map
            fun h => SupervoxelHelper.mk h.label_ [] h.centroid_
          else e.supervoxel_helpers_[p]?) ∧
        Unreached ops E.leaves)
    e.supervoxel_helpers_.length e
    ⟨rfl, rfl, fun p => by simp, hu⟩
    (by
      intro m E _ hE
      obtain ⟨b1, b2, b3, b4⟩ := hE
      have hm : E.supervoxel_helpers_[m]? = e.supervoxel_helpers_[m]? := by
        rw [b3 m, if_neg (lt_irrefl m)]
      cases hk : E.supervoxel_helpers_[m]? with
      | none =>
        have hsame : removeAllLeaves ops E m = E := by unfold removeAllLeaves; rw [hk]
        rw [hsame]
        refine ⟨b1, b2, fun p => ?_, b4⟩
        by_cases hpm : p = m
        · subst hpm
          rw [if_pos (Nat.lt_succ_self p), ← hm, hk]
          rfl
        · rw [b3 p]
          by_cases hlt : p < m
          · rw [if_pos hlt, if_pos (Nat.lt_succ_of_lt hlt)]
          · rw [if_neg hlt, if_neg (by omega)]
      | some h =>
        obtain ⟨r1, r2, r3⟩ := removeAllLeaves_eq ops E m h hk
        obtain ⟨u1, u2⟩ := foldl_resetLeaf_unreached ops h.leaves_ E.leaves b4
        rw [r1, r2, r3]
        refine ⟨b1, u2.trans b2, fun p => ?_, u1⟩
        have hlt : m < E.supervoxel_helpers_.length := (List.getElem?_eq_some.1 hk).1
        by_cases hpm : p = m
        · subst hpm
          rw [if_pos (Nat.lt_succ_self p), List.getElem?_set_self hlt, ← hm, hk]
          rfl
        · rw [List.getElem?_set_ne (fun hh => hpm hh.symm), b3 p]
          by_cases hlt2 : p < m
          · rw [if_pos hlt2, if_pos (Nat.lt_succ_of_lt hlt2)]
          · rw [if_neg hlt2, if_neg (by omega)])
  have hlive := (foldl_keeps (removeAllLeaves ops) (removeAllLeaves_labels ops)
    (removeAllLeaves_ownerLive ops) (List.range e.supervoxel_helpers_.length) e).2 hl
  generalize (List.range e.supervoxel_helpers_.length).foldl (removeAllLeaves ops) e = E
    at key hlive ⊢
  obtain ⟨k1, k2, k3, k4⟩ := key
  have hhelp : ∀ p : Nat, E.supervoxel_helpers_[p]? =
      (e.supervoxel_helpers_[p]?).map fun h => SupervoxelHelper.mk h.label_ [] h.centroid_ := by
    intro p
    rw [k3 p]
    by_cases hlt : p < e.supervoxel_helpers_.length
    · rw [if_pos hlt]
    · rw [if_neg hlt, List.getElem?_eq_none (Nat.le_of_not_lt hlt)]
      rfl
  refine ⟨k1, k2, hhelp, ?_⟩
  intro l hl1
  have hown : l.owner_ = none := by
    cases ho : l.owner_ with
    | none => rfl
    | some a =>
      exfalso
      obtain ⟨i, hi⟩ := List.mem_iff_getElem?.1 hl1
      obtain ⟨h, hh, _, hmem⟩ := hlive i l hi a ho
      obtain ⟨p, hp⟩ := List.mem_iff_getElem?.1 hh
      rw [hhelp p] at hp
      cases h0 : e.supervoxel_helpers_[p]? with
      | none => rw [h0] at hp; simp at hp
      | some a0 =>
        rw [h0] at hp
        simp only [Option.map_some', Option.some.injEq] at hp
        rw [← hp] at hmem
        simp at hmem
  exact ⟨hown, k4 l hl1 hown⟩

theorem reseed_phase (ops : FloatOps F) (X : Ext F) (e e1 : Engine F)
    (hc : e1.voxel_centroid_cloud_ = e.voxel_centroid_cloud_)
    (hlen : e1.leaves.length = e.leaves.length)
    (hh : ∀ p : Nat, e1.supervoxel_helpers_[p]? =
      (e.supervoxel_helpers_[p]?).map fun h => SupervoxelHelper.mk h.label_ [] h.centroid_)
    (hall : ∀ l ∈ e1.leaves, l.owner_ = none ∧ l.distance_ = ops.maxVal)
    (hnear : ∀ h ∈ e.supervoxel_helpers_,
      X.nearestKSearch e.voxel_centroid_cloud_ h.centroid_ < e.leaves.length) :
    (∀ p : Nat, ((List.range e.supervoxel_helpers_.length).foldl (reseedStep X)
        e1).supervoxel_helpers_[p]? =
      (e.supervoxel_helpers_[p]?).map fun h => SupervoxelHelper.mk h.label_
        [X.nearestKSearch e.voxel_centroid_cloud_ h.centroid_] h.centroid_) ∧
      (∀ l ∈ ((List.range e.supervoxel_helpers_.length).foldl (reseedStep X) e1).leaves,
        l.distance_ = ops.maxVal) ∧
      (∀ (i : Nat) (l : Leaf F),
        ((List.range e.supervoxel_helpers_.length).foldl (reseedStep X) e1).leaves[i]? = some l →
        l.owner_ ≠ none →
        ∃ h ∈ e.supervoxel_helpers_, X.nearestKSearch e.voxel_centroid_cloud_ h.centroid_ = i) ∧
      ∀ h ∈ e.supervoxel_helpers_,
        ownerOf ((List.range e.supervoxel_helpers_.length).foldl (reseedStep X) e1).leaves
          (X.nearestKSearch e.voxel_centroid_cloud_ h.centroid_) ≠ none := by
  have key := foldl_range_inv (reseedStep X)
    (fun m (E : Engine F) =>
      E.voxel_centroid_cloud_ = e.voxel_centroid_cloud_ ∧
        E.leaves.length = e.leaves.length ∧
        (∀ p : Nat, E.supervoxel_helpers_[p]? =
          if p < m then (e.supervoxel_helpers_[p]?).map fun h => SupervoxelHelper.mk h.label_
            [X.nearestKSearch e.voxel_centroid_cloud_ h.centroid_] h.centroid_
          else (e.supervoxel_helpers_[p]?).map
            fun h => SupervoxelHelper.mk h.label_ [] h.centroid_) ∧
        (∀ l ∈ E.leaves, l.distance_ = ops.maxVal) ∧
        (∀ (i : Nat) (l : Leaf F), E.leaves[i]? = some l → l.owner_ ≠ none →
          ∃ h ∈ e.supervoxel_helpers_,
            X.nearestKSearch e.voxel_centroid_cloud_ h.centroid_ = i) ∧
        ∀ (p : Nat) (h : SupervoxelHelper F), p < m → e.supervoxel_helpers_[p]? = some h →
          ownerOf E.leaves (X.nearestKSearch e.voxel_centroid_cloud_ h.centroid_) ≠ none)
    e.supervoxel_helpers_.length e1
    ⟨hc, hlen, fun p => by simp [hh p], fun l hl => (hall l hl).2,
      fun i l hi ho => absurd (hall l (List.mem_iff_getElem?.2 ⟨i, hi⟩)).1 ho,
      fun p h hp => absurd hp (Nat.not_lt_zero p)⟩
    (by
      intro m E hmn hE
      obtain ⟨b1, b2, b3, b4, b5, b6⟩ := hE
      obtain ⟨h0, hh0⟩ : ∃ h0, e.supervoxel_helpers_[m]? = some h0 :=
        ⟨_, List.getElem?_eq_getElem hmn⟩
      have hmem0 : h0 ∈ e.supervoxel_helpers_ := List.mem_iff_getElem?.2 ⟨m, hh0⟩
      have hk : E.supervoxel_helpers_[m]? =
          some (SupervoxelHelper.mk h0.label_ [] h0.centroid_) := by
        rw [b3 m, if_neg (lt_irrefl m), hh0]
        rfl
      have hlt : X.nearestKSearch E.voxel_centroid_cloud_
          (SupervoxelHelper.mk h0.label_ [] h0.centroid_).centroid_ < E.leaves.length := by
        rw [b1, b2]
        exact hnear h0 hmem0
      obtain ⟨r1, r2, r3⟩ := reseedStep_eq X E m _ hk hlt
      rw [r1, r2, r3, b1]
      simp only [setInsert]
      have hlt2 : X.nearestKSearch e.voxel_centroid_cloud_ h0.centroid_ < E.leaves.length := by
        rw [b2]
        exact hnear h0 hmem0
      refine ⟨trivial, (List.length_modify _ _ _).trans b2, fun p => ?_, ?_, ?_, ?_⟩
      · have hltm : m < E.supervoxel_helpers_.length := (List.getElem?_eq_some.1 hk).1
        by_cases hpm : p = m
        · subst hpm
          rw [if_pos (Nat.lt_succ_self p), List.getElem?_set_self hltm, hh0]
          rfl
        · rw [List.getElem?_set_ne (fun hh => hpm hh.symm), b3 p]
          by_cases hlt3 : p < m
          · rw [if_pos hlt3, if_pos (Nat.lt_succ_of_lt hlt3)]
          · rw [if_neg hlt3, if_neg (by omega)]
      · intro l hl
        rcases mem_modify_cases _ _ _ _ hl with hl | ⟨a, ha, rfl⟩
        · exact b4 l hl
        · exact b4 a (List.mem_iff_getElem?.2 ⟨_, ha⟩)
      · intro i l hi ho
        by_cases hci : X.nearestKSearch e.voxel_centroid_cloud_ h0.centroid_ = i
        · exact ⟨h0, hmem0, hci⟩
        · rw [List.getElem?_modify_ne _ _ hci] at hi
          exact b5 i l hi ho
      · intro p h hp hhp
        by_cases hci : X.nearestKSearch e.voxel_centroid_cloud_ h0.centroid_ =
            X.nearestKSearch e.voxel_centroid_cloud_ h.centroid_
        · rw [← hci]
          unfold ownerOf
          rw [List.getElem?_modify_eq, List.getElem?_eq_getElem hlt2]
          simp
        · rw [ownerOf_modify_ne _ _ _ _ hci]
          have hpm : p < m := by
            rcases Nat.lt_succ_iff_lt_or_eq.1 hp with h1 | h1
            · exact h1
            · exfalso
              subst h1
              rw [hh0] at hhp
              cases hhp
              exact hci rfl
          exact b6 p h hpm hhp)
  obtain ⟨_, _, k3, k4, k5, k6⟩ := key
  refine ⟨fun p => ?_, k4, k5, ?_⟩
  · rw [k3 p]
    by_cases hlt : p < e.supervoxel_helpers_.length
    · rw [if_pos hlt]
    · rw [if_neg hlt, List.getElem?_eq_none (Nat.le_of_not_lt hlt)]
      rfl
  · intro h hmem
    obtain ⟨p, hp⟩ := List.mem_iff_getElem?.1 hmem
    exact k6 p h (List.getElem?_eq_some.1 hp).1 hp

/-- C32: on a state in which every owner pointer is live, every leaf without owner has the
largest float as distance and the nearest-neighbour search returns the index of a leaf of the
octree, `reseedSupervoxels` leaves every helper with its label and centroid and a leaf set
holding exactly the leaf nearest to that centroid; each such leaf has an owner, and every
leaf that is nearest to no helper has no owner and the largest float as distance. -/
theorem reseeding (ops : FloatOps F) (X : Ext F) (e : Engine F)
    (hl : OwnerLive e.leaves e.supervoxel_helpers_) (hu : Unreached ops e.leaves)
    (hnear : ∀ h ∈ e.supervoxel_helpers_,
      X.nearestKSearch e.voxel_centroid_cloud_ h.centroid_ < e.leaves.length) :
    (reseedSupervoxels ops X e).supervoxel_helpers_ =
        e.supervoxel_helpers_.map (fun h => SupervoxelHelper.mk h.label_
          [X.nearestKSearch e.voxel_centroid_cloud_ h.centroid_] h.centroid_) ∧
      (∀ h ∈ e.supervoxel_helpers_,
        ownerOf (reseedSupervoxels ops X e).leaves
          (X.nearestKSearch e.voxel_centroid_cloud_ h.centroid_) ≠ none) ∧
      ∀ (i : Nat) (l : Leaf F), (reseedSupervoxels ops X e).leaves[i]? = some l →
        (∀ h ∈ e.supervoxel_helpers_,
          X.nearestKSearch e.voxel_centroid_cloud_ h.centroid_ ≠ i) →
        l.owner_ = none ∧ l.distance_ = ops.maxVal := by
  obtain ⟨p1, p2, p3, p4⟩ := removeAll_phase ops e hl hu
  unfold reseedSupervoxels
  simp only
  have hn : ((List.range e.supervoxel_helpers_.length).foldl (removeAllLeaves ops)
      e).supervoxel_helpers_.length = e.supervoxel_helpers_.length := by
    have := congrArg List.length (foldl_keeps (removeAllLeaves ops) (removeAllLeaves_labels ops)
      (removeAllLeaves_ownerLive ops) (List.range e.supervoxel_helpers_.length) e).1
    simpa [labels] using this
  rw [hn]
  obtain ⟨q1, q2, q3, q4⟩ := reseed_phase ops X e _ p1 p2 p3 p4 hnear
  refine ⟨?_, q4, ?_⟩
  · apply List.ext_getElem?
    intro p
    rw [q1 p, List.getElem?_map]
  · intro i l hi hno
    refine ⟨?_, q2 l (List.mem_iff_getElem?.2 ⟨i, hi⟩)⟩
    by_contra ho
    obtain ⟨h, hh, hi2⟩ := q3 i l hi ho
    exact hno h hh hi2

theorem reseeding_witness :
    OwnerLive (extract stepOps refExt teeEngine []).1.leaves
        (extract stepOps refExt teeEngine []).1.supervoxel_helpers_ ∧
      Unreached stepOps (extract stepOps refExt teeEngine []).1.leaves ∧
      (reseedSupervoxels stepOps refExt
          (extract stepOps refExt teeEngine []).1).supervoxel_helpers_ =
        (extract stepOps refExt teeEngine []).1.supervoxel_helpers_.map
          (fun h => SupervoxelHelper.mk h.label_
            [refExt.nearestKSearch (extract stepOps refExt teeEngine []).1.voxel_centroid_cloud_
              h.centroid_] h.centroid_) :=
  ⟨(extract_keeps stepOps refExt teeEngine [] ⟨rfl, rfl⟩).2, by unfold Unreached; decide,
    (reseeding stepOps refExt (extract stepOps refExt teeEngine []).1
      (extract_keeps stepOps refExt teeEngine [] ⟨rfl, rfl⟩).2 (by unfold Unreached; decide)
      (by decide)).1⟩

end Reseed

section Reached

variable {F : Type}

theorem untouched_refl (L : List (Leaf F)) : Untouched L L :=
  fun _ _ h _ => h

theorem untouched_trans (L1 L2 L3 : List (Leaf F)) (h12 : Untouched L1 L2)
    (h23 : Untouched L2 L3) : Untouched L1 L3 :=
  fun i l h ho => h12 i l (h23 i l h ho) ho

theorem unreached_of_untouched (ops : FloatOps F) (L L1 : List (Leaf F)) (h : Untouched L L1)
    (hu : Unreached ops L) : Unreached ops L1 := by
  intro l hl ho
  obtain ⟨i, hi⟩ := List.mem_iff_getElem?.1 hl
  exact hu l (List.mem_iff_getElem?.2 ⟨i, h i l hi ho⟩) ho

theorem untouched_modify (L : List (Leaf F)) (g : Leaf F → Leaf F) (n : Nat)
    (hg : ∀ l, (g l).owner_ ≠ none) : Untouched L (L.modify g n) := by
  intro i l hi ho
  by_cases hni : n = i
  · subst hni
    rw [List.getElem?_modify_eq] at hi
    cases hl : L[n]? with
    | none => rw [hl] at hi; simp at hi
    | some a =>
      rw [hl] at hi
      simp only [Option.map_eq_map, Option.map_some', Option.some.injEq] at hi
      rw [← hi] at ho
      exact absurd ho (hg a)
  · rw [List.getElem?_modify_ne _ _ hni] at hi
    exact hi

theorem addLeaf_untouched (e : Engine F) (k leaf : Nat) :
    Untouched e.leaves (addLeaf e k leaf).leaves := by
  unfold addLeaf
  cases e.supervoxel_helpers_[k]? with
  | none => exact untouched_refl _
  | some h => exact untouched_modify _ _ _ (fun _ => by simp)

theorem createSupervoxelHelpers_untouched (X : Ext F) (e : Engine F) (seeds : List Nat) :
    Untouched e.leaves (createSupervoxelHelpers X e seeds).leaves := by
  unfold createSupervoxelHelpers
  have key : ∀ (ss : List Nat) (e0 : Engine F),
      Untouched e0.leaves (ss.foldl (createStep X) e0).leaves := by
    intro ss
    induction ss with
    | nil => intro e0; exact untouched_refl _
    | cons s t ih =>
      intro e0
      rw [List.foldl_cons]
      refine untouched_trans _ _ _ ?_ (ih _)
      unfold createStep
      simp only
      split_ifs
      · exact addLeaf_untouched _ _ _
      · exact untouched_refl _
  exact key seeds _

theorem expandVisit_untouched (ops : FloatOps F) (e : Engine F) (lab : Nat) (c : Voxel F)
    (s : ExpandState F) (n : Nat) :
    Untouched s.leaves (expandVisit ops e lab c s n).leaves := by
  rcases expandVisit_cases ops e lab c s n with h | ⟨nv, hnv, _, _, h⟩
  · rw [h]; exact untouched_refl _
  · rw [h]
    intro i l hi ho
    simp only at hi
    by_cases hni : n = i
    · subst hni
      have hlt : n < s.leaves.length := (List.getElem?_eq_some.1 hnv).1
      rw [List.getElem?_set_self hlt] at hi
      simp only [Option.some.injEq] at hi
      rw [← hi] at ho
      simp at ho
    · rw [List.getElem?_set_ne hni] at hi
      exact hi

theorem expandLoops_untouched (ops : FloatOps F) (e : Engine F) (h : SupervoxelHelper F)
    (ls : List Nat) (s : ExpandState F) :
    Untouched s.leaves (expandLoops ops e h ls s).leaves := by
  have inner : ∀ (ns : List Nat) (s : ExpandState F),
      Untouched s.leaves (ns.foldl (expandVisit ops e h.label_ h.centroid_) s).leaves := by
    intro ns
    induction ns with
    | nil => intro s; exact untouched_refl _
    | cons n t ih =>
      intro s
      rw [List.foldl_cons]
      exact untouched_trans _ _ _ (expandVisit_untouched ops e _ _ s n) (ih _)
  induction ls generalizing s with
  | nil => exact untouched_refl _
  | cons l t ih =>
    unfold expandLoops at ih ⊢
    rw [List.foldl_cons]
    exact untouched_trans _ _ _ (inner _ s) (ih _)

theorem expand_untouched (ops : FloatOps F) (e : Engine F) (k : Nat) :
    Untouched e.leaves (expand ops e k).leaves := by
  cases hk : e.supervoxel_helpers_[k]? with
  | none => unfold expand; rw [hk]; exact untouched_refl _
  | some h =>
    rw [expand_eq ops e k h hk]
    exact expandLoops_untouched ops e h h.leaves_
      { leaves := e.leaves, helpers := e.supervoxel_helpers_, new_owned := [] }

theorem expandRound_untouched (ops : FloatOps F) (X : Ext F) (e : Engine F) :
    Untouched e.leaves (expandRound ops X e).leaves := by
  have key : ∀ (ks : List Nat) (e0 : Engine F),
      Untouched e0.leaves (ks.foldl (expand ops) e0).leaves := by
    intro ks
    induction ks with
    | nil => intro e0; exact untouched_refl _
    | cons k t ih =>
      intro e0
      rw [List.foldl_cons]
      exact untouched_trans _ _ _ (expand_untouched ops e0 k) (ih _)
  exact key _ e

theorem expandSupervoxels_untouched (ops : FloatOps F) (X : Ext F) (e : Engine F)
    (depth : Int) : Untouched e.leaves (expandSupervoxels ops X e depth).leaves := by
  unfold expandSupervoxels
  generalize (depth - 1).toNat = n
  induction n generalizing e with
  | zero => exact untouched_refl _
  | succ n ih =>
    rw [Function.iterate_succ_apply]
    exact untouched_trans _ _ _ (expandRound_untouched ops X e) (ih _)

theorem storeCentroid_distance (e : Engine F) (idx : Nat) (c : Voxel F) :
    (storeCentroid e idx c).leaves.map (·.distance_) = e.leaves.map (·.distance_) := by
  unfold storeCentroid
  cases hi : e.leaves[idx]? with
  | none => rfl
  | some l => exact map_set_same (fun l : Leaf F => l.distance_) _ _ _ _ hi rfl

theorem computeVoxelData_distance (X : Ext F) (e : Engine F) :
    (computeVoxelData X e).leaves.map (·.distance_) = e.leaves.map (·.distance_) := by
  have key : ∀ (ls : List Nat) (e0 : Engine F),
      (ls.foldl (computeLeafNormal X) e0).leaves.map (·.distance_) =
        e0.leaves.map (·.distance_) := by
    intro ls
    induction ls with
    | nil => intro e0; rfl
    | cons b t ih =>
      intro e0
      rw [List.foldl_cons, ih]
      unfold computeLeafNormal
      cases e0.leaves[b]? with
      | none => rfl
      | some l => exact storeCentroid_distance _ _ _
  unfold computeVoxelData
  simp only
  split_ifs
  · exact key _ _
  · rfl

theorem prepareForSegmentation_unreached (ops : FloatOps F) (X : Ext F) (e e1 : Engine F)
    (h : prepareForSegmentation ops X e = some e1) : Unreached ops e1.leaves := by
  unfold prepareForSegmentation at h
  cases hin : e.input_ with
  | none => rw [hin] at h; cases h
  | some cloud =>
    rw [hin] at h
    simp only at h
    split_ifs at h
    cases h
    intro l hl _
    have hd : l.distance_ ∈ (computeVoxelData X _).leaves.map (·.distance_) :=
      List.mem_map.2 ⟨l, hl, rfl⟩
    rw [computeVoxelData_distance] at hd
    simp only [List.map_map, List.mem_map, Function.comp] at hd
    obtain ⟨_, _, hd⟩ := hd
    exact hd.symm

theorem extract_unreached (ops : FloatOps F) (X : Ext F) (e : Engine F) (m : SupervoxelMap F)
    (he : Fresh e) : Unreached ops (extract ops X e m).1.leaves := by
  rcases extract_cases ops X e m with h | ⟨e1, hp, h⟩
  · rw [h]
    intro l hl
    rw [he.2] at hl
    cases hl
  · rw [h, (makeSupervoxels_engine X (grown ops X e1)).2.1]
    unfold grown
    exact unreached_of_untouched ops _ _
      (untouched_trans _ _ _ (createSupervoxelHelpers_untouched X e1 _)
        (expandSupervoxels_untouched ops X _ _))
      (prepareForSegmentation_unreached ops X e e1 hp)

end Reached

section NotANumber

attribute [local semireducible] Rat.add Rat.mul Rat.sub Rat.inv

/-- C30 (the claim fails): two points in neighbouring voxels carry their own normals, the first
with a curvature that is not a number, the second with curvature 0.1.  After
`prepareForSegmentation` the leaf 0 has a curvature that is not a number and the leaf 1 as its
only neighbour; `findNeighborMinCurvature` at 0 returns 0, whose curvature is neither less than
nor equal to the curvature 0.1 of its neighbour, and the shift of `selectInitialSupervoxelSeeds`
leaves the seed 0 where it is. -/
theorem curvature_shift_keeps_nan_seed :
    ((prepareForSegmentation nanOps normalsExt nanCurvatureEngine).getD
        nanCurvatureEngine).leaves.map (fun l => (l.voxel_centroid_.curvature, l.neighbors)) =
        [(none, [1]), (some (1 / 10), [0])] ∧
      findNeighborMinCurvature nanOps
        ((prepareForSegmentation nanOps normalsExt nanCurvatureEngine).getD nanCurvatureEngine)
        0 = 0 ∧
      nanOps.lt none (some (1 / 10)) = false ∧ (none : Option ℚ) ≠ some (1 / 10) ∧
      shiftedSeeds nanOps normalsExt
        ((prepareForSegmentation nanOps normalsExt nanCurvatureEngine).getD nanCurvatureEngine) =
        [0, 1] := by
  refine ⟨?_, ?_, ?_, ?_, ?_⟩
  · set_option maxRecDepth 1000000 in decide
  · set_option maxRecDepth 1000000 in decide
  · decide
  · decide
  · set_option maxRecDepth 1000000 in decide

end NotANumber

end pcl
